import Mathlib

/-!
# Governance manager and wallet import: a verification development

Shallow embedding of `src/governance.h` (rate-check ring buffer, manager
snapshot codec, scoped flag guard) and of `importmulti` from
`src/wallet/rpcdump.cpp`, followed by the theorems about them.

Conventions of the embedding:
* `int64_t` values are integers; where the source computes on them the result
  is reduced with `wrapInt64` (two's complement, 64 bits);
* a `double` is the rational number it denotes; a conversion to `double` and a
  division of doubles round with `roundDouble` (binary64, to nearest, ties to
  even);
* a loop of the source is a function with a fuel argument and returns `none`
  when the source would never leave the loop.
-/

namespace Governance

/-! ## Definitions: CRateCheckBuffer -/

/-- Capacity of the ring, `static const int RATE_BUFFER_SIZE = 5`. -/
def RATE_BUFFER_SIZE : Nat := 5

/-- Largest `int64_t`, `std::numeric_limits<int64_t>::max()`. -/
def INT64_MAX : Int := 9223372036854775807

/-- Reduction of an integer to the `int64_t` range (two's complement). -/
def wrapInt64 (x : Int) : Int := (x + 9223372036854775808) % 18446744073709551616 - 9223372036854775808

/-- Nearest integer to a rational, a tie going to the even neighbour. -/
def roundHalfEven (s : ℚ) : Int :=
  let f := ⌊s⌋
  if s - f < 1 / 2 then f
  else if 1 / 2 < s - f then f + 1
  else if f % 2 = 0 then f else f + 1

/-- Rounding of a rational to the nearest `double` (IEEE 754 binary64, round to
nearest, ties to even), given as the rational that the double denotes: the
result is a multiple of `2 ^ k` for `k` the exponent of the leading bit of `q`
less 52, and of `2 ^ (-1074)` in the subnormal range. Magnitudes of `2 ^ 1024`
and more, which binary64 rounds to an infinity, are outside of this function:
what is rounded here is an `int64_t` value or a quotient of magnitude at most
5. -/
def roundDouble (q : ℚ) : ℚ :=
  let k : Int := max (Int.log 2 |q|) (-1022) - 52
  (roundHalfEven (q / 2 ^ k) : ℚ) * 2 ^ k

/-- The conversion `double(n)` of an integer value. -/
def intToDouble (n : Int) : ℚ := roundDouble n

/-- The quotient `a / b` of two doubles, `b` not zero. -/
def doubleDiv (a b : ℚ) : ℚ := roundDouble (a / b)

/-- The four private members of `class CRateCheckBuffer`. -/
structure CRateCheckBuffer where
  vecTimestamps : List Int
  nDataStart : Nat
  nDataEnd : Nat
  fBufferEmpty : Bool
deriving DecidableEq

namespace CRateCheckBuffer

/-- The constructor: a vector of `RATE_BUFFER_SIZE` zeros, both indices 0,
the buffer flagged empty. -/
def construct : CRateCheckBuffer :=
  { vecTimestamps := List.replicate RATE_BUFFER_SIZE 0
    nDataStart := 0
    nDataEnd := 0
    fBufferEmpty := true }

/-- Embedding of `AddTimestamp`: when the ring is full the start index advances, then the
slot at `nDataEnd` is overwritten and the end index advances. -/
def AddTimestamp (b : CRateCheckBuffer) (nTimestamp : Int) : CRateCheckBuffer :=
  let nDataStart :=
    if b.nDataEnd = b.nDataStart ∧ b.fBufferEmpty = false then
      (b.nDataStart + 1) % RATE_BUFFER_SIZE
    else b.nDataStart
  { vecTimestamps := b.vecTimestamps.set b.nDataEnd nTimestamp
    nDataStart := nDataStart
    nDataEnd := (b.nDataEnd + 1) % RATE_BUFFER_SIZE
    fBufferEmpty := false }

/-- A sequence of `AddTimestamp` calls, first element first. -/
def addAll (b : CRateCheckBuffer) (ts : List Int) : CRateCheckBuffer :=
  ts.foldl AddTimestamp b

/-- The `do ... while (nIndex != nDataEnd)` loop of `GetMinTimestamp`. One unit
of fuel is one pass through the body. -/
def minLoop (vec : List Int) (nDataEnd : Nat) : Nat → Nat → Int → Option Int
  | 0, _, _ => none
  | fuel + 1, nIndex, nMin =>
    let nMin := if vec.getD nIndex 0 < nMin then vec.getD nIndex 0 else nMin
    let nIndex := (nIndex + 1) % RATE_BUFFER_SIZE
    if nIndex ≠ nDataEnd then minLoop vec nDataEnd fuel nIndex nMin else some nMin

/-- The `do ... while (nIndex != nDataEnd)` loop of `GetMaxTimestamp`. -/
def maxLoop (vec : List Int) (nDataEnd : Nat) : Nat → Nat → Int → Option Int
  | 0, _, _ => none
  | fuel + 1, nIndex, nMax =>
    let nMax := if vec.getD nIndex 0 > nMax then vec.getD nIndex 0 else nMax
    let nIndex := (nIndex + 1) % RATE_BUFFER_SIZE
    if nIndex ≠ nDataEnd then maxLoop vec nDataEnd fuel nIndex nMax else some nMax

/-- Embedding of `GetMinTimestamp`. After the first pass the index stays below
`RATE_BUFFER_SIZE` and has period `RATE_BUFFER_SIZE`, so the loop is left
within `RATE_BUFFER_SIZE` passes or never: that much fuel is exact. -/
def GetMinTimestamp (b : CRateCheckBuffer) : Option Int :=
  if b.fBufferEmpty then some INT64_MAX
  else minLoop b.vecTimestamps b.nDataEnd RATE_BUFFER_SIZE b.nDataStart INT64_MAX

/-- Embedding of `GetMaxTimestamp`: the running maximum starts at 0. -/
def GetMaxTimestamp (b : CRateCheckBuffer) : Option Int :=
  if b.fBufferEmpty then some 0
  else maxLoop b.vecTimestamps b.nDataEnd RATE_BUFFER_SIZE b.nDataStart 0

/-- Embedding of `GetCount`. -/
def GetCount (b : CRateCheckBuffer) : Int :=
  if b.fBufferEmpty then 0
  else if b.nDataEnd > b.nDataStart then (b.nDataEnd : Int) - (b.nDataStart : Int)
  else (RATE_BUFFER_SIZE : Int) - (b.nDataStart : Int) + (b.nDataEnd : Int)

/-- What a call of `GetRate` comes to. `value r` is the returned double;
`divisionByZero` records that the quotient on the last line was formed with
divisor 0; `noReturn` that one of the scans never left its loop. -/
inductive RateResult where
  | value (r : ℚ)
  | divisionByZero
  | noReturn
deriving DecidableEq

/-- The sentinel `1.0e10` returned for an infinite rate. -/
def RATE_INFINITE : ℚ := 10000000000

/-- Embedding of `GetRate`; the last line is
`double(nCount) / double(nMax - nMin)`. -/
def GetRate (b : CRateCheckBuffer) : RateResult :=
  let nCount := b.GetCount
  if nCount < (RATE_BUFFER_SIZE : Int) then RateResult.value 0
  else
    match b.GetMinTimestamp with
    | none => RateResult.noReturn
    | some nMin =>
      match b.GetMaxTimestamp with
      | none => RateResult.noReturn
      | some nMax =>
        if nMin = nMax then RateResult.value RATE_INFINITE
        else
          let d := wrapInt64 (nMax - nMin)
          if d = 0 then RateResult.divisionByZero
          else RateResult.value (doubleDiv (intToDouble nCount) (intToDouble d))

/-- The valid region of a full ring: the `RATE_BUFFER_SIZE` slots read from
`nDataStart` forward, wrapping modulo `RATE_BUFFER_SIZE`. -/
def ringRegion (b : CRateCheckBuffer) : List Int :=
  (List.range RATE_BUFFER_SIZE).map
    (fun i => b.vecTimestamps.getD ((b.nDataStart + i) % RATE_BUFFER_SIZE) 0)

/-- The last `RATE_BUFFER_SIZE` elements of a list of timestamps. -/
def lastFive (ts : List Int) : List Int := ts.drop (ts.length - RATE_BUFFER_SIZE)

/-- One pass of the body of the scan in `GetMinTimestamp`. -/
def minStep (nMin x : Int) : Int := if x < nMin then x else nMin

/-- One pass of the body of the scan in `GetMaxTimestamp`. -/
def maxStep (nMax x : Int) : Int := if x > nMax then x else nMax

/-- The `k` slots read from index `idx` forward, wrapping modulo
`RATE_BUFFER_SIZE`. -/
def scanRegion (vec : List Int) (idx k : Nat) : List Int :=
  (List.range k).map (fun j => vec.getD ((idx + j) % RATE_BUFFER_SIZE) 0)

/-- Representation invariant: `b` is what a freshly constructed buffer becomes
after the timestamps `ts` were added, described slot by slot. -/
structure Tracks (b : CRateCheckBuffer) (ts : List Int) : Prop where
  size : b.vecTimestamps.length = RATE_BUFFER_SIZE
  dataEnd : b.nDataEnd = ts.length % RATE_BUFFER_SIZE
  dataStart : b.nDataStart = if ts.length < RATE_BUFFER_SIZE then 0 else ts.length % RATE_BUFFER_SIZE
  empty : b.fBufferEmpty = decide (ts.length = 0)
  slots : ∀ j : Nat, j < ts.length → ts.length ≤ j + RATE_BUFFER_SIZE →
    b.vecTimestamps.getD (j % RATE_BUFFER_SIZE) 0 = ts.getD j 0

end CRateCheckBuffer

/-! ## Definitions: serialization of CRateCheckBuffer and CGovernanceManager

`serialize.h`, `cachemap.h` and `cachemultimap.h` are not part of the sources
at hand, so the codec of every member type is a parameter. A stream is a list
of items; `READWRITE(x)` in a writing pass appends `write x`, in a reading pass
it decodes a value from the front of the stream or throws. -/

/-- The data stream `s` of `SerializationOp`. -/
abbrev Stream := List Int

/-- What `READWRITE` does for the values of one type. `read` answers `none`
when the stream throws (truncated or malformed input). -/
structure FieldCodec (α : Type) where
  write : α → Stream
  read : Stream → Option (α × Stream)

/-- A codec reads back what it wrote and leaves the rest of the stream. -/
def FieldCodec.RoundTrips {α : Type} (c : FieldCodec α) : Prop :=
  ∀ (x : α) (rest : Stream), c.read (c.write x ++ rest) = some (x, rest)

/-- Codecs of the primitive types used by `CRateCheckBuffer::SerializationOp`
and `last_object_rec::SerializationOp`. -/
structure PrimCodecs where
  vecInt64 : FieldCodec (List Int)
  int : FieldCodec Nat
  bool : FieldCodec Bool

/-- Embedding of `CRateCheckBuffer::SerializationOp`: `vecTimestamps`, `nDataStart`,
`nDataEnd`, `fBufferEmpty`, in this order, for both directions. -/
def CRateCheckBuffer.SerializationOp (p : PrimCodecs) : FieldCodec CRateCheckBuffer where
  write b :=
    p.vecInt64.write b.vecTimestamps ++ (p.int.write b.nDataStart ++
      (p.int.write b.nDataEnd ++ p.bool.write b.fBufferEmpty))
  read s :=
    match p.vecInt64.read s with
    | none => none
    | some (vecTimestamps, s) =>
      match p.int.read s with
      | none => none
      | some (nDataStart, s) =>
        match p.int.read s with
        | none => none
        | some (nDataEnd, s) =>
          match p.bool.read s with
          | none => none
          | some (fBufferEmpty, s) =>
            some ({ vecTimestamps := vecTimestamps, nDataStart := nDataStart,
                    nDataEnd := nDataEnd, fBufferEmpty := fBufferEmpty }, s)

/-- Embedding of `CGovernanceManager::last_object_rec`. -/
structure last_object_rec where
  triggerBuffer : CRateCheckBuffer
  fStatusOK : Bool
deriving DecidableEq

/-- Embedding of `last_object_rec::SerializationOp`: `triggerBuffer`, then `fStatusOK`. -/
def last_object_rec.SerializationOp (p : PrimCodecs) : FieldCodec last_object_rec where
  write r := (CRateCheckBuffer.SerializationOp p).write r.triggerBuffer ++ p.bool.write r.fStatusOK
  read s :=
    match (CRateCheckBuffer.SerializationOp p).read s with
    | none => none
    | some (triggerBuffer, s) =>
      match p.bool.read s with
      | none => none
      | some (fStatusOK, s) => some ({ triggerBuffer := triggerBuffer, fStatusOK := fStatusOK }, s)

/-- Embedding of `uint256`, the identity of an object or of a vote. -/
abbrev uint256 := Nat

/-- Embedding of `COutPoint`: transaction hash and output index. -/
abbrev COutPoint := uint256 × Nat

/-- The members of `CGovernanceManager` that `Clear` and `SerializationOp`
touch. A `std::map`, `CacheMap` or `CacheMultiMap` is the list of its entries,
the empty container is `[]`; `CGovernanceObject`, `CGovernanceVote` and the
entries of `CDeterministicMNList` are the parameters `Obj`, `Vote` and `MN`.
An entry of `cmmapOrphanVotes` is a `vote_time_pair_t`; `cmapVoteToObject`
maps a vote to the identity of the object it points to. -/
structure CGovernanceManager (Obj Vote MN : Type) where
  mapObjects : List (uint256 × Obj)
  mapErasedGovernanceObjects : List (uint256 × Int)
  cmapVoteToObject : List (uint256 × uint256)
  cmapInvalidVotes : List (uint256 × Vote)
  cmmapOrphanVotes : List (uint256 × (Vote × Int))
  mapLastMasternodeObject : List (COutPoint × last_object_rec)
  lastMNListForVotingKeys : List MN
deriving DecidableEq

/-- The codecs `CGovernanceManager::SerializationOp` relies on: one per member
type, the one of `std::map<COutPoint, last_object_rec>` as a function of the
codec of its values. -/
structure Codecs (Obj Vote MN : Type) where
  str : FieldCodec String
  erased : FieldCodec (List (uint256 × Int))
  invalidVotes : FieldCodec (List (uint256 × Vote))
  orphanVotes : FieldCodec (List (uint256 × (Vote × Int)))
  objects : FieldCodec (List (uint256 × Obj))
  mapOf : FieldCodec last_object_rec → FieldCodec (List (COutPoint × last_object_rec))
  mnList : FieldCodec (List MN)
  prim : PrimCodecs

/-- Every codec of the bundle reads back what it wrote. -/
structure Codecs.RoundTrips {Obj Vote MN : Type} (c : Codecs Obj Vote MN) : Prop where
  str : c.str.RoundTrips
  erased : c.erased.RoundTrips
  invalidVotes : c.invalidVotes.RoundTrips
  orphanVotes : c.orphanVotes.RoundTrips
  objects : c.objects.RoundTrips
  mapOf : ∀ v : FieldCodec last_object_rec, v.RoundTrips → (c.mapOf v).RoundTrips
  mnList : c.mnList.RoundTrips
  vecInt64 : c.prim.vecInt64.RoundTrips
  int : c.prim.int.RoundTrips
  bool : c.prim.bool.RoundTrips

namespace CGovernanceManager

variable {Obj Vote MN : Type}

/-- The codec of the member `mapLastMasternodeObject`. -/
def lastObjectCodec (c : Codecs Obj Vote MN) : FieldCodec (List (COutPoint × last_object_rec)) :=
  c.mapOf (last_object_rec.SerializationOp c.prim)

/-- Embedding of `Clear()`: six containers are emptied. -/
def Clear (m : CGovernanceManager Obj Vote MN) : CGovernanceManager Obj Vote MN :=
  { m with
    mapObjects := []
    mapErasedGovernanceObjects := []
    cmapVoteToObject := []
    cmapInvalidVotes := []
    cmmapOrphanVotes := []
    mapLastMasternodeObject := [] }

/-- The six `READWRITE` lines 352-357 of `SerializationOp` in a reading pass:
each member is replaced by the value decoded from the stream; `none` when one
of the reads throws. -/
def readMembers (c : Codecs Obj Vote MN) (m : CGovernanceManager Obj Vote MN) (s : Stream) :
    Option (CGovernanceManager Obj Vote MN × Stream) :=
  match c.erased.read s with
  | none => none
  | some (erased, s) =>
    match c.invalidVotes.read s with
    | none => none
    | some (invalid, s) =>
      match c.orphanVotes.read s with
      | none => none
      | some (orphan, s) =>
        match c.objects.read s with
        | none => none
        | some (objects, s) =>
          match (lastObjectCodec c).read s with
          | none => none
          | some (lastObject, s) =>
            match c.mnList.read s with
            | none => none
            | some (mnList, s) =>
              some ({ m with
                      mapErasedGovernanceObjects := erased
                      cmapInvalidVotes := invalid
                      cmmapOrphanVotes := orphan
                      mapObjects := objects
                      mapLastMasternodeObject := lastObject
                      lastMNListForVotingKeys := mnList }, s)

/-- The same six `READWRITE` lines in a writing pass. -/
def writeMembers (c : Codecs Obj Vote MN) (m : CGovernanceManager Obj Vote MN) : Stream :=
  c.erased.write m.mapErasedGovernanceObjects ++ (c.invalidVotes.write m.cmapInvalidVotes ++
    (c.orphanVotes.write m.cmmapOrphanVotes ++ (c.objects.write m.mapObjects ++
      ((lastObjectCodec c).write m.mapLastMasternodeObject ++
        c.mnList.write m.lastMNListForVotingKeys))))

/-- What a reading pass of `SerializationOp` comes to: the manager and the
rest of the stream, or the exception of a read that failed. -/
inductive ReadResult (Obj Vote MN : Type) where
  | ok (m : CGovernanceManager Obj Vote MN) (rest : Stream)
  | ioFailure
deriving DecidableEq

/-- Embedding of `SerializationOp` with `ser_action.ForRead()`: the version string is read,
then the six members, and only then the version is compared with
`SERIALIZATION_VERSION_STRING` (a constant of `governance.cpp`, here the
parameter `version`); on a mismatch `Clear()` is called. -/
def SerializationOpRead (c : Codecs Obj Vote MN) (version : String)
    (m : CGovernanceManager Obj Vote MN) (s : Stream) : ReadResult Obj Vote MN :=
  match c.str.read s with
  | none => ReadResult.ioFailure
  | some (strVersion, s) =>
    match readMembers c m s with
    | none => ReadResult.ioFailure
    | some (m, s) =>
      if strVersion ≠ version then ReadResult.ok (Clear m) s
      else ReadResult.ok m s

/-- Embedding of `SerializationOp` in a writing pass: `strVersion` is set to
`SERIALIZATION_VERSION_STRING` and written, then the six members. -/
def SerializationOpWrite (c : Codecs Obj Vote MN) (version : String)
    (m : CGovernanceManager Obj Vote MN) (s : Stream) : Stream :=
  s ++ (c.str.write version ++ writeMembers c m)

end CGovernanceManager

/-! ### A small wire format

Used to run `SerializationOp` on concrete streams: a scalar is one item of the
stream, a container is its size followed by its entries. -/

namespace Wire

/-- An `int64_t` is one item. -/
def int64 : FieldCodec Int where
  write x := [x]
  read s := match s with
    | [] => none
    | x :: rest => some (x, rest)

/-- An unsigned value is one non-negative item. -/
def nat : FieldCodec Nat where
  write n := [(n : Int)]
  read s := match s with
    | [] => none
    | x :: rest => if 0 ≤ x then some (x.toNat, rest) else none

/-- A `bool` is the item 0 or 1. -/
def bool : FieldCodec Bool where
  write b := [if b then 1 else 0]
  read s := match s with
    | [] => none
    | x :: rest => if x = 0 then some (false, rest) else if x = 1 then some (true, rest) else none

/-- A `std::pair`: first, then second. -/
def pair {α β : Type} (a : FieldCodec α) (b : FieldCodec β) : FieldCodec (α × β) where
  write x := a.write x.1 ++ b.write x.2
  read s := match a.read s with
    | none => none
    | some (x, s) =>
      match b.read s with
      | none => none
      | some (y, s) => some ((x, y), s)

/-- Reads `n` entries. -/
def readEntries {α : Type} (a : FieldCodec α) : Nat → Stream → Option (List α × Stream)
  | 0, s => some ([], s)
  | n + 1, s =>
    match a.read s with
    | none => none
    | some (x, s) =>
      match readEntries a n s with
      | none => none
      | some (xs, s) => some (x :: xs, s)

/-- Writes the entries one after the other. -/
def writeEntries {α : Type} (a : FieldCodec α) : List α → Stream
  | [] => []
  | x :: xs => a.write x ++ writeEntries a xs

/-- A container: its size, then its entries. -/
def list {α : Type} (a : FieldCodec α) : FieldCodec (List α) where
  write xs := (xs.length : Int) :: writeEntries a xs
  read s := match s with
    | [] => none
    | n :: rest => if 0 ≤ n then readEntries a n.toNat rest else none

/-- A `std::string`: its size, then the code of each character. -/
def string : FieldCodec String where
  write str := (list nat).write (str.toList.map Char.toNat)
  read s := match (list nat).read s with
    | none => none
    | some (codes, rest) => some (String.mk (codes.map Char.ofNat), rest)

/-- The primitive codecs of the wire format. -/
def prim : PrimCodecs where
  vecInt64 := list int64
  int := nat
  bool := bool

/-- The codecs of the wire format for a manager whose objects, votes and
masternode entries are numbers. -/
def codecs : Codecs Nat Nat Nat where
  str := string
  erased := list (pair nat int64)
  invalidVotes := list (pair nat nat)
  orphanVotes := list (pair nat (pair nat int64))
  objects := list (pair nat nat)
  mapOf := fun v => list (pair (pair nat nat) v)
  mnList := list nat
  prim := prim

/-- A manager with no entry at all. -/
def emptyManager : CGovernanceManager Nat Nat Nat :=
  { mapObjects := [], mapErasedGovernanceObjects := [], cmapVoteToObject := [],
    cmapInvalidVotes := [], cmmapOrphanVotes := [], mapLastMasternodeObject := [],
    lastMNListForVotingKeys := [] }

/-- A manager with one entry in every serialized member. -/
def sampleManager : CGovernanceManager Nat Nat Nat :=
  { mapObjects := [(1, 10)]
    mapErasedGovernanceObjects := [(2, 1700000000)]
    cmapVoteToObject := [(3, 1)]
    cmapInvalidVotes := [(3, 30)]
    cmmapOrphanVotes := [(4, (40, 1700003600))]
    mapLastMasternodeObject :=
      [((5, 0), { triggerBuffer := CRateCheckBuffer.construct.AddTimestamp 1700000000,
                  fStatusOK := true })]
    lastMNListForVotingKeys := [7] }

/-- The snapshot of `sampleManager` written under the version string `"v1"`. -/
def sampleStream : Stream :=
  [2, 118, 49,
   1, 2, 1700000000,
   1, 3, 30,
   1, 4, 40, 1700003600,
   1, 1, 10,
   1, 5, 0, 5, 1700000000, 0, 0, 0, 0, 0, 1, 0, 1,
   1, 7]

/-- A snapshot cut short: the version string `"v1"`, then a tombstone map
announcing one entry of which only the key is present. -/
def truncatedStream : Stream := [2, 118, 49, 1, 2]

end Wire

/-! ## Definitions: ScopedLockBool -/

/-- Embedding of `CGovernanceManager::ScopedLockBool`. The member `ref` is a reference to
the guarded flag; the flag itself is passed to and returned by the operations
below. -/
structure ScopedLockBool where
  fPrevValue : Bool
deriving DecidableEq

namespace ScopedLockBool

/-- The constructor `ScopedLockBool(_cs, _ref, _value)`: the flag is saved in
`fPrevValue` and set to `_value`. Answers the guard and the flag.
`AssertLockHeld(_cs)` is a debugging assertion about the caller's critical
section and does not touch the flag. -/
def construct (ref : Bool) (value : Bool) : ScopedLockBool × Bool :=
  ({ fPrevValue := ref }, value)

/-- The destructor: `ref = fPrevValue`. Answers the flag. -/
def destruct (guard : ScopedLockBool) (_ref : Bool) : Bool :=
  guard.fPrevValue

/-- How a block of code is left: at its end (or by `return`) with a value, or
by an exception. -/
inductive Exit (ε α : Type) where
  | normal (a : α)
  | thrown (e : ε)
deriving DecidableEq

/-- A block of code that may read and write the flag: from the flag at entry
to the flag at exit and the way the block is left. -/
abbrev Block (ε α : Type) := Bool → Bool × Exit ε α

/-- The scope `{ ScopedLockBool guard(cs, ref, value); body }`: the
constructor runs, then the body, then the destructor, which C++ runs on every
way out of the scope. -/
def scope {ε α : Type} (value : Bool) (body : Block ε α) : Block ε α := fun ref =>
  let (guard, ref) := construct ref value
  let (ref, exit) := body ref
  (guard.destruct ref, exit)

/-- Properly nested guards: the first value belongs to the outermost guard,
the body runs inside the innermost. -/
def nested {ε α : Type} : List Bool → Block ε α → Block ε α
  | [], body => body
  | value :: values, body => scope value (nested values body)

end ScopedLockBool

/-! ## Definitions: importmulti (wallet/rpcdump.cpp)

The JSON library, the chain and the wallet are not part of the sources at
hand: `UniValue` is modelled by its six kinds of value, the chain queries and
the wallet operations are parameters (`ImportContext`). -/

namespace Wallet

/-- A JSON value of the `univalue` library. A number keeps its text, as in the
library. -/
inductive UniValue where
  | VNULL
  | VBOOL (b : Bool)
  | VNUM (val : String)
  | VSTR (val : String)
  | VARR (values : List UniValue)
  | VOBJ (entries : List (String × UniValue))

/-- What is thrown: a JSON error object (`throw JSONRPCError(...)`) or a
standard exception with its text. -/
inductive RpcException where
  | object (e : UniValue)
  | runtimeError (what : String)
  | outOfRange

namespace UniValue

/-- Embedding of `NullUniValue`. -/
def NullUniValue : UniValue := VNULL

/-- Embedding of `findKey`: the value of the first entry with the key. -/
def findKey : List (String × UniValue) → String → Option UniValue
  | [], _ => none
  | (k, v) :: rest, key => if k = key then some v else findKey rest key

/-- Embedding of `exists(key)`: only an object has keys. -/
def exists_ (v : UniValue) (key : String) : Bool :=
  match v with
  | VOBJ entries => (findKey entries key).isSome
  | _ => false

/-- Embedding of `operator[](key)`: `NullUniValue` unless an object with the key. -/
def atKey (v : UniValue) (key : String) : UniValue :=
  match v with
  | VOBJ entries => (findKey entries key).getD NullUniValue
  | _ => NullUniValue

/-- Embedding of `isNum()`. -/
def isNum : UniValue → Bool
  | VNUM _ => true
  | _ => false

/-- Embedding of `isStr()`. -/
def isStr : UniValue → Bool
  | VSTR _ => true
  | _ => false

/-- Embedding of `uvTypeName(v.type())`. -/
def typeName : UniValue → String
  | VNULL => "null"
  | VBOOL _ => "bool"
  | VNUM _ => "number"
  | VSTR _ => "string"
  | VARR _ => "array"
  | VOBJ _ => "object"

/-- Embedding of `get_bool()`. -/
def get_bool : UniValue → Except RpcException Bool
  | VBOOL b => Except.ok b
  | _ => Except.error (RpcException.runtimeError "JSON value is not a boolean as expected")

/-- Embedding of `get_str()`. -/
def get_str : UniValue → Except RpcException String
  | VSTR val => Except.ok val
  | _ => Except.error (RpcException.runtimeError "JSON value is not a string as expected")

/-- Embedding of `get_int64()`; `parseInt64` stands for `ParseInt64`. -/
def get_int64 (parseInt64 : String → Option Int) : UniValue → Except RpcException Int
  | VNUM val =>
    match parseInt64 val with
    | some n => Except.ok n
    | none => Except.error (RpcException.runtimeError "JSON integer out of range")
  | _ => Except.error (RpcException.runtimeError "JSON value is not an integer as expected")

end UniValue

open UniValue

/-- Embedding of `RPC_MISC_ERROR` of `rpc/protocol.h`. -/
def RPC_MISC_ERROR : Int := -1

/-- Embedding of `RPC_TYPE_ERROR` of `rpc/protocol.h`. -/
def RPC_TYPE_ERROR : Int := -3

/-- Embedding of `JSONRPCError(code, message)`: the error object. -/
def JSONRPCError (code : Int) (message : String) : UniValue :=
  VOBJ [("code", VNUM (toString code)), ("message", VSTR message)]

/-- Embedding of `GetImportTimestamp`. -/
def GetImportTimestamp (parseInt64 : String → Option Int) (data : UniValue) (now : Int) :
    Except RpcException Int :=
  if data.exists_ "timestamp" then
    let timestamp := data.atKey "timestamp"
    if timestamp.isNum then
      get_int64 parseInt64 timestamp
    else if timestamp.isStr && (match timestamp with | VSTR val => val == "now" | _ => false) then
      Except.ok now
    else
      Except.error (RpcException.object (JSONRPCError RPC_TYPE_ERROR
        ("Expected number or \"now\" timestamp value for key. got type " ++ typeName timestamp)))
  else
    Except.error (RpcException.object
      (JSONRPCError RPC_TYPE_ERROR "Missing required timestamp field for key"))

/-- The members of `CBlockIndex` that `importmulti` reads: `nHeight`,
`GetBlockTime()`, `GetBlockTimeMax()` and `GetMedianTimePast()`. -/
structure CBlockIndex where
  nHeight : Int
  blockTime : Int
  blockTimeMax : Int
  medianTimePast : Int
deriving DecidableEq

/-- Embedding of `JSONRPCRequest`: the help flag and the positional parameters. -/
structure JSONRPCRequest where
  fHelp : Bool
  params : List UniValue

/-- What `importmulti` calls and reads outside of this file, for a wallet
state of type `W`: the two wallet checks of `rpcwallet.cpp`, `ParseInt64`, the
active chain (`Tip()`, `Genesis()`, `FindEarliestAtLeast`), `TIMESTAMP_WINDOW`
of `chain.h`, `ProcessImport` and the wallet's rescan. -/
structure ImportContext (W : Type) where
  ensureWalletIsAvailable : Except RpcException Bool
  ensureWalletIsUnlocked : Except RpcException Unit
  parseInt64 : String → Option Int
  tip : Option CBlockIndex
  genesis : Option CBlockIndex
  findEarliestAtLeast : Int → Option CBlockIndex
  TIMESTAMP_WINDOW : Int
  processImport : W → UniValue → Int → W × UniValue
  scanForWalletTransactions : W → CBlockIndex → W × Option CBlockIndex
  reacceptWalletTransactions : W → W

/-- How a call of an RPC function ends, with the wallet it leaves behind:
it returns a value, it throws, or it reads through a null pointer. -/
inductive RpcOutcome (W : Type) where
  | returned (v : UniValue) (wallet : W)
  | thrown (e : RpcException) (wallet : W)
  | nullDereference (wallet : W)

/-- Embedding of `const int64_t minimumTimestamp = 1`. -/
def minimumTimestamp : Int := 1

/-- The variables the import loop updates. -/
structure LoopState (W : Type) where
  wallet : W
  response : List UniValue
  fRunScan : Bool
  nLowestTimestamp : Int

/-- The loop `BOOST_FOREACH (const UniValue& data, requests.getValues())`,
lines 1290-1308. -/
def importLoop {W : Type} (ctx : ImportContext W) (now : Int) (fRescan : Bool) :
    List UniValue → LoopState W → Except (RpcException × W) (LoopState W)
  | [], st => Except.ok st
  | data :: rest, st =>
    match GetImportTimestamp ctx.parseInt64 data now with
    | Except.error e => Except.error (e, st.wallet)
    | Except.ok ts =>
      let timestamp := max ts minimumTimestamp
      let (wallet, result) := ctx.processImport st.wallet data timestamp
      let st := { st with wallet := wallet, response := st.response ++ [result] }
      if !fRescan then importLoop ctx now fRescan rest st
      else
        match (result.atKey "success").get_bool with
        | Except.error e => Except.error (e, wallet)
        | Except.ok success =>
          let fRunScan := if success then true else st.fRunScan
          let nLowestTimestamp :=
            if timestamp < st.nLowestTimestamp then timestamp else st.nLowestTimestamp
          importLoop ctx now fRescan rest
            { st with fRunScan := fRunScan, nLowestTimestamp := nLowestTimestamp }

/-- The result that replaces an import whose key may predate the scanned
range. -/
def rescanFailure (blockTimeMax : Int) : UniValue :=
  VOBJ [("success", VBOOL false),
        ("error", JSONRPCError RPC_MISC_ERROR
          ("Failed to rescan before time " ++ toString blockTimeMax ++
            ", transactions may be missing."))]

/-- How the rewriting loop ends. -/
inductive RewriteOutcome where
  | done (response : List UniValue)
  | thrown (e : RpcException)
  | nullDereference

/-- The loop `for (const UniValue& request : requests.getValues())`, lines
1323-1337, with `i` the running index and `response` the array being rebuilt.
`scannedRange` may be the null pointer; the loop reads through it. -/
def rewriteLoop (parseInt64 : String → Option Int) (TIMESTAMP_WINDOW now : Int)
    (scannedRange : Option CBlockIndex) (results : List UniValue) :
    List UniValue → Nat → List UniValue → RewriteOutcome
  | [], _, response => RewriteOutcome.done response
  | request :: rest, i, response =>
    match GetImportTimestamp parseInt64 request now with
    | Except.error e => RewriteOutcome.thrown e
    | Except.ok ts =>
      match scannedRange with
      | none => RewriteOutcome.nullDereference
      | some range =>
        match results[i]? with
        | none => RewriteOutcome.thrown RpcException.outOfRange
        | some result =>
          if wrapInt64 (ts - TIMESTAMP_WINDOW) ≥ range.blockTimeMax || result.exists_ "error" then
            rewriteLoop parseInt64 TIMESTAMP_WINDOW now scannedRange results rest (i + 1)
              (response ++ [result])
          else
            rewriteLoop parseInt64 TIMESTAMP_WINDOW now scannedRange results rest (i + 1)
              (response ++ [rescanFailure range.blockTimeMax])

/-- Lines 1272-1276: every timestamp is checked before any key is imported. -/
def verifyTimestamps (parseInt64 : String → Option Int) (now : Int) :
    List UniValue → Except RpcException Unit
  | [] => Except.ok ()
  | data :: rest =>
    match GetImportTimestamp parseInt64 data now with
    | Except.error e => Except.error e
    | Except.ok _ => verifyTimestamps parseInt64 now rest

/-- Line 1311: the block the rescan starts at, `pindex`. -/
def rescanStart {W : Type} (ctx : ImportContext W) (nLowestTimestamp : Int) : Option CBlockIndex :=
  if nLowestTimestamp > minimumTimestamp then
    ctx.findEarliestAtLeast (max (wrapInt64 (nLowestTimestamp - ctx.TIMESTAMP_WINDOW)) 0)
  else ctx.genesis

/-- Lines 1312-1316: `scannedRange` starts as the null pointer; with a start
block the wallet is rescanned and its transactions are reaccepted. -/
def runScan {W : Type} (ctx : ImportContext W) (wallet : W) (pindex : Option CBlockIndex) :
    W × Option CBlockIndex :=
  match pindex with
  | some p =>
    let (w, scannedRange) := ctx.scanForWalletTransactions wallet p
    (ctx.reacceptWalletTransactions w, scannedRange)
  | none => (wallet, none)

/-- Line 1318: `!scannedRange || scannedRange->nHeight > pindex->nHeight`.
A scanned range comes from a scan, so `pindex` is not null when it is read. -/
def scanIncomplete (scannedRange pindex : Option CBlockIndex) : Bool :=
  match scannedRange, pindex with
  | none, _ => true
  | some range, some p => decide (range.nHeight > p.nHeight)
  | some _, none => true

/-- The body of `importmulti` from `LOCK2` on (lines 1269-1341), for the
requests of `params[0]` and the value of the option `rescan`. -/
def importmultiBody {W : Type} (ctx : ImportContext W) (requests : List UniValue)
    (fRescanOption : Bool) (wallet : W) : RpcOutcome W :=
  match ctx.ensureWalletIsUnlocked with
  | Except.error e => RpcOutcome.thrown e wallet
  | Except.ok () =>
    let now : Int := match ctx.tip with
      | some tip => tip.medianTimePast
      | none => 0
    match verifyTimestamps ctx.parseInt64 now requests with
    | Except.error e => RpcOutcome.thrown e wallet
    | Except.ok () =>
      let fRescan := fRescanOption && ctx.tip.isSome
      let nLowestTimestamp : Int := match ctx.tip with
        | some tip => if fRescanOption then tip.blockTime else 0
        | none => 0
      match importLoop ctx now fRescan requests
          { wallet := wallet, response := [], fRunScan := false,
            nLowestTimestamp := nLowestTimestamp } with
      | Except.error (e, wallet) => RpcOutcome.thrown e wallet
      | Except.ok st =>
        if fRescan && st.fRunScan && decide (requests.length ≠ 0) then
          let pindex := rescanStart ctx st.nLowestTimestamp
          let scan := runScan ctx st.wallet pindex
          if scanIncomplete scan.2 pindex then
            match rewriteLoop ctx.parseInt64 ctx.TIMESTAMP_WINDOW now scan.2 st.response
                requests 0 [] with
            | RewriteOutcome.done response => RpcOutcome.returned (VARR response) scan.1
            | RewriteOutcome.thrown e => RpcOutcome.thrown e scan.1
            | RewriteOutcome.nullDereference => RpcOutcome.nullDereference scan.1
          else RpcOutcome.returned (VARR st.response) scan.1
        else RpcOutcome.returned (VARR st.response) st.wallet

/-- Embedding of `importmulti`: the wallet check, the usage check (the usage text thrown is
cut to its first line), `RPCTypeCheck` for an array and an object, the option
`rescan`, then the body. -/
def importmulti {W : Type} (ctx : ImportContext W) (mainRequest : JSONRPCRequest) (wallet : W) :
    RpcOutcome W :=
  match ctx.ensureWalletIsAvailable with
  | Except.error e => RpcOutcome.thrown e wallet
  | Except.ok false => RpcOutcome.returned NullUniValue wallet
  | Except.ok true =>
    if mainRequest.fHelp || mainRequest.params.length < 1 || mainRequest.params.length > 2 then
      RpcOutcome.thrown (RpcException.runtimeError "importmulti \"requests\" \"options\"") wallet
    else
      match mainRequest.params with
      | [] => RpcOutcome.thrown (RpcException.runtimeError "importmulti \"requests\" \"options\"") wallet
      | VARR requests :: [] => importmultiBody ctx requests true wallet
      | VARR requests :: VOBJ entries :: _ =>
        if (VOBJ entries).exists_ "rescan" then
          match ((VOBJ entries).atKey "rescan").get_bool with
          | Except.error e => RpcOutcome.thrown e wallet
          | Except.ok fRescan => importmultiBody ctx requests fRescan wallet
        else importmultiBody ctx requests true wallet
      | VARR _ :: options :: _ =>
        RpcOutcome.thrown (RpcException.object (JSONRPCError RPC_TYPE_ERROR
          ("Expected type object, got " ++ typeName options))) wallet
      | requests :: _ =>
        RpcOutcome.thrown (RpcException.object (JSONRPCError RPC_TYPE_ERROR
          ("Expected type array, got " ++ typeName requests))) wallet

/-- The time `now` of `importmulti`: the median time past of the tip, 0
without a tip. -/
def importNow {W : Type} (ctx : ImportContext W) : Int :=
  match ctx.tip with
  | some tip => tip.medianTimePast
  | none => 0

/-- The value `result` is what `ProcessImport` returned for `request`, called
with the timestamp `importmulti` computes for that request. -/
def IsResultFor {W : Type} (ctx : ImportContext W) (request result : UniValue) : Prop :=
  ∃ (wallet : W) (ts : Int),
    GetImportTimestamp ctx.parseInt64 request (importNow ctx) = Except.ok ts ∧
    result = (ctx.processImport wallet request (max ts minimumTimestamp)).2

/-- The value `entry` is the execution result reported for `request`: what
`ProcessImport` returned for it, or the rescan failure put in its place when
that result carried no error. -/
def IsResponseFor {W : Type} (ctx : ImportContext W) (request entry : UniValue) : Prop :=
  ∃ result : UniValue, IsResultFor ctx request result ∧
    (entry = result ∨
      (result.exists_ "error" = false ∧ ∃ t : Int, entry = rescanFailure t))

/-- A wallet for the examples: the list of the requests imported so far. -/
abbrev SampleWallet := List String

/-- An import for the examples: a request whose `scriptPubKey` is a string is
imported, any other is refused with an error object. -/
def sampleProcessImport (wallet : SampleWallet) (data : UniValue) (_timestamp : Int) :
    SampleWallet × UniValue :=
  match data.atKey "scriptPubKey" with
  | VSTR script => (wallet ++ [script], VOBJ [("success", VBOOL true)])
  | _ => (wallet, VOBJ [("success", VBOOL false),
            ("error", JSONRPCError (-8) "Invalid scriptPubKey")])

/-- The first block of the example chain. -/
def sampleGenesis : CBlockIndex :=
  { nHeight := 0, blockTime := 1400000000, blockTimeMax := 1400000000,
    medianTimePast := 1400000000 }

/-- The tip of the example chain. -/
def sampleTip : CBlockIndex :=
  { nHeight := 2, blockTime := 1500000600, blockTimeMax := 1500000600,
    medianTimePast := 1500000000 }

/-- A block between the two. -/
def sampleMiddle : CBlockIndex :=
  { nHeight := 1, blockTime := 1450000000, blockTimeMax := 1450000000,
    medianTimePast := 1450000000 }

/-- A chain of three blocks and a wallet whose rescan stops short: whatever
block it is asked to start at, it reports the middle block as the earliest
block scanned. -/
def sampleContext : ImportContext SampleWallet where
  ensureWalletIsAvailable := Except.ok true
  ensureWalletIsUnlocked := Except.ok ()
  parseInt64 := fun val =>
    if val = "1400000500" then some 1400000500 else if val = "0" then some 0 else none
  tip := some sampleTip
  genesis := some sampleGenesis
  findEarliestAtLeast := fun _ => some sampleGenesis
  TIMESTAMP_WINDOW := 7200
  processImport := sampleProcessImport
  scanForWalletTransactions := fun wallet _ => (wallet, some sampleMiddle)
  reacceptWalletTransactions := fun wallet => wallet

/-- Three requests: an old key, a key created now, a request without
`scriptPubKey`. -/
def sampleRequests : List UniValue :=
  [VOBJ [("scriptPubKey", VSTR "76a914"), ("timestamp", VNUM "1400000500")],
   VOBJ [("scriptPubKey", VSTR "a914"), ("timestamp", VSTR "now")],
   VOBJ [("timestamp", VNUM "0")]]

/-- What `importmulti` answers for `sampleRequests` in `sampleContext`. -/
def sampleResponse : List UniValue :=
  [rescanFailure 1450000000,
   VOBJ [("success", VBOOL true)],
   VOBJ [("success", VBOOL false), ("error", JSONRPCError (-8) "Invalid scriptPubKey")]]

end Wallet

/-! ## Definitions: vote processing and relay -/

/-- What `ProcessVoteAndRelay` calls outside of the header: the member
`ProcessVote` of `governance.cpp` and `CGovernanceVote::Relay`, for a manager
state `M`, a connection manager state `C`, votes `Vote` and exception records
`Exc`. The first argument after the manager is `pfrom` (`none` is `nullptr`);
`exception` and `connman` are reference parameters, so both are handed back. -/
structure VoteContext (M C Vote Exc : Type) where
  ProcessVote : M → Option Nat → Vote → Exc → C → M × Exc × C × Bool
  Relay : Vote → C → C

/-- Embedding of `CGovernanceManager::ProcessVoteAndRelay`. -/
def ProcessVoteAndRelay {M C Vote Exc : Type} (ctx : VoteContext M C Vote Exc)
    (m : M) (vote : Vote) (exception : Exc) (connman : C) : M × Exc × C × Bool :=
  let (m, exception, connman, fOK) := ctx.ProcessVote m none vote exception connman
  if fOK then (m, exception, ctx.Relay vote connman, fOK)
  else (m, exception, connman, fOK)

/-- A vote context for the examples: the manager counts the votes processed,
the connection manager is the list of the votes relayed, a vote is accepted
when its text is `"yes"`. -/
def sampleVoteContext : VoteContext Nat (List String) String String where
  ProcessVote := fun m _ vote exception connman =>
    (m + 1, exception, connman, decide (vote = "yes"))
  Relay := fun vote connman => connman ++ [vote]

/-! ## Definitions: object store and request tracker

`ConfirmInventoryRequest`, `AddGovernanceObject` and `UpdateCachesAndClean`
are declared in `governance.h` and defined in `governance.cpp`, which is not
part of the sources at hand. They are modelled from sections 4.2, 4.4 and 4.6
of the specification. -/

/-- Modelled from the spec: the members of `CGovernanceManager` that the
object store (section 4.2) and the request tracker (section 4.4) work on: the
active store, the tombstone map with its expiry times, the postponed holding
area keyed by voter outpoint, and the two sets of hashes requested from a
peer. -/
structure GovernanceStore (Obj : Type) where
  mapObjects : List (uint256 × Obj)
  mapErasedGovernanceObjects : List (uint256 × Int)
  mapPostponedObjects : List (uint256 × (COutPoint × Obj))
  setRequestedObjects : List uint256
  setRequestedVotes : List uint256

namespace GovernanceStore

variable {Obj : Type}

/-- Modelled from the spec: the identity is present in the active store. -/
def inActiveStore (s : GovernanceStore Obj) (nHash : uint256) : Bool :=
  s.mapObjects.any (fun entry => entry.1 == nHash)

/-- Modelled from the spec: the identity is present in the tombstone set. -/
def inTombstones (s : GovernanceStore Obj) (nHash : uint256) : Bool :=
  s.mapErasedGovernanceObjects.any (fun entry => entry.1 == nHash)

/-- Modelled from the spec: the identity is present in the postponed set. -/
def inPostponed (s : GovernanceStore Obj) (nHash : uint256) : Bool :=
  s.mapPostponedObjects.any (fun entry => entry.1 == nHash)

/-- Modelled from the spec: the hash is in an in-flight request set. -/
def inFlight (s : GovernanceStore Obj) (nHash : uint256) : Bool :=
  s.setRequestedObjects.contains nHash || s.setRequestedVotes.contains nHash

/-- Modelled from the spec: `ConfirmInventoryRequest(hash)` "returns true
(fetch it) iff the hash is not already present in the active store, the
tombstone set, or an in-flight request set" (section 4.4). -/
def ConfirmInventoryRequest (s : GovernanceStore Obj) (nHash : uint256) : Bool :=
  !(s.inActiveStore nHash || s.inTombstones nHash || s.inFlight nHash)

/-- How `AddGovernanceObject` ends. -/
inductive AddResult where
  | duplicate
  | postponed
  | orphanLimit
  | accepted
deriving DecidableEq

/-- Modelled from the spec: the number of postponed objects held for a voter
outpoint. -/
def orphanCount (s : GovernanceStore Obj) (outpoint : COutPoint) : Nat :=
  (s.mapPostponedObjects.filter (fun entry => entry.2.1 == outpoint)).length

/-- Modelled from the spec: `AddObject(obj, sourcePeer)` of section 4.2. It
"rejects objects whose identity already exists in the active store, the
tombstone set, or the postponed set; on success inserts into active store and
triggers relay"; an orphan object (`fOrphan`: parent not present or voter not
found) is instead put in the holding area keyed by the voter outpoint, unless
the ceiling of orphans for that outpoint is reached. The second component of
the answer tells whether the relay was triggered. -/
def AddGovernanceObject (s : GovernanceStore Obj) (nHash : uint256) (govobj : Obj)
    (outpoint : COutPoint) (fOrphan : Bool) (orphanCeiling : Nat) :
    GovernanceStore Obj × Bool × AddResult :=
  if s.inActiveStore nHash || s.inTombstones nHash || s.inPostponed nHash then
    (s, false, AddResult.duplicate)
  else if fOrphan then
    if s.orphanCount outpoint < orphanCeiling then
      ({ s with mapPostponedObjects := s.mapPostponedObjects ++ [(nHash, (outpoint, govobj))] },
        false, AddResult.postponed)
    else (s, false, AddResult.orphanLimit)
  else
    ({ s with mapObjects := s.mapObjects ++ [(nHash, govobj)] }, true, AddResult.accepted)

/-- Modelled from the spec: the first pass of Maintenance (section 4.6),
"purge expired tombstones": a tombstone whose expiry time is reached is
dropped. -/
def purgeExpiredTombstones (s : GovernanceStore Obj) (nNow : Int) : GovernanceStore Obj :=
  { s with mapErasedGovernanceObjects :=
      s.mapErasedGovernanceObjects.filter (fun entry => decide (nNow < entry.2)) }

/-- A store for the examples: object 1 is active, object 2 was erased and its
tombstone expires at time 1700003600, hash 3 was requested from a peer. -/
def sampleStore : GovernanceStore String :=
  { mapObjects := [(1, "proposal")]
    mapErasedGovernanceObjects := [(2, 1700003600)]
    mapPostponedObjects := []
    setRequestedObjects := [3]
    setRequestedVotes := [] }

end GovernanceStore

/-! ## Definitions: wallet dump lines (wallet/rpcdump.cpp)

A `std::string` is the list of its bytes. -/

namespace Wallet

/-- A byte, `unsigned char`. -/
abbrev Byte := Fin 256

/-- The bytes of an ASCII text. -/
def ascii (text : String) : List Byte := text.toList.map (fun ch => Fin.ofNat ch.toNat)

/-- Modelled from the spec: the table `hexmap` of `HexStr` in
`utilstrencodings.h` (not part of the sources at hand), the sixteen lowercase
hexadecimal digits. -/
def hexmap (d : Nat) : Byte := Fin.ofNat (if d < 10 then 48 + d else 87 + d)

/-- Modelled from the spec: `HexStr(&c, &c + 1)` of `utilstrencodings.h` (not
part of the sources at hand): the two lowercase hexadecimal digits of the
byte, high digit first. -/
def HexStr (c : Byte) : List Byte := [hexmap (c.val / 16), hexmap (c.val % 16)]

/-- Embedding of `EncodeDumpString`: a byte that is at most 32, at least 128,
or `'%'` is written as `'%'` and its two hexadecimal digits. -/
def EncodeDumpString : List Byte → List Byte
  | [] => []
  | c :: rest =>
    (if c.val ≤ 32 ∨ c.val ≥ 128 ∨ c.val = 37 then (37 : Byte) :: HexStr c else [c]) ++
      EncodeDumpString rest

/-- The value of a `char` read as an `int`; `char` is signed, as on x86. -/
def charToInt (c : Byte) : Int := if c.val ≥ 128 then (c.val : Int) - 256 else (c.val : Int)

/-- The expression `(ch >> 6) * 9 + ((ch - '0') & 15)` of `DecodeDumpString`:
the shift is the floor of the division by 64, the mask is the remainder modulo
16. -/
def hexNibble (ch : Byte) : Int := (charToInt ch / 64) * 9 + (charToInt ch - 48) % 16

/-- The byte `c = (nibble(h) << 4) | nibble(l)` of `DecodeDumpString`. The
assignment to an `unsigned char` keeps the low eight bits, and the low eight
bits of a bitwise or are the bitwise or of the low eight bits of its
operands. -/
def decodeEscape (h l : Byte) : Byte :=
  Fin.ofNat (Nat.lor ((hexNibble h * 16) % 256).toNat ((hexNibble l) % 256).toNat)

/-- Embedding of `DecodeDumpString`: at a `'%'` followed by at least two more
bytes (`pos + 2 < str.length()`) the three bytes become one, any other byte is
copied (so are the last two bytes of the string, whatever they are). -/
def DecodeDumpString : List Byte → List Byte
  | [] => []
  | [c] => [c]
  | [c, h] => [c, h]
  | c :: h :: l :: rest =>
    if c.val = 37 then decodeEscape h l :: DecodeDumpString rest
    else c :: DecodeDumpString (h :: l :: rest)

/-- The third token of a key line in `dumpwallet` (lines 852-858): the label
of a key of the address book, `reserve=1` for a key of the key pool,
`change=1` otherwise. -/
def dumpTag (addressBookName : Option (List Byte)) (inKeyPool : Bool) : List Byte :=
  match addressBookName with
  | some name => ascii "label=" ++ EncodeDumpString name
  | none => if inKeyPool then ascii "reserve=1" else ascii "change=1"

/-- A key line of `dumpwallet` (lines 851-859) without its final newline: the
secret, the time, the tag, then the comment with the address and, for a key
of the HD chain, its path (`hdPart` is empty or `" hdkeypath=..."`). -/
def dumpKeyLine (secret strTime : List Byte) (addressBookName : Option (List Byte))
    (inKeyPool : Bool) (strAddr hdPart : List Byte) : List Byte :=
  (secret ++ ascii " " ++ strTime ++ ascii " ") ++ dumpTag addressBookName inKeyPool ++
    (ascii " # addr=" ++ strAddr ++ hdPart)

/-- The call `boost::split(vstr, line, boost::is_any_of(" "))` for the
separator `sep`: every separator ends a token, empty tokens are kept. -/
def split (sep : Byte) : List Byte → List (List Byte)
  | [] => [[]]
  | c :: rest =>
    if c = sep then [] :: split sep rest
    else
      match split sep rest with
      | token :: tokens => (c :: token) :: tokens
      | [] => [[c]]

/-- The call `boost::algorithm::starts_with(token, text)`. -/
def starts_with (token : List Byte) (text : String) : Bool := (ascii text).isPrefixOf token

/-- The loop over `vstr[2]`, `vstr[3]`, ... in `importwallet` (lines 491-502),
on the pair `(strLabel, fLabel)`. -/
def labelLoop : List (List Byte) → List Byte × Bool → List Byte × Bool
  | [], state => state
  | token :: rest, (strLabel, fLabel) =>
    if starts_with token "#" then (strLabel, fLabel)
    else
      let fLabel := if token = ascii "change=1" then false else fLabel
      let fLabel := if token = ascii "reserve=1" then false else fLabel
      if starts_with token "label=" then labelLoop rest (DecodeDumpString (token.drop 6), true)
      else labelLoop rest (strLabel, fLabel)

/-- The treatment of one line in `importwallet` (lines 470-502) up to the
labelling of the key: `none` when the line is skipped, else `strLabel` and
`fLabel`. `importable` stands for the checks on the first token
(`vchSecret.SetString` succeeds and the wallet does not have the key). -/
def importLineLabel (importable : List Byte → Bool) (line : List Byte) :
    Option (List Byte × Bool) :=
  if line.isEmpty || line.head? = some 35 then none
  else
    let vstr := split 32 line
    if vstr.length < 2 then none
    else if !importable (vstr.getD 0 []) then none
    else some (labelLoop (vstr.drop 2) ([], true))

end Wallet

/-! ## Definitions: ProcessImport (wallet/rpcdump.cpp)

Keys, public keys, scripts and destinations are byte strings; what is done
with them outside of this file (base58, hex, script templates, the key store
of the wallet) is a parameter. -/

namespace Wallet

open UniValue

/-- Embedding of `get_array()` of the `univalue` library. -/
def UniValue.get_array : UniValue → Except RpcException UniValue
  | VARR values => Except.ok (VARR values)
  | _ => Except.error (RpcException.runtimeError "JSON value is not an array as expected")

/-- Embedding of `size()` of the `univalue` library: the number of values of
an array or object, 0 for any other value. -/
def UniValue.size : UniValue → Nat
  | VARR values => values.length
  | VOBJ entries => entries.length
  | _ => 0

/-- Embedding of `operator[](size_t)` of the `univalue` library. -/
def UniValue.atIndex : UniValue → Nat → UniValue
  | VARR values, index => values.getD index NullUniValue
  | VOBJ entries, index => (entries.map Prod.snd).getD index NullUniValue
  | _, _ => NullUniValue

/-- A `CKey`, `CPubKey`, `CKeyID`, `CScript` or `CTxDestination`. -/
abbrev Blob := List Nat

/-- Embedding of `RPC_INVALID_PARAMETER` of `rpc/protocol.h`. -/
def RPC_INVALID_PARAMETER : Int := -8

/-- Embedding of `RPC_INVALID_ADDRESS_OR_KEY` of `rpc/protocol.h`. -/
def RPC_INVALID_ADDRESS_OR_KEY : Int := -5

/-- Embedding of `RPC_WALLET_ERROR` of `rpc/protocol.h`. -/
def RPC_WALLET_ERROR : Int := -4

/-- What `ProcessImport` uses of `base58.h`, `utilstrencodings.h`, `key.h`,
`pubkey.h` and `script/standard.h`. `decodeAddress` is `CBitcoinAddress(str)`
with `IsValid()` and `Get()`; `decodeSecret` is `CBitcoinSecret::SetString`
with `GetKey()`; `scriptID` and `pubKeyID` give the destination of
`CBitcoinAddress(CScriptID(script))` and of `CBitcoinAddress(pubKey.GetID())`;
`addressIsValid` is `IsValid()` of such an address. The assertion
`key.VerifyPubKey(pubkey)` on a public key just derived from the key holds and
is left out. -/
structure KeyContext where
  IsHex : String → Bool
  ParseHex : String → Blob
  decodeAddress : String → Option Blob
  GetScriptForDestination : Blob → Blob
  IsPayToScriptHash : Blob → Bool
  scriptID : Blob → Blob
  decodeSecret : String → Option Blob
  keyIsValid : Blob → Bool
  GetPubKey : Blob → Blob
  pubKeyIsFullyValid : Blob → Bool
  pubKeyID : Blob → Blob
  addressIsValid : Blob → Bool
  ExtractDestination : Blob → Option Blob
  GetScriptForRawPubKey : Blob → Blob

/-- The operations of `CWallet` that `ProcessImport` calls, on a wallet state
`W`. `IsMineSpendable` is `::IsMine(*pwallet, script) == ISMINE_SPENDABLE`,
`setKeyCreateTime` is `mapKeyMetadata[id].nCreateTime = timestamp`,
`SetAddressBook` is called with the purpose `"receive"`. -/
structure WalletOps (W : Type) where
  MarkDirty : W → W
  HaveWatchOnly : W → Blob → Bool
  AddWatchOnly : W → Blob → Int → W × Bool
  HaveCScript : W → Blob → Bool
  AddCScript : W → Blob → W × Bool
  IsMineSpendable : W → Blob → Bool
  SetAddressBook : W → Blob → String → W
  HaveKey : W → Blob → Bool
  setKeyCreateTime : W → Blob → Int → W
  AddKeyPubKey : W → Blob → Blob → W × Bool
  UpdateTimeFirstKey : W → Int → W

/-- The optional string field `key`: `data.exists(key) ? data[key].get_str() : ""`. -/
def optionalString (data : UniValue) (key : String) : Except RpcException String :=
  if data.exists_ key then (data.atKey key).get_str else Except.ok ""

/-- The optional array field `key`:
`data.exists(key) ? data[key].get_array() : UniValue()`. -/
def optionalArray (data : UniValue) (key : String) : Except RpcException UniValue :=
  if data.exists_ key then (data.atKey key).get_array else Except.ok NullUniValue

/-- The optional flag `key`: `data.exists(key) ? data[key].get_bool() : false`. -/
def optionalBool (data : UniValue) (key : String) : Except RpcException Bool :=
  if data.exists_ key then (data.atKey key).get_bool else Except.ok false

/-- The local variables of `ProcessImport` set on lines 883-900. -/
structure ImportFields where
  scriptPubKey : UniValue
  strRedeemScript : String
  pubKeys : UniValue
  keys : UniValue
  internal : Bool
  watchOnly : Bool
  label : String
  isScript : Bool
  isP2SH : Bool
  output : String

/-- Embedding of `scriptPubKey.getType() == UniValue::VSTR`. -/
def isVSTR : UniValue → Bool
  | VSTR _ => true
  | _ => false

/-- Embedding of `scriptPubKey.getType() == UniValue::VOBJ`. -/
def isVOBJ : UniValue → Bool
  | VOBJ _ => true
  | _ => false

/-- Lines 883-900 of `ProcessImport`: the required field `scriptPubKey`, the
optional fields, and `output`. -/
def readImportFields (data : UniValue) : Except RpcException ImportFields :=
  let scriptPubKey := data.atKey "scriptPubKey"
  if !(isVOBJ scriptPubKey && scriptPubKey.exists_ "address") && !(isVSTR scriptPubKey) then
    Except.error (RpcException.object (JSONRPCError RPC_INVALID_PARAMETER "Invalid scriptPubKey"))
  else
    match optionalString data "redeemscript" with
    | Except.error e => Except.error e
    | Except.ok strRedeemScript =>
      match optionalArray data "pubkeys" with
      | Except.error e => Except.error e
      | Except.ok pubKeys =>
        match optionalArray data "keys" with
        | Except.error e => Except.error e
        | Except.ok keys =>
          match optionalBool data "internal" with
          | Except.error e => Except.error e
          | Except.ok internal =>
            match optionalBool data "watchonly" with
            | Except.error e => Except.error e
            | Except.ok watchOnly =>
              match (if data.exists_ "label" && !internal then (data.atKey "label").get_str
                     else Except.ok "") with
              | Except.error e => Except.error e
              | Except.ok label =>
                let isScript := isVSTR scriptPubKey
                match (if isScript then scriptPubKey.get_str
                       else (scriptPubKey.atKey "address").get_str) with
                | Except.error e => Except.error e
                | Except.ok output =>
                  Except.ok
                    { scriptPubKey := scriptPubKey, strRedeemScript := strRedeemScript,
                      pubKeys := pubKeys, keys := keys, internal := internal,
                      watchOnly := watchOnly, label := label, isScript := isScript,
                      isP2SH := decide (strRedeemScript.length > 0), output := output }

/-- Lines 902-917: the script and the address parsed from `output`; the
address stays invalid (`none`) for a hex script. -/
def parseOutput (kc : KeyContext) (f : ImportFields) : Except RpcException (Blob × Option Blob) :=
  if !f.isScript then
    match kc.decodeAddress f.output with
    | none =>
      Except.error (RpcException.object (JSONRPCError RPC_INVALID_ADDRESS_OR_KEY "Invalid address"))
    | some dest => Except.ok (kc.GetScriptForDestination dest, some dest)
  else if !kc.IsHex f.output then
    Except.error (RpcException.object
      (JSONRPCError RPC_INVALID_ADDRESS_OR_KEY "Invalid scriptPubKey"))
  else Except.ok (kc.ParseHex f.output, none)

/-- Lines 919-942: the five checks on the combination of fields. -/
def checkImportFields (kc : KeyContext) (data : UniValue) (f : ImportFields) :
    Except RpcException Unit :=
  if f.watchOnly && decide (f.keys.size ≠ 0) then
    Except.error (RpcException.object (JSONRPCError RPC_INVALID_PARAMETER
      "Incompatibility found between watchonly and keys"))
  else if f.internal && data.exists_ "label" then
    Except.error (RpcException.object (JSONRPCError RPC_INVALID_PARAMETER
      "Incompatibility found between internal and label"))
  else if !f.internal && f.isScript then
    Except.error (RpcException.object (JSONRPCError RPC_INVALID_PARAMETER
      "Internal must be set for hex scriptPubKey"))
  else if !f.isP2SH && (decide (f.keys.size > 1) || decide (f.pubKeys.size > 1)) then
    Except.error (RpcException.object (JSONRPCError RPC_INVALID_PARAMETER
      "More than private key given for one address"))
  else if f.isP2SH && !kc.IsHex f.strRedeemScript then
    Except.error (RpcException.object (JSONRPCError RPC_INVALID_ADDRESS_OR_KEY
      "Invalid redeem script"))
  else Except.ok ()

/-- Lines 880-942 of `ProcessImport`, which do not touch the wallet: the
fields, the script, the address. -/
def parseImportRequest (kc : KeyContext) (data : UniValue) :
    Except RpcException (ImportFields × Blob × Option Blob) :=
  match readImportFields data with
  | Except.error e => Except.error e
  | Except.ok f =>
    match parseOutput kc f with
    | Except.error e => Except.error e
    | Except.ok (script, address) =>
      match checkImportFields kc data f with
      | Except.error e => Except.error e
      | Except.ok () => Except.ok (f, script, address)

end Wallet

namespace Wallet

open UniValue

/-- How the `try` block of `ProcessImport` is left other than by reaching its
end: by an exception, or by the statement `return false;` of line 1131. -/
inductive Abrupt where
  | threw (e : RpcException)
  | returnedFalse

/-- A piece of the `try` block that works on the wallet: it ends with a value
or abruptly, and leaves a wallet behind in both cases. -/
abbrev ImportM (W : Type) := ExceptT Abrupt (StateM W)

/-- The statement `throw JSONRPCError(code, message)`. -/
def throwRpc {W α : Type} (code : Int) (message : String) : ImportM W α :=
  throw (Abrupt.threw (RpcException.object (JSONRPCError code message)))

/-- A call of the JSON library inside the `try` block. -/
def liftJson {W α : Type} : Except RpcException α → ImportM W α
  | Except.ok a => pure a
  | Except.error e => throw (Abrupt.threw e)

/-- The statement
`if (!pwallet->HaveWatchOnly(s) && !pwallet->AddWatchOnly(s, timestamp)) throw ...`. -/
def addWatchOnly {W : Type} (ops : WalletOps W) (script : Blob) (timestamp : Int) :
    ImportM W Unit := do
  let wallet ← get
  if !ops.HaveWatchOnly wallet script then
    let (wallet, fOk) := ops.AddWatchOnly wallet script timestamp
    set wallet
    if !fOk then throwRpc RPC_WALLET_ERROR "Error adding address to wallet"

/-- The statement
`if (!pwallet->HaveCScript(s) && !pwallet->AddCScript(s)) throw ...`. -/
def addCScript {W : Type} (ops : WalletOps W) (script : Blob) : ImportM W Unit := do
  let wallet ← get
  if !ops.HaveCScript wallet script then
    let (wallet, fOk) := ops.AddCScript wallet script
    set wallet
    if !fOk then throwRpc RPC_WALLET_ERROR "Error adding p2sh redeemScript to wallet"

/-- The statement `if (::IsMine(*pwallet, s) == ISMINE_SPENDABLE) throw ...`. -/
def rejectSpendable {W : Type} (ops : WalletOps W) (script : Blob) : ImportM W Unit := do
  let wallet ← get
  if ops.IsMineSpendable wallet script then
    throwRpc RPC_WALLET_ERROR
      "The wallet already contains the private key for this address or script"

/-- Lines 986-1018: the loop over `keys` of the P2SH branch. A key that the
wallet already has is refused with an error. -/
def importKeysP2SH {W : Type} (kc : KeyContext) (ops : WalletOps W) (label : String)
    (timestamp : Int) : List UniValue → ImportM W Unit
  | [] => pure ()
  | entry :: rest => do
    let privkey ← liftJson entry.get_str
    match kc.decodeSecret privkey with
    | none => throwRpc RPC_INVALID_ADDRESS_OR_KEY "Invalid private key encoding"
    | some key =>
      if !kc.keyIsValid key then
        throwRpc RPC_INVALID_ADDRESS_OR_KEY "Private key outside allowed range"
      let pubkey := kc.GetPubKey key
      let vchAddress := kc.pubKeyID pubkey
      modify ops.MarkDirty
      modify (fun wallet => ops.SetAddressBook wallet vchAddress label)
      if ops.HaveKey (← get) vchAddress then
        throwRpc RPC_INVALID_ADDRESS_OR_KEY "Already have this key"
      modify (fun wallet => ops.setKeyCreateTime wallet vchAddress timestamp)
      let (wallet, fOk) := ops.AddKeyPubKey (← get) key pubkey
      set wallet
      if !fOk then throwRpc RPC_WALLET_ERROR "Error adding key to wallet"
      modify (fun wallet => ops.UpdateTimeFirstKey wallet timestamp)
      importKeysP2SH kc ops label timestamp rest

/-- The values of an array, none for any other value (`keys` is an array or
the null value). -/
def arrayValues : UniValue → List UniValue
  | VARR values => values
  | _ => []

/-- Lines 947-1020: the branch `if (isP2SH)`. -/
def importP2SH {W : Type} (kc : KeyContext) (ops : WalletOps W) (f : ImportFields)
    (script : Blob) (address : Option Blob) (timestamp : Int) : ImportM W Bool := do
  let redeemScript := kc.ParseHex f.strRedeemScript
  if !kc.IsPayToScriptHash script then
    throwRpc RPC_INVALID_ADDRESS_OR_KEY "Invalid P2SH address / script"
  modify ops.MarkDirty
  addWatchOnly ops redeemScript timestamp
  addCScript ops redeemScript
  let redeemDestination := kc.GetScriptForDestination (kc.scriptID redeemScript)
  rejectSpendable ops redeemDestination
  modify ops.MarkDirty
  addWatchOnly ops redeemDestination timestamp
  match address with
  | some dest => modify (fun wallet => ops.SetAddressBook wallet dest f.label)
  | none => pure ()
  if f.keys.size ≠ 0 then
    importKeysP2SH kc ops f.label timestamp (arrayValues f.keys)
  pure true

/-- The two consistency checks between the address of a key and the request
(lines 1039-1057 and 1105-1123). -/
def checkConsistency {W : Type} (kc : KeyContext) (f : ImportFields) (script : Blob)
    (address : Option Blob) (pubKeyAddress : Blob) : ImportM W Unit := do
  if !f.isScript && decide (some pubKeyAddress ≠ address) then
    throwRpc RPC_INVALID_ADDRESS_OR_KEY "Consistency check failed"
  if f.isScript then
    match kc.ExtractDestination script with
    | some destination =>
      if destination ≠ pubKeyAddress then
        throwRpc RPC_INVALID_ADDRESS_OR_KEY "Consistency check failed"
    | none => pure ()

/-- Lines 1023-1087: the import of a public key, `pubKeys[0]`. -/
def importPubKey {W : Type} (kc : KeyContext) (ops : WalletOps W) (f : ImportFields)
    (script : Blob) (address : Option Blob) (timestamp : Int) : ImportM W Unit := do
  let strPubKey ← liftJson (f.pubKeys.atIndex 0).get_str
  if !kc.IsHex strPubKey then
    throwRpc RPC_INVALID_ADDRESS_OR_KEY "Pubkey must be a hex string"
  let pubKey := kc.ParseHex strPubKey
  if !kc.pubKeyIsFullyValid pubKey then
    throwRpc RPC_INVALID_ADDRESS_OR_KEY "Pubkey is not a valid public key"
  let pubKeyAddress := kc.pubKeyID pubKey
  checkConsistency kc f script address pubKeyAddress
  let pubKeyScript := kc.GetScriptForDestination pubKeyAddress
  rejectSpendable ops pubKeyScript
  modify ops.MarkDirty
  addWatchOnly ops pubKeyScript timestamp
  if kc.addressIsValid pubKeyAddress then
    modify (fun wallet => ops.SetAddressBook wallet pubKeyAddress f.label)
  let scriptRawPubKey := kc.GetScriptForRawPubKey pubKey
  rejectSpendable ops scriptRawPubKey
  modify ops.MarkDirty
  addWatchOnly ops scriptRawPubKey timestamp

/-- Lines 1089-1141: the import of a private key, `keys[0]`. When the wallet
already has the key the function is left by `return false;`, which returns the
JSON value `false`. -/
def importPrivKey {W : Type} (kc : KeyContext) (ops : WalletOps W) (f : ImportFields)
    (script : Blob) (address : Option Blob) (timestamp : Int) : ImportM W Unit := do
  let strPrivkey ← liftJson (f.keys.atIndex 0).get_str
  match kc.decodeSecret strPrivkey with
  | none => throwRpc RPC_INVALID_ADDRESS_OR_KEY "Invalid private key encoding"
  | some key =>
    if !kc.keyIsValid key then
      throwRpc RPC_INVALID_ADDRESS_OR_KEY "Private key outside allowed range"
    let pubKey := kc.GetPubKey key
    let pubKeyAddress := kc.pubKeyID pubKey
    checkConsistency kc f script address pubKeyAddress
    let vchAddress := kc.pubKeyID pubKey
    modify ops.MarkDirty
    modify (fun wallet => ops.SetAddressBook wallet vchAddress f.label)
    if ops.HaveKey (← get) vchAddress then
      throw Abrupt.returnedFalse
    modify (fun wallet => ops.setKeyCreateTime wallet vchAddress timestamp)
    let (wallet, fOk) := ops.AddKeyPubKey (← get) key pubKey
    set wallet
    if !fOk then throwRpc RPC_WALLET_ERROR "Error adding key to wallet"
    modify (fun wallet => ops.UpdateTimeFirstKey wallet timestamp)

/-- Lines 1143-1162: the import of the script alone. -/
def importScriptOnly {W : Type} (ops : WalletOps W) (f : ImportFields)
    (script : Blob) (address : Option Blob) (timestamp : Int) : ImportM W Unit := do
  rejectSpendable ops script
  modify ops.MarkDirty
  addWatchOnly ops script timestamp
  if isVOBJ f.scriptPubKey then
    match address with
    | some dest => modify (fun wallet => ops.SetAddressBook wallet dest f.label)
    | none => pure ()

/-- Lines 1021-1163: the branch `else` of `if (isP2SH)`; the value is the
variable `success`. -/
def importOther {W : Type} (kc : KeyContext) (ops : WalletOps W) (f : ImportFields)
    (script : Blob) (address : Option Blob) (timestamp : Int) : ImportM W Bool := do
  let mut success := false
  if f.pubKeys.size ≠ 0 && f.keys.size == 0 then
    importPubKey kc ops f script address timestamp
    success := true
  if f.keys.size ≠ 0 then
    importPrivKey kc ops f script address timestamp
    success := true
  if f.pubKeys.size == 0 && f.keys.size == 0 then
    importScriptOnly ops f script address timestamp
    success := true
  pure success

/-- The `try` block of `ProcessImport` (lines 880-1166); the value is the
variable `success`. -/
def processImportTry {W : Type} (kc : KeyContext) (ops : WalletOps W) (data : UniValue)
    (timestamp : Int) : ImportM W Bool := do
  let (f, script, address) ← liftJson (parseImportRequest kc data)
  if f.isP2SH then importP2SH kc ops f script address timestamp
  else importOther kc ops f script address timestamp

/-- Embedding of `ProcessImport`: the `try` block and its two handlers. The
end of the block gives the object with `success`; `catch (const UniValue& e)`
gives `success: false` with the object thrown, `catch (...)` gives
`success: false` with the error "Missing required fields"; `return false;`
inside the block returns the JSON value `false` (the `bool` is converted to
the return type `UniValue`). -/
def ProcessImport {W : Type} (kc : KeyContext) (ops : WalletOps W) (wallet : W)
    (data : UniValue) (timestamp : Int) : W × UniValue :=
  match (processImportTry kc ops data timestamp).run.run wallet with
  | (Except.ok success, wallet) => (wallet, VOBJ [("success", VBOOL success)])
  | (Except.error Abrupt.returnedFalse, wallet) => (wallet, VBOOL false)
  | (Except.error (Abrupt.threw (RpcException.object e)), wallet) =>
    (wallet, VOBJ [("success", VBOOL false), ("error", e)])
  | (Except.error (Abrupt.threw _), wallet) =>
    (wallet, VOBJ [("success", VBOOL false),
      ("error", JSONRPCError RPC_MISC_ERROR "Missing required fields")])

/-- A key store for the examples: private keys by key id, watched scripts,
redeem scripts, address book. -/
structure KeyStore where
  keys : List Blob
  watchOnly : List Blob
  scripts : List Blob
  addressBook : List (Blob × String)
deriving DecidableEq

/-- The wallet operations on the example key store. -/
def keyStoreOps : WalletOps KeyStore where
  MarkDirty := fun wallet => wallet
  HaveWatchOnly := fun wallet script => wallet.watchOnly.contains script
  AddWatchOnly := fun wallet script _ =>
    ({ wallet with watchOnly := wallet.watchOnly ++ [script] }, true)
  HaveCScript := fun wallet script => wallet.scripts.contains script
  AddCScript := fun wallet script => ({ wallet with scripts := wallet.scripts ++ [script] }, true)
  IsMineSpendable := fun wallet script => wallet.keys.contains script
  SetAddressBook := fun wallet dest label =>
    { wallet with addressBook := wallet.addressBook ++ [(dest, label)] }
  HaveKey := fun wallet id => wallet.keys.contains id
  setKeyCreateTime := fun wallet _ _ => wallet
  AddKeyPubKey := fun wallet _ pubkey => ({ wallet with keys := wallet.keys ++ [pubkey] }, true)
  UpdateTimeFirstKey := fun wallet _ => wallet

/-- The bytes of a text, for the example key context. -/
def textBytes (text : String) : Blob := text.toList.map Char.toNat

/-- A key context for the examples: an address, a secret and a hex string are
read as their own bytes, the public key of a key and the id of a public key
are the key itself, the script of a destination is the destination. -/
def plainKeys : KeyContext where
  IsHex := fun text => text.toList.all (fun ch => ch.isDigit || ('a' ≤ ch && ch ≤ 'f'))
  ParseHex := textBytes
  decodeAddress := fun text => if text.isEmpty then none else some (textBytes text)
  GetScriptForDestination := fun dest => dest
  IsPayToScriptHash := fun _ => false
  scriptID := fun script => script
  decodeSecret := fun text => if text.isEmpty then none else some (textBytes text)
  keyIsValid := fun _ => true
  GetPubKey := fun key => key
  pubKeyIsFullyValid := fun _ => true
  pubKeyID := fun pubKey => pubKey
  addressIsValid := fun _ => true
  ExtractDestination := fun script => some script
  GetScriptForRawPubKey := fun pubKey => pubKey

/-- A wallet that holds the key `"Xk1"`. -/
def walletWithKey : KeyStore :=
  { keys := [textBytes "Xk1"], watchOnly := [], scripts := [], addressBook := [] }

/-- A request to import the private key `"Xk1"` for its own address. -/
def knownKeyRequest : UniValue :=
  VOBJ [("scriptPubKey", VOBJ [("address", VSTR "Xk1")]),
        ("timestamp", VNUM "0"),
        ("keys", VARR [VSTR "Xk1"])]

/-- The example chain with `ProcessImport` over the example key store. -/
def keyStoreContext : ImportContext KeyStore where
  ensureWalletIsAvailable := Except.ok true
  ensureWalletIsUnlocked := Except.ok ()
  parseInt64 := fun val => if val = "0" then some 0 else none
  tip := some sampleTip
  genesis := some sampleGenesis
  findEarliestAtLeast := fun _ => some sampleGenesis
  TIMESTAMP_WINDOW := 7200
  processImport := ProcessImport plainKeys keyStoreOps
  scanForWalletTransactions := fun wallet pindex => (wallet, some pindex)
  reacceptWalletTransactions := fun wallet => wallet

end Wallet

/-! ## Definitions: shape of an encoded dump string -/

namespace Wallet

/-- A lowercase hexadecimal digit, `'0'`..`'9'` or `'a'`..`'f'`. -/
def isLowerHex (c : Byte) : Bool :=
  (decide (48 ≤ c.val) && decide (c.val ≤ 57)) || (decide (97 ≤ c.val) && decide (c.val ≤ 102))

/-- One piece of an encoded string: a single byte in the range 33..127 other
than `'%'`, or the three bytes of an escape, `'%'` and two lowercase
hexadecimal digits. -/
def IsEncodedPiece (piece : List Byte) : Prop :=
  (∃ c : Byte, piece = [c] ∧ 33 ≤ c.val ∧ c.val ≤ 127 ∧ c.val ≠ 37) ∨
  (∃ h l : Byte, piece = [37, h, l] ∧ isLowerHex h = true ∧ isLowerHex l = true)

/-- The piece that `EncodeDumpString` writes for one byte. -/
def encodePiece (c : Byte) : List Byte :=
  if c.val ≤ 32 ∨ c.val ≥ 128 ∨ c.val = 37 then (37 : Byte) :: HexStr c else [c]

end Wallet

/-! ## Definitions: orphan votes -/

/-- What `AddOrphanVote` calls outside of the header: `CGovernanceVote::GetHash`,
`CacheMultiMap::Insert` of `cachemultimap.h` on the entries of the cache, and
the constant `GOVERNANCE_ORPHAN_EXPIRATION_TIME`. -/
structure OrphanContext (Vote : Type) where
  GetHash : Vote → uint256
  Insert : List (uint256 × (Vote × Int)) → uint256 → Vote × Int → List (uint256 × (Vote × Int))
  GOVERNANCE_ORPHAN_EXPIRATION_TIME : Int

/-- Embedding of `CGovernanceManager::AddOrphanVote`; `nAdjustedTime` is the
value of `GetAdjustedTime()` at the call, the sum is an `int64_t`. -/
def CGovernanceManager.AddOrphanVote {Obj Vote MN : Type} (ctx : OrphanContext Vote)
    (nAdjustedTime : Int) (m : CGovernanceManager Obj Vote MN) (vote : Vote) :
    CGovernanceManager Obj Vote MN :=
  let entry : Vote × Int :=
    (vote, wrapInt64 (nAdjustedTime + ctx.GOVERNANCE_ORPHAN_EXPIRATION_TIME))
  { m with cmmapOrphanVotes := ctx.Insert m.cmmapOrphanVotes (ctx.GetHash vote) entry }

/-- An orphan context for the examples: the hash of a vote is the vote plus
1000, an insertion appends the entry, the orphan window is ten minutes. -/
def sampleOrphanContext : OrphanContext Nat where
  GetHash := fun vote => vote + 1000
  Insert := fun cache nHash entry => cache ++ [(nHash, entry)]
  GOVERNANCE_ORPHAN_EXPIRATION_TIME := 600

/-! ## Definitions: the start of the rescan of importmulti -/

namespace Wallet

open UniValue

/-- The quantity `L` of the help text of `importmulti`: the minimum of the
block time of the tip and of `max(timestamp, 1)` over the requests. -/
def lowestTimestamp (tipBlockTime : Int) (timestamps : List Int) : Int :=
  timestamps.foldl (fun lowest timestamp => min lowest (max timestamp 1)) tipBlockTime

/-- The wallet that a call leaves behind. -/
def RpcOutcome.wallet {W : Type} : RpcOutcome W → W
  | RpcOutcome.returned _ wallet => wallet
  | RpcOutcome.thrown _ wallet => wallet
  | RpcOutcome.nullDereference wallet => wallet

/-- The contract of `CChain::FindEarliestAtLeast` and `CChain::Genesis` of
`chain.h` (not part of the sources at hand) for the active chain `chain`,
listed from the genesis block to the tip: the earliest block whose
`GetBlockTimeMax()` is at least the time asked for, and the first block. -/
def FollowsChain {W : Type} (ctx : ImportContext W) (chain : List CBlockIndex) : Prop :=
  (∀ nTime : Int, ctx.findEarliestAtLeast nTime =
    chain.find? (fun block => decide (nTime ≤ block.blockTimeMax))) ∧
  ctx.genesis = chain.head?

/-- The blocks `skipped` are the blocks of the chain that a scan from `start`
leaves out: those before `start`, or all of them without a start block. -/
def ScanSkips (chain : List CBlockIndex) (start : Option CBlockIndex)
    (skipped : List CBlockIndex) : Prop :=
  match start with
  | some pindex => ∃ scanned : List CBlockIndex, chain = skipped ++ pindex :: scanned
  | none => skipped = chain

/-- The example chain, from the genesis block to the tip. -/
def sampleChain : List CBlockIndex := [sampleGenesis, sampleMiddle, sampleTip]

/-- The example context with `FindEarliestAtLeast` and `Genesis` read off the
example chain, and a wallet whose rescan covers what it is asked for; the
wallet keeps a record of the height the rescan started at and of the
reacceptance that follows it. -/
def chainContext : ImportContext SampleWallet where
  ensureWalletIsAvailable := Except.ok true
  ensureWalletIsUnlocked := Except.ok ()
  parseInt64 := fun val =>
    if val = "1450003600" then some 1450003600 else if val = "0" then some 0 else none
  tip := some sampleTip
  genesis := sampleChain.head?
  findEarliestAtLeast := fun nTime =>
    sampleChain.find? (fun block => decide (nTime ≤ block.blockTimeMax))
  TIMESTAMP_WINDOW := 7200
  processImport := sampleProcessImport
  scanForWalletTransactions := fun wallet pindex =>
    (wallet ++ ["rescan from height " ++ toString pindex.nHeight], some pindex)
  reacceptWalletTransactions := fun wallet => wallet ++ ["reaccept"]

/-- Two requests for the example chain: a key created two hours after the
middle block, and a key created now. -/
def chainRequests : List UniValue :=
  [VOBJ [("scriptPubKey", VSTR "76a914"), ("timestamp", VNUM "1450003600")],
   VOBJ [("scriptPubKey", VSTR "a914"), ("timestamp", VSTR "now")]]

end Wallet

namespace Wallet

open UniValue

/-- The state of the import loop after `chainRequests` in `chainContext`. -/
def chainLoopState : LoopState SampleWallet :=
  { wallet := ["76a914", "a914"]
    response := [VOBJ [("success", VBOOL true)], VOBJ [("success", VBOOL true)]]
    fRunScan := true
    nLowestTimestamp := 1450003600 }

end Wallet

/-! ## Definitions: a reader of decimal timestamps -/

namespace Wallet

/-- The value of a non-empty run of decimal digits, `none` for anything else. -/
def decimalDigits (cs : List Char) : Option Nat :=
  if cs ≠ [] ∧ cs.all (fun c => decide (48 ≤ c.toNat) && decide (c.toNat ≤ 57)) = true then
    some (cs.foldl (fun n c => 10 * n + (c.toNat - 48)) 0)
  else none

/-- A reader of decimal `int64_t` literals, the instance of `ParseInt64`
(`utilstrencodings.h`, not part of the sources at hand) in the examples about
timestamps: an optional sign, then one or more digits and nothing else, the
value within the `int64_t` range. -/
def decimalInt64 (val : String) : Option Int :=
  let value : Option Int :=
    match val.toList with
    | '-' :: cs => (decimalDigits cs).map (fun n => -(n : Int))
    | '+' :: cs => (decimalDigits cs).map (fun n => (n : Int))
    | cs => (decimalDigits cs).map (fun n => (n : Int))
  value.bind (fun n =>
    if -9223372036854775808 ≤ n ∧ n ≤ 9223372036854775807 then some n else none)

end Wallet

/-! ## Theorems: CRateCheckBuffer -/

/-! ### Rounding to binary64 -/

theorem roundHalfEven_intCast (n : Int) : roundHalfEven (n : ℚ) = n := by
  simp [roundHalfEven]

theorem roundHalfEven_sub_abs_le (s : ℚ) : |(roundHalfEven s : ℚ) - s| ≤ 1 / 2 := by
  have h1 := Int.floor_le s
  have h2 := Int.lt_floor_add_one s
  unfold roundHalfEven
  simp only
  split_ifs with ha hb hc
  · rw [abs_le]; constructor <;> linarith
  · rw [abs_le]; push_cast; constructor <;> linarith
  · rw [abs_le]; constructor <;> linarith
  · rw [abs_le]; push_cast; constructor <;> linarith

theorem roundHalfEven_le (s : ℚ) (n : Int) (h : s ≤ n) : roundHalfEven s ≤ n := by
  have h1 : ⌊s⌋ ≤ n := by
    have := Int.floor_le s
    exact_mod_cast (le_trans this h)
  rcases eq_or_lt_of_le h1 with heq | hlt
  · have hs : s = n := le_antisymm h (by rw [← heq]; exact Int.floor_le s)
    rw [hs, roundHalfEven_intCast]
  · have h3 : ⌊s⌋ + 1 ≤ n := hlt
    unfold roundHalfEven
    simp only
    split_ifs <;> omega

theorem le_roundHalfEven (s : ℚ) (n : Int) (h : (n : ℚ) ≤ s) : n ≤ roundHalfEven s := by
  have h1 : n ≤ ⌊s⌋ := Int.le_floor.mpr h
  unfold roundHalfEven
  simp only
  split_ifs <;> omega

theorem roundHalfEven_of_near (s : ℚ) (n : Int) (h : |s - n| < 1 / 2) : roundHalfEven s = n := by
  rw [abs_lt] at h
  apply le_antisymm
  · have h1 := roundHalfEven_sub_abs_le s
    rw [abs_le] at h1
    have : ((roundHalfEven s : Int) : ℚ) < n + 1 := by linarith [h.1, h.2, h1.1, h1.2]
    have h2 : roundHalfEven s < n + 1 := by exact_mod_cast this
    omega
  · have h1 := roundHalfEven_sub_abs_le s
    rw [abs_le] at h1
    have : ((n : Int) : ℚ) - 1 < roundHalfEven s := by linarith [h.1, h.2, h1.1, h1.2]
    have h2 : n - 1 < roundHalfEven s := by exact_mod_cast this
    omega

theorem log2_eq (q : ℚ) (e : Int) (h0 : 0 < q) (h1 : (2 : ℚ) ^ e ≤ q) (h2 : q < (2 : ℚ) ^ (e + 1)) :
    Int.log 2 q = e := by
  apply le_antisymm
  · have := (Int.lt_zpow_iff_log_lt (by norm_num : 1 < 2) h0).mp (by exact_mod_cast h2)
    omega
  · exact (Int.zpow_le_iff_le_log (by norm_num : 1 < 2) h0).mp (by exact_mod_cast h1)

theorem log2_bounds (q : ℚ) (h0 : 0 < q) :
    (2 : ℚ) ^ (Int.log 2 q) ≤ q ∧ q < (2 : ℚ) ^ (Int.log 2 q + 1) := by
  constructor
  · have := Int.zpow_log_le_self (b := 2) (by norm_num) h0
    exact_mod_cast this
  · have := Int.lt_zpow_succ_log_self (b := 2) (by norm_num) q
    exact_mod_cast this

/-- In the normal range `roundDouble` rounds to 53 significant bits. -/
theorem roundDouble_normal (q : ℚ) (h0 : 0 < q) (he : -1022 ≤ Int.log 2 q) :
    roundDouble q =
      (roundHalfEven (q / 2 ^ (Int.log 2 q - 52)) : ℚ) * 2 ^ (Int.log 2 q - 52) := by
  unfold roundDouble
  simp only [abs_of_pos h0, max_eq_left he]

theorem roundDouble_of_binade (q : ℚ) (e : Int) (h0 : 0 < q) (h1 : (2 : ℚ) ^ e ≤ q)
    (h2 : q < (2 : ℚ) ^ (e + 1)) (he : -1022 ≤ e) :
    roundDouble q = (roundHalfEven (q / 2 ^ (e - 52)) : ℚ) * 2 ^ (e - 52) := by
  have hl := log2_eq q e h0 h1 h2
  rw [roundDouble_normal q h0 (by rw [hl]; exact he), hl]

theorem roundDouble_bounds (q : ℚ) (h0 : 0 < q) (he : -1022 ≤ Int.log 2 q) :
    (2 : ℚ) ^ (Int.log 2 q) ≤ roundDouble q ∧ roundDouble q ≤ (2 : ℚ) ^ (Int.log 2 q + 1) ∧
    |roundDouble q - q| ≤ q / 2 ^ 53 := by
  obtain ⟨hb1, hb2⟩ := log2_bounds q h0
  rw [roundDouble_normal q h0 he]
  set e := Int.log 2 q with hedef
  have hk : (0 : ℚ) < 2 ^ (e - 52) := by positivity
  have hsplit : (2 : ℚ) ^ e = 2 ^ (52 : Int) * 2 ^ (e - 52) := by
    rw [← zpow_add₀ (by norm_num : (2 : ℚ) ≠ 0)]; congr 1; omega
  have hsplit2 : (2 : ℚ) ^ (e + 1) = 2 ^ (53 : Int) * 2 ^ (e - 52) := by
    rw [← zpow_add₀ (by norm_num : (2 : ℚ) ≠ 0)]; congr 1; omega
  have hs1 : ((2 ^ 52 : Int) : ℚ) ≤ q / 2 ^ (e - 52) := by
    rw [le_div_iff₀ hk]
    calc ((2 ^ 52 : Int) : ℚ) * 2 ^ (e - 52) = 2 ^ (52 : Int) * 2 ^ (e - 52) := by norm_num
      _ = 2 ^ e := hsplit.symm
      _ ≤ q := hb1
  have hs2 : q / 2 ^ (e - 52) ≤ ((2 ^ 53 : Int) : ℚ) := by
    rw [div_le_iff₀ hk]
    calc q ≤ 2 ^ (e + 1) := le_of_lt hb2
      _ = 2 ^ (53 : Int) * 2 ^ (e - 52) := hsplit2
      _ = ((2 ^ 53 : Int) : ℚ) * 2 ^ (e - 52) := by norm_num
  have hr1 := le_roundHalfEven _ _ hs1
  have hr2 := roundHalfEven_le _ _ hs2
  have hr1q : ((2 ^ 52 : Int) : ℚ) ≤ (roundHalfEven (q / 2 ^ (e - 52)) : ℚ) := by exact_mod_cast hr1
  have hr2q : (roundHalfEven (q / 2 ^ (e - 52)) : ℚ) ≤ ((2 ^ 53 : Int) : ℚ) := by exact_mod_cast hr2
  refine ⟨?_, ?_, ?_⟩
  · rw [hsplit]
    have := mul_le_mul_of_nonneg_right hr1q (le_of_lt hk)
    calc (2 : ℚ) ^ (52 : Int) * 2 ^ (e - 52) = ((2 ^ 52 : Int) : ℚ) * 2 ^ (e - 52) := by norm_num
      _ ≤ _ := this
  · rw [hsplit2]
    have := mul_le_mul_of_nonneg_right hr2q (le_of_lt hk)
    calc _ ≤ ((2 ^ 53 : Int) : ℚ) * 2 ^ (e - 52) := this
      _ = (2 : ℚ) ^ (53 : Int) * 2 ^ (e - 52) := by norm_num
  · have herr := roundHalfEven_sub_abs_le (q / 2 ^ (e - 52))
    have hq : q = q / 2 ^ (e - 52) * 2 ^ (e - 52) := by field_simp
    have : (roundHalfEven (q / 2 ^ (e - 52)) : ℚ) * 2 ^ (e - 52) - q =
        ((roundHalfEven (q / 2 ^ (e - 52)) : ℚ) - q / 2 ^ (e - 52)) * 2 ^ (e - 52) := by
      rw [sub_mul]; congr 1
    rw [this, abs_mul, abs_of_pos hk]
    have h3 : (2 : ℚ) ^ (e - 52) ≤ q / 2 ^ 52 := by
      rw [le_div_iff₀ (by positivity)]
      calc (2 : ℚ) ^ (e - 52) * 2 ^ 52 = 2 ^ (52 : Int) * 2 ^ (e - 52) := by
            rw [mul_comm]; norm_num
        _ = 2 ^ e := hsplit.symm
        _ ≤ q := hb1
    calc _ ≤ 1 / 2 * (2 : ℚ) ^ (e - 52) := mul_le_mul_of_nonneg_right herr (le_of_lt hk)
      _ ≤ 1 / 2 * (q / 2 ^ 52) := by linarith
      _ = q / 2 ^ 53 := by ring

/-- A value on the grid of the binade of `q` that bounds `q` bounds its rounding. -/
theorem roundDouble_le_of_le (q c : ℚ) (n : Int) (h0 : 0 < q) (he : -1022 ≤ Int.log 2 q)
    (hc : c = (n : ℚ) * 2 ^ (Int.log 2 q - 52)) (hle : q ≤ c) : roundDouble q ≤ c := by
  rw [roundDouble_normal q h0 he, hc]
  have hk : (0 : ℚ) < 2 ^ (Int.log 2 q - 52) := by positivity
  apply mul_le_mul_of_nonneg_right _ (le_of_lt hk)
  have : q / 2 ^ (Int.log 2 q - 52) ≤ (n : ℚ) := by
    rw [div_le_iff₀ hk, ← hc]; exact hle
  exact_mod_cast roundHalfEven_le _ _ this

/-- A value on the grid of its own binade is a double. -/
theorem roundDouble_exact (q : ℚ) (n : Int) (h0 : 0 < q) (he : -1022 ≤ Int.log 2 q)
    (hq : q = (n : ℚ) * 2 ^ (Int.log 2 q - 52)) : roundDouble q = q := by
  rw [roundDouble_normal q h0 he]
  have hk : (0 : ℚ) < 2 ^ (Int.log 2 q - 52) := by positivity
  have : q / 2 ^ (Int.log 2 q - 52) = (n : ℚ) := by
    rw [div_eq_iff (ne_of_gt hk)]; exact hq
  rw [this, roundHalfEven_intCast]
  exact hq.symm

theorem intToDouble_exact (n : Int) (h0 : 0 < n) (h : n ≤ 2 ^ 53) : intToDouble n = n := by
  unfold intToDouble
  have hq : (0 : ℚ) < (n : ℚ) := by exact_mod_cast h0
  have h1 : (1 : ℚ) ≤ (n : ℚ) := by exact_mod_cast h0
  have hlog0 : 0 ≤ Int.log 2 (n : ℚ) :=
    (Int.zpow_le_iff_le_log (by norm_num : 1 < 2) hq).mp (by simpa using h1)
  rcases eq_or_lt_of_le h with heq | hlt
  · have hl : Int.log 2 (n : ℚ) = 53 := by
      apply log2_eq _ _ hq
      · rw [heq]; norm_num
      · rw [heq]; norm_num
    apply roundDouble_exact _ (2 ^ 52) hq (by omega)
    rw [hl, heq]; norm_num
  · have hl : Int.log 2 (n : ℚ) < 53 := by
      apply (Int.lt_zpow_iff_log_lt (by norm_num : 1 < 2) hq).mp
      have : (n : ℚ) < ((2 ^ 53 : Int) : ℚ) := by exact_mod_cast hlt
      calc (n : ℚ) < ((2 ^ 53 : Int) : ℚ) := this
        _ = ((2 : ℕ) : ℚ) ^ (53 : Int) := by norm_num
    obtain ⟨j, hj⟩ : ∃ j : Nat, Int.log 2 (n : ℚ) - 52 = -(j : Int) :=
      ⟨(52 - Int.log 2 (n : ℚ)).toNat, by omega⟩
    apply roundDouble_exact _ (n * 2 ^ j) hq (by omega)
    rw [hj, zpow_neg, zpow_natCast]
    push_cast
    field_simp

theorem log2_range (q : ℚ) (a b : Int) (h0 : 0 < q) (h1 : (2 : ℚ) ^ a ≤ q)
    (h2 : q < (2 : ℚ) ^ b) : a ≤ Int.log 2 q ∧ Int.log 2 q < b :=
  ⟨(Int.zpow_le_iff_le_log (by norm_num : 1 < 2) h0).mp (by exact_mod_cast h1),
   (Int.lt_zpow_iff_log_lt (by norm_num : 1 < 2) h0).mp (by exact_mod_cast h2)⟩

theorem intToDouble_bounds (n : Int) (h1 : 1 ≤ n) (h2 : n ≤ 9223372036854775807) :
    1 ≤ intToDouble n ∧ intToDouble n ≤ 2 ^ 63 := by
  unfold intToDouble
  have hq1 : (1 : ℚ) ≤ (n : ℚ) := by exact_mod_cast h1
  have hq2 : (n : ℚ) < 2 ^ (63 : Int) := by
    have : (n : ℚ) ≤ ((9223372036854775807 : Int) : ℚ) := by exact_mod_cast h2
    norm_num at this ⊢
    linarith
  have hq0 : (0 : ℚ) < (n : ℚ) := by linarith
  obtain ⟨hl1, hl2⟩ := log2_range (n : ℚ) 0 63 hq0 (by simpa using hq1) hq2
  obtain ⟨hb1, hb2, _⟩ := roundDouble_bounds (n : ℚ) hq0 (by omega)
  constructor
  · calc (1 : ℚ) = 2 ^ (0 : Int) := by norm_num
      _ ≤ 2 ^ (Int.log 2 (n : ℚ)) := zpow_le_zpow_right₀ (by norm_num) hl1
      _ ≤ _ := hb1
  · calc roundDouble (n : ℚ) ≤ 2 ^ (Int.log 2 (n : ℚ) + 1) := hb2
      _ ≤ 2 ^ (63 : Int) := zpow_le_zpow_right₀ (by norm_num) (by omega)
      _ = 2 ^ 63 := by norm_num

theorem doubleDiv_five_bounds (D : ℚ) (h1 : 1 ≤ D) (h2 : D ≤ 2 ^ 63) :
    0 < doubleDiv 5 D ∧ doubleDiv 5 D ≤ 5 ∧ |doubleDiv 5 D - 5 / D| ≤ 5 / D / 2 ^ 53 := by
  unfold doubleDiv
  have hD : (0 : ℚ) < D := by linarith
  have hq0 : (0 : ℚ) < 5 / D := by positivity
  have hq1 : (2 : ℚ) ^ (-61 : Int) ≤ 5 / D := by
    rw [le_div_iff₀ hD]
    have : (2 : ℚ) ^ (-61 : Int) * D ≤ 2 ^ (-61 : Int) * 2 ^ 63 :=
      mul_le_mul_of_nonneg_left h2 (by positivity)
    have h4 : (2 : ℚ) ^ (-61 : Int) * 2 ^ 63 = 4 := by
      rw [zpow_neg]; norm_num
    linarith
  have hq5 : 5 / D ≤ 5 := by
    rw [div_le_iff₀ hD]; linarith
  have hq2 : 5 / D < (2 : ℚ) ^ (3 : Int) := by
    norm_num; linarith
  obtain ⟨hl1, hl2⟩ := log2_range (5 / D) (-61) 3 hq0 hq1 hq2
  obtain ⟨hb1, hb2, hb3⟩ := roundDouble_bounds (5 / D) hq0 (by omega)
  refine ⟨lt_of_lt_of_le (by positivity) hb1, ?_, hb3⟩
  obtain ⟨j, hj⟩ : ∃ j : Nat, Int.log 2 (5 / D) - 52 = -(j : Int) :=
    ⟨(52 - Int.log 2 (5 / D)).toNat, by omega⟩
  apply roundDouble_le_of_le (5 / D) 5 (5 * 2 ^ j) hq0 (by omega) _ hq5
  rw [hj, zpow_neg, zpow_natCast]
  push_cast
  field_simp

theorem doubleDiv_five_three : doubleDiv 5 3 = 7505999378950827 / 4503599627370496 := by
  unfold doubleDiv
  rw [roundDouble_of_binade (5 / 3) 0 (by norm_num) (by norm_num) (by norm_num) (by norm_num)]
  rw [roundHalfEven_of_near _ 7505999378950827 (by rw [abs_lt]; norm_num [zpow_neg])]
  norm_num [zpow_neg]

theorem intToDouble_five : intToDouble 5 = 5 := by
  have h := intToDouble_exact 5 (by norm_num) (by norm_num)
  simpa using h

theorem doubleDiv_five_one : doubleDiv (intToDouble 5) (intToDouble 1) = 5 := by
  have h1 : intToDouble 1 = 1 := by
    have h := intToDouble_exact 1 (by norm_num) (by norm_num)
    simpa using h
  rw [intToDouble_five, h1]
  unfold doubleDiv
  have h5 := intToDouble_five
  unfold intToDouble at h5
  simpa using h5

namespace CRateCheckBuffer

theorem getD_set (l : List Int) (i k : Nat) (a : Int) :
    (l.set i a).getD k 0 = if i = k ∧ i < l.length then a else l.getD k 0 := by
  simp only [List.getD_eq_getElem?_getD, List.getElem?_set]
  by_cases hik : i = k
  · subst hik
    by_cases hl : i < l.length
    · simp [hl]
    · simp [hl, List.getElem?_eq_none (Nat.le_of_not_lt hl)]
  · simp [hik]

theorem tracks_construct : Tracks construct [] := by
  refine ⟨rfl, rfl, rfl, rfl, ?_⟩
  intro j hj
  simp at hj

theorem tracks_add (b : CRateCheckBuffer) (ts : List Int) (t : Int) (h : Tracks b ts) :
    Tracks (b.AddTimestamp t) (ts ++ [t]) := by
  obtain ⟨hsize, hend, hstart, hempty, hslots⟩ := h
  simp only [RATE_BUFFER_SIZE] at hsize hend hstart hslots
  refine ⟨?_, ?_, ?_, ?_, ?_⟩
  · simp [AddTimestamp, hsize, RATE_BUFFER_SIZE]
  · simp only [AddTimestamp, RATE_BUFFER_SIZE, hend, List.length_append, List.length_singleton]
    omega
  · simp only [AddTimestamp, RATE_BUFFER_SIZE, hend, hstart, hempty, List.length_append,
      List.length_singleton, decide_eq_false_iff_not]
    split_ifs <;> omega
  · simp [AddTimestamp]
  · intro j hj hle
    simp only [List.length_append, List.length_singleton, RATE_BUFFER_SIZE] at hj hle
    simp only [AddTimestamp, RATE_BUFFER_SIZE, getD_set, hend, hsize]
    by_cases hjl : j = ts.length
    · subst hjl
      have : ts.length % 5 < 5 := Nat.mod_lt _ (by decide)
      simp [this, List.getD_eq_getElem?_getD]
    · have hlt : j < ts.length := by omega
      have hne : ¬ (ts.length % 5 = j % 5 ∧ ts.length % 5 < 5) := by omega
      rw [if_neg hne, hslots j hlt (by omega)]
      simp [List.getD_eq_getElem?_getD, List.getElem?_append_left hlt]

theorem tracks_addAll (ts : List Int) : ∀ (b : CRateCheckBuffer) (pre : List Int),
    Tracks b pre → Tracks (addAll b ts) (pre ++ ts) := by
  induction ts with
  | nil => intro b pre h; simpa [addAll] using h
  | cons t ts ih =>
    intro b pre h
    have h2 := ih (b.AddTimestamp t) (pre ++ [t]) (tracks_add b pre t h)
    simpa [addAll] using h2

theorem tracks_fresh (ts : List Int) : Tracks (addAll construct ts) ts := by
  simpa using tracks_addAll ts construct [] tracks_construct

theorem getCount_of_tracks (b : CRateCheckBuffer) (ts : List Int) (h : Tracks b ts) :
    b.GetCount = ((min ts.length RATE_BUFFER_SIZE : Nat) : Int) := by
  obtain ⟨_, hend, hstart, hempty, _⟩ := h
  simp only [RATE_BUFFER_SIZE] at hend hstart ⊢
  simp only [GetCount, hend, hstart, hempty, RATE_BUFFER_SIZE]
  by_cases h0 : ts.length = 0
  · simp [h0]
  · simp only [h0, decide_False, Bool.false_eq_true, if_false]
    split_ifs <;> omega

theorem ringRegion_of_tracks (b : CRateCheckBuffer) (ts : List Int) (h : Tracks b ts)
    (hn : RATE_BUFFER_SIZE ≤ ts.length) : ringRegion b = lastFive ts := by
  obtain ⟨_, _, hstart, _, hslots⟩ := h
  simp only [RATE_BUFFER_SIZE] at hstart hslots hn
  apply List.ext_getElem
  · simp [ringRegion, lastFive, RATE_BUFFER_SIZE]; omega
  · intro i h1 h2
    have hi : i < 5 := by simpa [ringRegion, RATE_BUFFER_SIZE] using h1
    have hidx : (b.nDataStart + i) % 5 = (ts.length - 5 + i) % 5 := by
      rw [hstart]; split_ifs <;> omega
    have hs := hslots (ts.length - 5 + i) (by omega) (by omega)
    simp only [ringRegion, lastFive, RATE_BUFFER_SIZE, List.getElem_map, List.getElem_range,
      List.getElem_drop, hidx, hs]
    simp [List.getD_eq_getElem?_getD, List.getElem?_eq_getElem (show ts.length - 5 + i < ts.length by omega)]

theorem lastFive_snoc (ts : List Int) (t : Int) (hn : RATE_BUFFER_SIZE ≤ ts.length) :
    lastFive (ts ++ [t]) = (lastFive ts).tail ++ [t] := by
  simp only [lastFive, RATE_BUFFER_SIZE, List.length_append, List.length_singleton,
    List.tail_drop] at hn ⊢
  have e : ts.length + 1 - 5 = ts.length - 5 + 1 := by omega
  rw [e, List.drop_append_of_le_length (by omega)]

theorem scanRegion_succ (vec : List Int) (idx k : Nat) (hidx : idx < 5) :
    scanRegion vec idx (k + 1) = vec.getD idx 0 :: scanRegion vec ((idx + 1) % 5) k := by
  simp only [scanRegion, RATE_BUFFER_SIZE, List.range_succ_eq_map, List.map_cons, List.map_map,
    Nat.add_zero, Nat.mod_eq_of_lt hidx]
  congr 1
  apply List.map_congr_left
  intro j _
  simp only [Function.comp, Nat.succ_eq_add_one]
  congr 1
  omega

theorem minLoop_scan (vec : List Int) (e : Nat) : ∀ (k fuel idx : Nat) (acc : Int),
    idx < 5 → k ≤ fuel → (idx + (k + 1)) % 5 = e →
    (∀ j : Nat, 0 < j → j < k + 1 → (idx + j) % 5 ≠ e) →
    minLoop vec e (fuel + 1) idx acc = some ((scanRegion vec idx (k + 1)).foldl minStep acc) := by
  intro k
  induction k with
  | zero =>
    intro fuel idx acc hidx _ he _
    simp only [Nat.zero_add] at he
    rw [scanRegion_succ vec idx 0 hidx]
    simp [minLoop, RATE_BUFFER_SIZE, he, scanRegion, minStep]
  | succ k ih =>
    intro fuel idx acc hidx hk he hne
    obtain ⟨fuel, rfl⟩ : ∃ f, fuel = f + 1 := ⟨fuel - 1, by omega⟩
    have h1 : (idx + 1) % 5 ≠ e := hne 1 (by omega) (by omega)
    have hrec := ih fuel ((idx + 1) % 5) (minStep acc (vec.getD idx 0)) (Nat.mod_lt _ (by decide))
      (by omega) (by rw [← he]; omega)
      (by intro j hj0 hjk; have := hne (j + 1) (by omega) (by omega); intro hc; apply this; rw [← hc]; omega)
    rw [scanRegion_succ vec idx (k + 1) hidx, List.foldl_cons, ← hrec]
    conv_lhs => unfold minLoop
    simp only [RATE_BUFFER_SIZE, ne_eq, h1, not_false_eq_true, if_true, minStep]

theorem maxLoop_scan (vec : List Int) (e : Nat) : ∀ (k fuel idx : Nat) (acc : Int),
    idx < 5 → k ≤ fuel → (idx + (k + 1)) % 5 = e →
    (∀ j : Nat, 0 < j → j < k + 1 → (idx + j) % 5 ≠ e) →
    maxLoop vec e (fuel + 1) idx acc = some ((scanRegion vec idx (k + 1)).foldl maxStep acc) := by
  intro k
  induction k with
  | zero =>
    intro fuel idx acc hidx _ he _
    simp only [Nat.zero_add] at he
    rw [scanRegion_succ vec idx 0 hidx]
    simp [maxLoop, RATE_BUFFER_SIZE, he, scanRegion, maxStep]
  | succ k ih =>
    intro fuel idx acc hidx hk he hne
    obtain ⟨fuel, rfl⟩ : ∃ f, fuel = f + 1 := ⟨fuel - 1, by omega⟩
    have h1 : (idx + 1) % 5 ≠ e := hne 1 (by omega) (by omega)
    have hrec := ih fuel ((idx + 1) % 5) (maxStep acc (vec.getD idx 0)) (Nat.mod_lt _ (by decide))
      (by omega) (by rw [← he]; omega)
      (by intro j hj0 hjk; have := hne (j + 1) (by omega) (by omega); intro hc; apply this; rw [← hc]; omega)
    rw [scanRegion_succ vec idx (k + 1) hidx, List.foldl_cons, ← hrec]
    conv_lhs => unfold maxLoop
    simp only [RATE_BUFFER_SIZE, ne_eq, h1, not_false_eq_true, if_true, maxStep]

theorem foldl_minStep_spec (xs : List Int) : ∀ acc : Int,
    xs.foldl minStep acc ≤ acc ∧ (∀ x ∈ xs, xs.foldl minStep acc ≤ x) ∧
    (xs.foldl minStep acc = acc ∨ xs.foldl minStep acc ∈ xs) := by
  induction xs with
  | nil => intro acc; simp
  | cons a xs ih =>
    intro acc
    obtain ⟨h1, h2, h3⟩ := ih (minStep acc a)
    have ha : minStep acc a ≤ acc ∧ minStep acc a ≤ a ∧ (minStep acc a = acc ∨ minStep acc a = a) := by
      unfold minStep; split_ifs <;> omega
    simp only [List.foldl_cons, List.mem_cons, forall_eq_or_imp]
    refine ⟨by omega, ⟨by omega, h2⟩, ?_⟩
    rcases h3 with h3 | h3
    · rcases ha.2.2 with h4 | h4
      · left; omega
      · right; left; omega
    · right; right; exact h3

theorem foldl_maxStep_spec (xs : List Int) : ∀ acc : Int,
    acc ≤ xs.foldl maxStep acc ∧ (∀ x ∈ xs, x ≤ xs.foldl maxStep acc) ∧
    (xs.foldl maxStep acc = acc ∨ xs.foldl maxStep acc ∈ xs) := by
  induction xs with
  | nil => intro acc; simp
  | cons a xs ih =>
    intro acc
    obtain ⟨h1, h2, h3⟩ := ih (maxStep acc a)
    have ha : acc ≤ maxStep acc a ∧ a ≤ maxStep acc a ∧ (maxStep acc a = acc ∨ maxStep acc a = a) := by
      unfold maxStep; split_ifs <;> omega
    simp only [List.foldl_cons, List.mem_cons, forall_eq_or_imp]
    refine ⟨by omega, ⟨by omega, h2⟩, ?_⟩
    rcases h3 with h3 | h3
    · rcases ha.2.2 with h4 | h4
      · left; omega
      · right; left; omega
    · right; right; exact h3

theorem getMin_full (b : CRateCheckBuffer) (ts : List Int) (h : Tracks b ts)
    (hn : RATE_BUFFER_SIZE ≤ ts.length) :
    b.GetMinTimestamp = some ((lastFive ts).foldl minStep INT64_MAX) := by
  have hr := ringRegion_of_tracks b ts h hn
  obtain ⟨_, hend, hstart, hempty, _⟩ := h
  simp only [RATE_BUFFER_SIZE] at hend hstart hn
  have hs : b.nDataStart = b.nDataEnd := by rw [hend, hstart]; split_ifs <;> omega
  have he : b.fBufferEmpty = false := by
    rw [hempty, decide_eq_false_iff_not]; omega
  have hlt : b.nDataStart < 5 := by rw [hs, hend]; exact Nat.mod_lt _ (by decide)
  have := minLoop_scan b.vecTimestamps b.nDataEnd 4 4 b.nDataStart INT64_MAX hlt (le_refl _)
    (by omega) (by intro j h0 h5; omega)
  simp only [GetMinTimestamp, he, RATE_BUFFER_SIZE, Bool.false_eq_true, if_false, this]
  rw [← hr]
  rfl

theorem getMax_full (b : CRateCheckBuffer) (ts : List Int) (h : Tracks b ts)
    (hn : RATE_BUFFER_SIZE ≤ ts.length) :
    b.GetMaxTimestamp = some ((lastFive ts).foldl maxStep 0) := by
  have hr := ringRegion_of_tracks b ts h hn
  obtain ⟨_, hend, hstart, hempty, _⟩ := h
  simp only [RATE_BUFFER_SIZE] at hend hstart hn
  have hs : b.nDataStart = b.nDataEnd := by rw [hend, hstart]; split_ifs <;> omega
  have he : b.fBufferEmpty = false := by
    rw [hempty, decide_eq_false_iff_not]; omega
  have hlt : b.nDataStart < 5 := by rw [hs, hend]; exact Nat.mod_lt _ (by decide)
  have := maxLoop_scan b.vecTimestamps b.nDataEnd 4 4 b.nDataStart 0 hlt (le_refl _)
    (by omega) (by intro j h0 h5; omega)
  simp only [GetMaxTimestamp, he, RATE_BUFFER_SIZE, Bool.false_eq_true, if_false, this]
  rw [← hr]
  rfl

/-- C1: after any finite sequence of `AddTimestamp` calls on a freshly
constructed buffer, `GetCount()` is at most `RATE_BUFFER_SIZE` = 5. -/
theorem getCount_le_capacity (ts : List Int) :
    (addAll construct ts).GetCount ≤ 5 ∧ RATE_BUFFER_SIZE = 5 := by
  refine ⟨?_, rfl⟩
  rw [getCount_of_tracks _ ts (tracks_fresh ts)]
  simp only [RATE_BUFFER_SIZE]
  omega

/-- C2: after fewer than five `AddTimestamp` calls (none included) on a freshly
constructed buffer, `GetRate()` returns exactly 0, whatever the timestamps. -/
theorem getRate_zero_before_full (ts : List Int) (h : ts.length < 5) :
    (addAll construct ts).GetRate = RateResult.value 0 := by
  have hc := getCount_of_tracks _ ts (tracks_fresh ts)
  simp only [RATE_BUFFER_SIZE] at hc
  have hlt : (addAll construct ts).GetCount < 5 := by rw [hc]; omega
  simp [GetRate, RATE_BUFFER_SIZE, hlt]

theorem getRate_zero_before_full_witness :
    [1700000000, -3, 1700000000].length < 5 ∧
      (addAll construct [1700000000, -3, 1700000000]).GetRate = RateResult.value 0 :=
  ⟨by decide, getRate_zero_before_full [1700000000, -3, 1700000000] (by decide)⟩

theorem getRate_full_of_bounds (ts : List Int) (M m : Int) (hlen : 5 ≤ ts.length)
    (hrange : ∀ t ∈ lastFive ts, 0 ≤ t ∧ t ≤ INT64_MAX)
    (hM : M ∈ lastFive ts ∧ ∀ x ∈ lastFive ts, x ≤ M)
    (hm : m ∈ lastFive ts ∧ ∀ x ∈ lastFive ts, m ≤ x) :
    (addAll construct ts).GetCount = 5 ∧
    (addAll construct ts).GetMinTimestamp = some m ∧
    (addAll construct ts).GetMaxTimestamp = some M := by
  have htr := tracks_fresh ts
  have hn : RATE_BUFFER_SIZE ≤ ts.length := by simpa [RATE_BUFFER_SIZE] using hlen
  refine ⟨?_, ?_, ?_⟩
  · rw [getCount_of_tracks _ ts htr]
    simp only [RATE_BUFFER_SIZE]
    omega
  · rw [getMin_full _ ts htr hn]
    obtain ⟨h1, h2, h3⟩ := foldl_minStep_spec (lastFive ts) INT64_MAX
    have hle := h2 m hm.1
    have hmr := (hrange m hm.1).2
    rcases h3 with h3 | h3
    · congr 1; omega
    · have := hm.2 _ h3
      congr 1; omega
  · rw [getMax_full _ ts htr hn]
    obtain ⟨h1, h2, h3⟩ := foldl_maxStep_spec (lastFive ts) 0
    have hle := h2 M hM.1
    have hmr := (hrange M hM.1).1
    rcases h3 with h3 | h3
    · congr 1; omega
    · have := hM.2 _ h3
      congr 1; omega

/-- C3 (evaluation at the failing input): five `AddTimestamp(-1)` calls store
five identical timestamps, yet `GetMaxTimestamp()` answers 0 (its running
maximum starts at 0) while `GetMinTimestamp()` answers -1, so `GetRate()`
divides 5 by 1 and returns 5 instead of the sentinel `1.0e10`; with the five
entries 100 of the spec the sentinel is returned. -/
theorem getRate_identical_negative :
    (addAll construct [-1, -1, -1, -1, -1]).GetMinTimestamp = some (-1) ∧
    (addAll construct [-1, -1, -1, -1, -1]).GetMaxTimestamp = some 0 ∧
    (addAll construct [-1, -1, -1, -1, -1]).GetRate = RateResult.value 5 ∧
    RateResult.value 5 ≠ RateResult.value RATE_INFINITE ∧
    (addAll construct [100, 100, 100, 100, 100]).GetRate = RateResult.value RATE_INFINITE := by
  have hmin : (addAll construct [-1, -1, -1, -1, -1]).GetMinTimestamp = some (-1) := by decide
  have hmax : (addAll construct [-1, -1, -1, -1, -1]).GetMaxTimestamp = some 0 := by decide
  have hc : (addAll construct [-1, -1, -1, -1, -1]).GetCount = 5 := by decide
  have hmin2 : (addAll construct [100, 100, 100, 100, 100]).GetMinTimestamp = some 100 := by decide
  have hmax2 : (addAll construct [100, 100, 100, 100, 100]).GetMaxTimestamp = some 100 := by decide
  have hc2 : (addAll construct [100, 100, 100, 100, 100]).GetCount = 5 := by decide
  refine ⟨hmin, hmax, ?_, ?_, ?_⟩
  · simp only [GetRate, hmin, hmax, hc, RATE_BUFFER_SIZE, wrapInt64]
    norm_num
    exact doubleDiv_five_one
  · simp only [RATE_INFINITE, ne_eq, RateResult.value.injEq]
    norm_num
  · simp only [GetRate, hmin2, hmax2, hc2, RATE_BUFFER_SIZE]
    norm_num

/-- Five or more identical non-negative `int64_t` timestamps give the
sentinel: the part of C3 that the code does deliver. -/
theorem getRate_identical_nonneg (t : Int) (n : Nat) (h0 : 0 ≤ t) (h1 : t ≤ INT64_MAX)
    (hn : 5 ≤ n) :
    (addAll construct (List.replicate n t)).GetRate = RateResult.value RATE_INFINITE := by
  have hmem : ∀ x ∈ lastFive (List.replicate n t), x = t := by
    intro x hx
    exact List.eq_of_mem_replicate (List.mem_of_mem_drop hx)
  have hin : t ∈ lastFive (List.replicate n t) := by
    have hl : (lastFive (List.replicate n t)).length = 5 := by
      simp [lastFive, RATE_BUFFER_SIZE]; omega
    obtain ⟨x, hx⟩ := List.exists_mem_of_length_pos (by omega : 0 < (lastFive (List.replicate n t)).length)
    have hxt := hmem x hx
    subst hxt; exact hx
  obtain ⟨hc, hmin, hmax⟩ := getRate_full_of_bounds (List.replicate n t) t t (by simpa using hn)
    (by intro x hx; rw [hmem x hx]; exact ⟨h0, h1⟩)
    ⟨hin, fun x hx => le_of_eq (hmem x hx)⟩ ⟨hin, fun x hx => le_of_eq (hmem x hx).symm⟩
  simp [GetRate, hc, hmin, hmax, RATE_BUFFER_SIZE]

/-- C4 (counterexample): after `AddTimestamp` of 0, 0, 0, 0, 3 the last five
timestamps are non-negative and not all equal, with largest 3 and smallest 0;
`GetRate()` returns the double nearest to 5 / 3, which is
7505999378950827 / 2^52 and not the rational 5 / 3. -/
theorem getRate_not_exact_rational :
    (5 ≤ [(0 : Int), 0, 0, 0, 3].length ∧
      (∀ t ∈ [(0 : Int), 0, 0, 0, 3], 0 ≤ t ∧ t ≤ INT64_MAX) ∧
      ((3 : Int) ∈ lastFive [0, 0, 0, 0, 3] ∧ ∀ x ∈ lastFive [0, 0, 0, 0, 3], x ≤ 3) ∧
      ((0 : Int) ∈ lastFive [0, 0, 0, 0, 3] ∧ ∀ x ∈ lastFive [0, 0, 0, 0, 3], 0 ≤ x) ∧
      (∃ x ∈ lastFive [0, 0, 0, 0, 3], ∃ y ∈ lastFive [0, 0, 0, 0, 3], x ≠ y)) ∧
    (addAll construct [0, 0, 0, 0, 3]).GetRate =
      RateResult.value (7505999378950827 / 4503599627370496) ∧
    (addAll construct [0, 0, 0, 0, 3]).GetRate ≠
      RateResult.value ((5 : ℚ) / (((3 - 0 : Int)) : ℚ)) := by
  have hmin : (addAll construct [0, 0, 0, 0, 3]).GetMinTimestamp = some 0 := by decide
  have hmax : (addAll construct [0, 0, 0, 0, 3]).GetMaxTimestamp = some 3 := by decide
  have hc : (addAll construct [0, 0, 0, 0, 3]).GetCount = 5 := by decide
  have hrate : (addAll construct [0, 0, 0, 0, 3]).GetRate =
      RateResult.value (7505999378950827 / 4503599627370496) := by
    simp only [GetRate, hmin, hmax, hc, RATE_BUFFER_SIZE, wrapInt64]
    norm_num
    have h3 : intToDouble 3 = 3 := by
      have h := intToDouble_exact 3 (by norm_num) (by norm_num)
      simpa using h
    rw [intToDouble_five, h3, doubleDiv_five_three]
  refine ⟨⟨by decide, by decide, by decide, by decide, by decide⟩, hrate, ?_⟩
  rw [hrate]
  simp only [ne_eq, RateResult.value.injEq]
  norm_num

/-- C4 (amended): after at least five `AddTimestamp` calls with non-negative
`int64_t` timestamps on a freshly constructed buffer, if the last five
timestamps are not all equal then `GetRate()` is the double quotient of 5 by
the double nearest to `M - m`, with `M` the largest and `m` the smallest of
the last five timestamps. The divisor is at least 1, the rate lies in (0, 5]
and is within a 2^53-th part of the exact quotient of 5 by the converted
divisor, and the conversion of the divisor is exact up to 2^53: then the rate
is the double nearest to 5 / (M - m). -/
theorem getRate_full (ts : List Int) (M m : Int) (hlen : 5 ≤ ts.length)
    (hrange : ∀ t ∈ ts, 0 ≤ t ∧ t ≤ INT64_MAX)
    (hM : M ∈ lastFive ts ∧ ∀ x ∈ lastFive ts, x ≤ M)
    (hm : m ∈ lastFive ts ∧ ∀ x ∈ lastFive ts, m ≤ x)
    (hne : ∃ x ∈ lastFive ts, ∃ y ∈ lastFive ts, x ≠ y) :
    (addAll construct ts).GetRate =
      RateResult.value (doubleDiv (intToDouble 5) (intToDouble (M - m))) ∧
    1 ≤ M - m ∧
    (0 : ℚ) < doubleDiv (intToDouble 5) (intToDouble (M - m)) ∧
    doubleDiv (intToDouble 5) (intToDouble (M - m)) ≤ 5 ∧
    |doubleDiv (intToDouble 5) (intToDouble (M - m)) - 5 / intToDouble (M - m)| ≤
      5 / intToDouble (M - m) / 2 ^ 53 ∧
    (M - m ≤ 2 ^ 53 →
      intToDouble (M - m) = ((M - m : Int) : ℚ) ∧
      doubleDiv (intToDouble 5) (intToDouble (M - m)) =
        roundDouble ((5 : ℚ) / ((M - m : Int) : ℚ))) := by
  obtain ⟨hc, hmin, hmax⟩ := getRate_full_of_bounds ts M m hlen
    (fun t ht => hrange t (List.mem_of_mem_drop ht)) hM hm
  obtain ⟨x, hx, y, hy, hxy⟩ := hne
  have hx1 := hM.2 x hx
  have hx2 := hm.2 x hx
  have hy1 := hM.2 y hy
  have hy2 := hm.2 y hy
  have hd : 1 ≤ M - m := by omega
  have hMr := hrange M (List.mem_of_mem_drop hM.1)
  have hmr := hrange m (List.mem_of_mem_drop hm.1)
  have hdmax : M - m ≤ 9223372036854775807 := by
    simp only [INT64_MAX] at hMr hmr
    omega
  have hw : wrapInt64 (M - m) = M - m := by
    unfold wrapInt64
    omega
  obtain ⟨hD1, hD2⟩ := intToDouble_bounds (M - m) hd hdmax
  obtain ⟨hr0, hr5, herr⟩ := doubleDiv_five_bounds (intToDouble (M - m)) hD1 hD2
  rw [intToDouble_five]
  refine ⟨?_, hd, hr0, hr5, herr, ?_⟩
  · have hmM : ¬ m = M := by omega
    have hz : ¬ (M - m = 0) := by omega
    simp only [GetRate, hc, hmin, hmax, RATE_BUFFER_SIZE, hw, hmM, hz]
    norm_num
    rw [intToDouble_five]
  · intro hsmall
    have hexact := intToDouble_exact (M - m) (by omega) hsmall
    refine ⟨hexact, ?_⟩
    rw [hexact]
    rfl

theorem getRate_full_witness :
    (addAll construct [10, 20, 30, 40, 50, 60]).GetRate =
      RateResult.value (doubleDiv (intToDouble 5) (intToDouble (60 - 20))) ∧
    1 ≤ (60 : Int) - 20 ∧
    (0 : ℚ) < doubleDiv (intToDouble 5) (intToDouble (60 - 20)) ∧
    doubleDiv (intToDouble 5) (intToDouble (60 - 20)) ≤ 5 ∧
    |doubleDiv (intToDouble 5) (intToDouble (60 - 20)) - 5 / intToDouble (60 - 20)| ≤
      5 / intToDouble (60 - 20) / 2 ^ 53 ∧
    intToDouble (60 - 20) = (((60 - 20 : Int)) : ℚ) ∧
    doubleDiv (intToDouble 5) (intToDouble (60 - 20)) =
      roundDouble ((5 : ℚ) / (((60 - 20 : Int)) : ℚ)) :=
  have h := getRate_full [10, 20, 30, 40, 50, 60] 60 20 (by decide) (by decide) (by decide)
    (by decide) (by decide)
  ⟨h.1, h.2.1, h.2.2.1, h.2.2.2.1, h.2.2.2.2.1, h.2.2.2.2.2 (by norm_num)⟩

/-- C5: after `n ≥ 5` calls of `AddTimestamp` on a freshly constructed buffer,
the five slots read from `nDataStart` forward (modulo 5) are the last five
timestamps added, in insertion order; one more `AddTimestamp` drops the oldest
of them, keeps the other four in place and appends the new one. -/
theorem ring_holds_last_five (ts : List Int) (h : 5 ≤ ts.length) :
    ringRegion (addAll construct ts) = lastFive ts ∧
    (lastFive ts).length = 5 ∧
    (∀ i : Nat, i < 5 → (lastFive ts).getD i 0 = ts.getD (ts.length - 5 + i) 0) ∧
    ∀ t : Int, ringRegion ((addAll construct ts).AddTimestamp t) =
      (ringRegion (addAll construct ts)).tail ++ [t] := by
  have h1 := ringRegion_of_tracks _ ts (tracks_fresh ts) (by simpa [RATE_BUFFER_SIZE] using h)
  refine ⟨h1, ?_, ?_, ?_⟩
  · simp [lastFive, RATE_BUFFER_SIZE]; omega
  · intro i hi
    simp [lastFive, RATE_BUFFER_SIZE, List.getD_eq_getElem?_getD]
  · intro t
    have h2 := ringRegion_of_tracks _ (ts ++ [t]) (tracks_add _ ts t (tracks_fresh ts))
      (by simp [RATE_BUFFER_SIZE]; omega)
    rw [h2, h1, lastFive_snoc ts t (by simpa [RATE_BUFFER_SIZE] using h)]

theorem ring_holds_last_five_witness :
    ringRegion (addAll construct [1, 2, 3, 4, 5, 6, 7]) = lastFive [1, 2, 3, 4, 5, 6, 7] ∧
    (lastFive [1, 2, 3, 4, 5, 6, 7]).length = 5 ∧
    (∀ i : Nat, i < 5 → (lastFive [1, 2, 3, 4, 5, 6, 7]).getD i 0 =
      ([1, 2, 3, 4, 5, 6, 7] : List Int).getD (([1, 2, 3, 4, 5, 6, 7] : List Int).length - 5 + i) 0) ∧
    ∀ t : Int, ringRegion ((addAll construct [1, 2, 3, 4, 5, 6, 7]).AddTimestamp t) =
      (ringRegion (addAll construct [1, 2, 3, 4, 5, 6, 7])).tail ++ [t] :=
  ring_holds_last_five [1, 2, 3, 4, 5, 6, 7] (by decide)


theorem scanRegion_partial (b : CRateCheckBuffer) (ts : List Int) (h : Tracks b ts)
    (hn : ts.length ≤ RATE_BUFFER_SIZE) : scanRegion b.vecTimestamps 0 ts.length = ts := by
  obtain ⟨_, _, _, _, hslots⟩ := h
  simp only [RATE_BUFFER_SIZE] at hslots hn
  apply List.ext_getElem
  · simp [scanRegion]
  · intro i h1 h2
    have hs := hslots i h2 (by omega)
    simp only [scanRegion, RATE_BUFFER_SIZE, List.getElem_map, List.getElem_range, Nat.zero_add, hs]
    simp [List.getD_eq_getElem?_getD, List.getElem?_eq_getElem h2]

theorem getMin_of_tracks (b : CRateCheckBuffer) (ts : List Int) (h : Tracks b ts)
    (hne : ts ≠ []) :
    b.GetMinTimestamp = some ((lastFive ts).foldl minStep INT64_MAX) := by
  by_cases hn : RATE_BUFFER_SIZE ≤ ts.length
  · exact getMin_full b ts h hn
  · have hpos : 0 < ts.length := List.length_pos.mpr hne
    have hr := scanRegion_partial b ts h (by omega)
    obtain ⟨_, hend, hstart, hempty, _⟩ := h
    simp only [RATE_BUFFER_SIZE] at hend hstart hn
    have hs : b.nDataStart = 0 := by rw [hstart]; split_ifs <;> omega
    have he : b.fBufferEmpty = false := by
      rw [hempty, decide_eq_false_iff_not]; omega
    have := minLoop_scan b.vecTimestamps b.nDataEnd (ts.length - 1) 4 0 INT64_MAX (by omega)
      (by omega) (by rw [hend]; omega) (by intro j h0 h5; rw [hend]; omega)
    have hk : ts.length - 1 + 1 = ts.length := by omega
    rw [hk, hr] at this
    have hl : lastFive ts = ts := by
      simp only [lastFive, RATE_BUFFER_SIZE]
      have : ts.length - 5 = 0 := by omega
      rw [this, List.drop_zero]
    simp only [GetMinTimestamp, he, RATE_BUFFER_SIZE, Bool.false_eq_true, if_false, hs, this, hl]

theorem getMax_of_tracks (b : CRateCheckBuffer) (ts : List Int) (h : Tracks b ts)
    (hne : ts ≠ []) :
    b.GetMaxTimestamp = some ((lastFive ts).foldl maxStep 0) := by
  by_cases hn : RATE_BUFFER_SIZE ≤ ts.length
  · exact getMax_full b ts h hn
  · have hpos : 0 < ts.length := List.length_pos.mpr hne
    have hr := scanRegion_partial b ts h (by omega)
    obtain ⟨_, hend, hstart, hempty, _⟩ := h
    simp only [RATE_BUFFER_SIZE] at hend hstart hn
    have hs : b.nDataStart = 0 := by rw [hstart]; split_ifs <;> omega
    have he : b.fBufferEmpty = false := by
      rw [hempty, decide_eq_false_iff_not]; omega
    have := maxLoop_scan b.vecTimestamps b.nDataEnd (ts.length - 1) 4 0 0 (by omega)
      (by omega) (by rw [hend]; omega) (by intro j h0 h5; rw [hend]; omega)
    have hk : ts.length - 1 + 1 = ts.length := by omega
    rw [hk, hr] at this
    have hl : lastFive ts = ts := by
      simp only [lastFive, RATE_BUFFER_SIZE]
      have : ts.length - 5 = 0 := by omega
      rw [this, List.drop_zero]
    simp only [GetMaxTimestamp, he, RATE_BUFFER_SIZE, Bool.false_eq_true, if_false, hs, this, hl]

theorem lastFive_length (ts : List Int) : (lastFive ts).length = min ts.length 5 := by
  simp only [lastFive, RATE_BUFFER_SIZE, List.length_drop]
  omega

/-- C18 (evaluation at the failing input): after the single call
`AddTimestamp(-5)` the ring holds one timestamp, -5, and `GetMaxTimestamp()`
answers 0, a value that was never added; likewise after six negative
timestamps the answer is 0 while the largest of the last five is -1. The scan
itself runs over the right slots: with the timestamps 3, 9, 4 the answer is
9. -/
theorem getMax_negative_contents :
    lastFive [-5] = [-5] ∧
    (addAll construct [-5]).GetMaxTimestamp = some 0 ∧
    lastFive [-3, -1, -2, -7, -4, -9] = [-1, -2, -7, -4, -9] ∧
    (addAll construct [-3, -1, -2, -7, -4, -9]).GetMaxTimestamp = some 0 ∧
    (addAll construct [3, 9, 4]).GetMaxTimestamp = some 9 := by
  refine ⟨by decide, by decide, by decide, by decide, by decide⟩

/-- The part of C18 that the code delivers: when the last `min(n, 5)`
timestamps contain a non-negative one, `GetMaxTimestamp()` returns the largest
of them. -/
theorem getMax_of_nonneg (ts : List Int) (hpos : ∃ t ∈ lastFive ts, 0 ≤ t) :
    ∃ M : Int, (addAll construct ts).GetMaxTimestamp = some M ∧
      M ∈ lastFive ts ∧ ∀ x ∈ lastFive ts, x ≤ M := by
  obtain ⟨t, ht, h0⟩ := hpos
  have hne : ts ≠ [] := by
    intro hc
    subst hc
    simp [lastFive] at ht
  refine ⟨_, getMax_of_tracks _ ts (tracks_fresh ts) hne, ?_, ?_⟩
  · obtain ⟨h1, h2, h3⟩ := foldl_maxStep_spec (lastFive ts) 0
    rcases h3 with h3 | h3
    · have := h2 t ht
      have h4 : t = 0 := by omega
      rw [h3, ← h4]
      exact ht
    · exact h3
  · exact (foldl_maxStep_spec (lastFive ts) 0).2.1

/-- C19: after `n ≥ 1` calls of `AddTimestamp` with `int64_t` timestamps on a
freshly constructed buffer, `GetMinTimestamp()` returns the smallest of the
last `min(n, 5)` timestamps added: a value that is one of them and is below or
equal to each of them (so no stale or unwritten slot is read). -/
theorem getMin_is_smallest (ts : List Int) (hne : ts ≠ [])
    (hrange : ∀ t ∈ ts, t ≤ INT64_MAX) :
    ∃ m : Int, (addAll construct ts).GetMinTimestamp = some m ∧
      m ∈ lastFive ts ∧ (∀ x ∈ lastFive ts, m ≤ x) ∧
      (lastFive ts).length = min ts.length 5 ∧
      lastFive ts = ts.drop (ts.length - min ts.length 5) := by
  refine ⟨_, getMin_of_tracks _ ts (tracks_fresh ts) hne, ?_, ?_, lastFive_length ts, ?_⟩
  · obtain ⟨h1, h2, h3⟩ := foldl_minStep_spec (lastFive ts) INT64_MAX
    rcases h3 with h3 | h3
    · have hlen : 0 < (lastFive ts).length := by
        rw [lastFive_length]
        have := List.length_pos.mpr hne
        omega
      obtain ⟨x, hx⟩ := List.exists_mem_of_length_pos hlen
      have hx1 := h2 x hx
      have hx2 := hrange x (List.mem_of_mem_drop hx)
      have hx3 : x = List.foldl minStep INT64_MAX (lastFive ts) := by omega
      rw [← hx3]
      exact hx
    · exact h3
  · exact (foldl_minStep_spec (lastFive ts) INT64_MAX).2.1
  · simp only [lastFive, RATE_BUFFER_SIZE]
    congr 1
    omega

theorem getMin_is_smallest_witness :
    ∃ m : Int, (addAll construct [40, -7, 12]).GetMinTimestamp = some m ∧
      m ∈ lastFive [40, -7, 12] ∧ (∀ x ∈ lastFive [40, -7, 12], m ≤ x) ∧
      (lastFive [40, -7, 12]).length = min ([40, -7, 12] : List Int).length 5 ∧
      lastFive [40, -7, 12] =
        ([40, -7, 12] : List Int).drop (([40, -7, 12] : List Int).length -
          min ([40, -7, 12] : List Int).length 5) :=
  getMin_is_smallest [40, -7, 12] (by decide) (by decide)

end CRateCheckBuffer

/-! ## Theorems: serialization -/

theorem CRateCheckBuffer.bufferCodec_roundTrips (p : PrimCodecs)
    (hv : p.vecInt64.RoundTrips) (hi : p.int.RoundTrips) (hb : p.bool.RoundTrips) :
    (CRateCheckBuffer.SerializationOp p).RoundTrips := by
  intro b rest
  simp only [CRateCheckBuffer.SerializationOp, List.append_assoc, hv _ _, hi _ _, hb _ _]

theorem last_object_rec.recordCodec_roundTrips (p : PrimCodecs)
    (hv : p.vecInt64.RoundTrips) (hi : p.int.RoundTrips) (hb : p.bool.RoundTrips) :
    (last_object_rec.SerializationOp p).RoundTrips := by
  intro r rest
  have hbuf := CRateCheckBuffer.bufferCodec_roundTrips p hv hi hb
  simp only [last_object_rec.SerializationOp, List.append_assoc, hbuf _ _, hb _ _]

namespace CGovernanceManager

variable {Obj Vote MN : Type}

theorem lastObjectCodec_roundTrips (c : Codecs Obj Vote MN) (hc : c.RoundTrips) :
    (lastObjectCodec c).RoundTrips :=
  hc.mapOf _ (last_object_rec.recordCodec_roundTrips c.prim hc.vecInt64 hc.int hc.bool)

theorem readMembers_writeMembers (c : Codecs Obj Vote MN) (hc : c.RoundTrips)
    (m m0 : CGovernanceManager Obj Vote MN) (rest : Stream) :
    readMembers c m0 (writeMembers c m ++ rest) =
      some ({ m with cmapVoteToObject := m0.cmapVoteToObject }, rest) := by
  have hl := lastObjectCodec_roundTrips c hc
  simp only [readMembers, writeMembers, List.append_assoc, hc.erased _ _, hc.invalidVotes _ _,
    hc.orphanVotes _ _, hc.objects _ _, hl _ _, hc.mnList _ _]

theorem serializationOpRead_mismatch (c : Codecs Obj Vote MN) (version : String)
    (m : CGovernanceManager Obj Vote MN) (s : Stream) (strVersion : String) (rest : Stream)
    (hread : c.str.read s = some (strVersion, rest)) (hne : strVersion ≠ version) :
    SerializationOpRead c version m s =
      match readMembers c m rest with
      | none => ReadResult.ioFailure
      | some (m1, rest1) => ReadResult.ok (Clear m1) rest1 := by
  simp only [SerializationOpRead, hread]
  cases readMembers c m rest with
  | none => rfl
  | some r => obtain ⟨m1, rest1⟩ := r; simp [hne]

end CGovernanceManager

namespace Wire

theorem int64_roundTrips : int64.RoundTrips := by
  intro x rest; rfl

theorem nat_roundTrips : nat.RoundTrips := by
  intro n rest
  simp [nat]

theorem bool_roundTrips : bool.RoundTrips := by
  intro b rest
  cases b <;> simp [bool]

theorem pair_roundTrips {α β : Type} (a : FieldCodec α) (b : FieldCodec β)
    (ha : a.RoundTrips) (hb : b.RoundTrips) : (pair a b).RoundTrips := by
  intro x rest
  simp only [pair, List.append_assoc, ha _ _, hb _ _]

theorem readEntries_writeEntries {α : Type} (a : FieldCodec α) (ha : a.RoundTrips)
    (xs : List α) (rest : Stream) :
    readEntries a xs.length (writeEntries a xs ++ rest) = some (xs, rest) := by
  induction xs with
  | nil => rfl
  | cons x xs ih =>
    simp only [List.length_cons, readEntries, writeEntries, List.append_assoc, ha _ _, ih]

theorem list_roundTrips {α : Type} (a : FieldCodec α) (ha : a.RoundTrips) :
    (list a).RoundTrips := by
  intro xs rest
  simp [list, readEntries_writeEntries a ha]

theorem string_roundTrips : string.RoundTrips := by
  intro str rest
  have h := list_roundTrips nat nat_roundTrips (str.toList.map Char.toNat) rest
  simp only [string, h, List.map_map]
  have hid : (Char.ofNat ∘ Char.toNat) = id := by
    funext ch; simp
  simp [hid]

theorem codecs_roundTrips : codecs.RoundTrips where
  str := string_roundTrips
  erased := list_roundTrips _ (pair_roundTrips _ _ nat_roundTrips int64_roundTrips)
  invalidVotes := list_roundTrips _ (pair_roundTrips _ _ nat_roundTrips nat_roundTrips)
  orphanVotes := list_roundTrips _
    (pair_roundTrips _ _ nat_roundTrips (pair_roundTrips _ _ nat_roundTrips int64_roundTrips))
  objects := list_roundTrips _ (pair_roundTrips _ _ nat_roundTrips nat_roundTrips)
  mapOf := fun _ hv =>
    list_roundTrips _ (pair_roundTrips _ _ (pair_roundTrips _ _ nat_roundTrips nat_roundTrips) hv)
  mnList := list_roundTrips _ nat_roundTrips
  vecInt64 := list_roundTrips _ int64_roundTrips
  int := nat_roundTrips
  bool := bool_roundTrips

theorem sampleStream_written :
    CGovernanceManager.SerializationOpWrite codecs "v1" sampleManager [] = sampleStream := by
  decide

end Wire

namespace CGovernanceManager

/-- C6 (evaluation at the failing input): the snapshot `sampleStream` carries
the version string `"v1"` and decodes completely; read under the version
`"v2"` every container that `Clear()` names comes out empty, but
`lastMNListForVotingKeys`, which `Clear()` does not name, keeps the list `[7]`
read from the stream. -/
theorem mismatch_keeps_lastMNList :
    Wire.string.read Wire.sampleStream =
      some ("v1", Wire.sampleStream.drop 3) ∧
    "v1" ≠ "v2" ∧
    SerializationOpRead Wire.codecs "v2" Wire.emptyManager Wire.sampleStream =
      ReadResult.ok { Wire.emptyManager with lastMNListForVotingKeys := [7] } [] ∧
    ({ Wire.emptyManager with lastMNListForVotingKeys := [7] } :
      CGovernanceManager Nat Nat Nat).lastMNListForVotingKeys ≠ [] := by
  refine ⟨by decide, by decide, by decide, by decide⟩

/-- C7 (counterexample): the stream `truncatedStream` starts with the version
string `"v1"`, which differs from the expected `"v2"`, and what follows is cut
short; the reading pass ends in the decoding error, not in a reset manager. -/
theorem mismatch_truncated_throws :
    Wire.string.read Wire.truncatedStream = some ("v1", [1, 2]) ∧
    "v1" ≠ "v2" ∧
    SerializationOpRead Wire.codecs "v2" Wire.sampleManager Wire.truncatedStream =
      ReadResult.ioFailure ∧
    ∀ (m : CGovernanceManager Nat Nat Nat) (rest : Stream),
      SerializationOpRead Wire.codecs "v2" Wire.sampleManager Wire.truncatedStream ≠
        ReadResult.ok m rest := by
  have h : SerializationOpRead Wire.codecs "v2" Wire.sampleManager Wire.truncatedStream =
      ReadResult.ioFailure := by decide
  refine ⟨by decide, by decide, h, ?_⟩
  intro m rest hc
  rw [h] at hc
  cases hc

/-- C7 (amended): the version string is decoded first and compared after the
six members were decoded. For a stream whose leading version string differs
from `SERIALIZATION_VERSION_STRING`: if one of the member reads throws, the
reading pass ends in that decoding error; if the members decode, the outcome
is the manager after `Clear()`, whose `mapObjects`,
`mapErasedGovernanceObjects`, `cmapVoteToObject`, `cmapInvalidVotes`,
`cmmapOrphanVotes` and `mapLastMasternodeObject` are empty. -/
theorem version_mismatch_outcome (c : Codecs Obj Vote MN) (version : String)
    (m : CGovernanceManager Obj Vote MN) (s : Stream) (strVersion : String) (rest : Stream)
    (hread : c.str.read s = some (strVersion, rest)) (hne : strVersion ≠ version) :
    (readMembers c m rest = none → SerializationOpRead c version m s = ReadResult.ioFailure) ∧
    ∀ (m1 : CGovernanceManager Obj Vote MN) (rest1 : Stream),
      readMembers c m rest = some (m1, rest1) →
        SerializationOpRead c version m s = ReadResult.ok (Clear m1) rest1 ∧
        (Clear m1).mapObjects = [] ∧ (Clear m1).mapErasedGovernanceObjects = [] ∧
        (Clear m1).cmapVoteToObject = [] ∧ (Clear m1).cmapInvalidVotes = [] ∧
        (Clear m1).cmmapOrphanVotes = [] ∧ (Clear m1).mapLastMasternodeObject = [] := by
  have h := serializationOpRead_mismatch c version m s strVersion rest hread hne
  constructor
  · intro hnone
    rw [h, hnone]
  · intro m1 rest1 hsome
    rw [h, hsome]
    exact ⟨rfl, rfl, rfl, rfl, rfl, rfl, rfl⟩

theorem version_mismatch_outcome_witness :
    (readMembers Wire.codecs Wire.sampleManager (Wire.sampleStream.drop 3) = none →
      SerializationOpRead Wire.codecs "v2" Wire.sampleManager Wire.sampleStream =
        ReadResult.ioFailure) ∧
    ∀ (m1 : CGovernanceManager Nat Nat Nat) (rest1 : Stream),
      readMembers Wire.codecs Wire.sampleManager (Wire.sampleStream.drop 3) = some (m1, rest1) →
        SerializationOpRead Wire.codecs "v2" Wire.sampleManager Wire.sampleStream =
          ReadResult.ok (Clear m1) rest1 ∧
        (Clear m1).mapObjects = [] ∧ (Clear m1).mapErasedGovernanceObjects = [] ∧
        (Clear m1).cmapVoteToObject = [] ∧ (Clear m1).cmapInvalidVotes = [] ∧
        (Clear m1).cmmapOrphanVotes = [] ∧ (Clear m1).mapLastMasternodeObject = [] :=
  version_mismatch_outcome Wire.codecs "v2" Wire.sampleManager Wire.sampleStream "v1"
    (Wire.sampleStream.drop 3) (by decide) (by decide)

/-- C8: round trip. With codecs that read back what they wrote, the writing
pass of `SerializationOp` emits `SERIALIZATION_VERSION_STRING` as the first
item, and a reading pass with the same version string over what was written
(whatever manager it reads into, whatever follows in the stream) passes the
version check and yields `mapErasedGovernanceObjects`, `cmapInvalidVotes`,
`cmmapOrphanVotes`, `mapObjects` and `mapLastMasternodeObject` equal to the
originals (`lastMNListForVotingKeys` as well). -/
theorem serialization_round_trip (c : Codecs Obj Vote MN) (hc : c.RoundTrips) (version : String)
    (m m0 : CGovernanceManager Obj Vote MN) (rest : Stream) :
    SerializationOpWrite c version m [] = c.str.write version ++ writeMembers c m ∧
    c.str.read (SerializationOpWrite c version m [] ++ rest) =
      some (version, writeMembers c m ++ rest) ∧
    ∃ m1 : CGovernanceManager Obj Vote MN,
      SerializationOpRead c version m0 (SerializationOpWrite c version m [] ++ rest) =
        ReadResult.ok m1 rest ∧
      m1.mapErasedGovernanceObjects = m.mapErasedGovernanceObjects ∧
      m1.cmapInvalidVotes = m.cmapInvalidVotes ∧
      m1.cmmapOrphanVotes = m.cmmapOrphanVotes ∧
      m1.mapObjects = m.mapObjects ∧
      m1.mapLastMasternodeObject = m.mapLastMasternodeObject ∧
      m1.lastMNListForVotingKeys = m.lastMNListForVotingKeys := by
  have hw : SerializationOpWrite c version m [] = c.str.write version ++ writeMembers c m := by
    simp [SerializationOpWrite]
  have hs : c.str.read (SerializationOpWrite c version m [] ++ rest) =
      some (version, writeMembers c m ++ rest) := by
    rw [hw, List.append_assoc, hc.str _ _]
  refine ⟨hw, hs, { m with cmapVoteToObject := m0.cmapVoteToObject }, ?_, rfl, rfl, rfl, rfl,
    rfl, rfl⟩
  simp only [SerializationOpRead, hs, readMembers_writeMembers c hc m m0 rest, ne_eq,
    not_true_eq_false, if_false]

theorem serialization_round_trip_witness :
    SerializationOpWrite Wire.codecs "v2" Wire.sampleManager [] =
      Wire.codecs.str.write "v2" ++ writeMembers Wire.codecs Wire.sampleManager ∧
    Wire.codecs.str.read (SerializationOpWrite Wire.codecs "v2" Wire.sampleManager [] ++ [9]) =
      some ("v2", writeMembers Wire.codecs Wire.sampleManager ++ [9]) ∧
    ∃ m1 : CGovernanceManager Nat Nat Nat,
      SerializationOpRead Wire.codecs "v2" Wire.emptyManager
          (SerializationOpWrite Wire.codecs "v2" Wire.sampleManager [] ++ [9]) =
        ReadResult.ok m1 [9] ∧
      m1.mapErasedGovernanceObjects = Wire.sampleManager.mapErasedGovernanceObjects ∧
      m1.cmapInvalidVotes = Wire.sampleManager.cmapInvalidVotes ∧
      m1.cmmapOrphanVotes = Wire.sampleManager.cmmapOrphanVotes ∧
      m1.mapObjects = Wire.sampleManager.mapObjects ∧
      m1.mapLastMasternodeObject = Wire.sampleManager.mapLastMasternodeObject ∧
      m1.lastMNListForVotingKeys = Wire.sampleManager.lastMNListForVotingKeys :=
  serialization_round_trip Wire.codecs Wire.codecs_roundTrips "v2" Wire.sampleManager
    Wire.emptyManager [9]

end CGovernanceManager

/-! ## Theorems: vote processing, object store, request tracker -/

/-- C20: `ProcessVoteAndRelay(vote)` returns exactly what
`ProcessVote(nullptr, vote, ...)` returns, leaves the manager and the
exception record as `ProcessVote` left them, and calls `vote.Relay(connman)`
once when that result is true and not at all when it is false. -/
theorem processVoteAndRelay_spec {M C Vote Exc : Type} (ctx : VoteContext M C Vote Exc)
    (m : M) (vote : Vote) (exception : Exc) (connman : C) :
    (ProcessVoteAndRelay ctx m vote exception connman).2.2.2 =
      (ctx.ProcessVote m none vote exception connman).2.2.2 ∧
    (ProcessVoteAndRelay ctx m vote exception connman).1 =
      (ctx.ProcessVote m none vote exception connman).1 ∧
    (ProcessVoteAndRelay ctx m vote exception connman).2.1 =
      (ctx.ProcessVote m none vote exception connman).2.1 ∧
    ((ctx.ProcessVote m none vote exception connman).2.2.2 = true →
      (ProcessVoteAndRelay ctx m vote exception connman).2.2.1 =
        ctx.Relay vote (ctx.ProcessVote m none vote exception connman).2.2.1) ∧
    ((ctx.ProcessVote m none vote exception connman).2.2.2 = false →
      (ProcessVoteAndRelay ctx m vote exception connman).2.2.1 =
        (ctx.ProcessVote m none vote exception connman).2.2.1) := by
  unfold ProcessVoteAndRelay
  cases h : (ctx.ProcessVote m none vote exception connman).2.2.2 <;> simp [h]

theorem processVoteAndRelay_spec_witness :
    (ProcessVoteAndRelay sampleVoteContext 0 "yes" "" []).2.2.2 =
      (sampleVoteContext.ProcessVote 0 none "yes" "" []).2.2.2 ∧
    (ProcessVoteAndRelay sampleVoteContext 0 "yes" "" []).1 =
      (sampleVoteContext.ProcessVote 0 none "yes" "" []).1 ∧
    (ProcessVoteAndRelay sampleVoteContext 0 "yes" "" []).2.1 =
      (sampleVoteContext.ProcessVote 0 none "yes" "" []).2.1 ∧
    ((sampleVoteContext.ProcessVote 0 none "yes" "" []).2.2.2 = true →
      (ProcessVoteAndRelay sampleVoteContext 0 "yes" "" []).2.2.1 =
        sampleVoteContext.Relay "yes" (sampleVoteContext.ProcessVote 0 none "yes" "" []).2.2.1) ∧
    ((sampleVoteContext.ProcessVote 0 none "yes" "" []).2.2.2 = false →
      (ProcessVoteAndRelay sampleVoteContext 0 "yes" "" []).2.2.1 =
        (sampleVoteContext.ProcessVote 0 none "yes" "" []).2.2.1) :=
  processVoteAndRelay_spec sampleVoteContext 0 "yes" "" []

namespace GovernanceStore

variable {Obj : Type}

/-- C16: `ConfirmInventoryRequest(h)` returns true if and only if `h` is in
none of the active store, the tombstone set and the in-flight request sets; it
returns false for every `h` present in the active store. -/
theorem confirmInventoryRequest_iff (s : GovernanceStore Obj) (nHash : uint256) :
    (s.ConfirmInventoryRequest nHash = true ↔
      (s.inActiveStore nHash = false ∧ s.inTombstones nHash = false ∧
        s.inFlight nHash = false)) ∧
    (s.inActiveStore nHash = true → s.ConfirmInventoryRequest nHash = false) ∧
    (s.inActiveStore nHash = true ↔ ∃ govobj : Obj, (nHash, govobj) ∈ s.mapObjects) ∧
    (s.inTombstones nHash = true ↔ ∃ t : Int, (nHash, t) ∈ s.mapErasedGovernanceObjects) ∧
    (s.inFlight nHash = true ↔ (nHash ∈ s.setRequestedObjects ∨ nHash ∈ s.setRequestedVotes)) := by
  refine ⟨?_, ?_, ?_, ?_, ?_⟩
  · simp [ConfirmInventoryRequest, and_assoc]
  · intro h
    simp [ConfirmInventoryRequest, h]
  · simp only [inActiveStore, List.any_eq_true, beq_iff_eq]
    constructor
    · rintro ⟨⟨k, v⟩, hmem, hk⟩
      exact ⟨v, by simpa [← hk] using hmem⟩
    · rintro ⟨v, hmem⟩
      exact ⟨(nHash, v), hmem, rfl⟩
  · simp only [inTombstones, List.any_eq_true, beq_iff_eq]
    constructor
    · rintro ⟨⟨k, v⟩, hmem, hk⟩
      exact ⟨v, by simpa [← hk] using hmem⟩
    · rintro ⟨v, hmem⟩
      exact ⟨(nHash, v), hmem, rfl⟩
  · simp [inFlight]

theorem confirmInventoryRequest_iff_witness :
    (sampleStore.ConfirmInventoryRequest 1 = true ↔
      (sampleStore.inActiveStore 1 = false ∧ sampleStore.inTombstones 1 = false ∧
        sampleStore.inFlight 1 = false)) ∧
    (sampleStore.inActiveStore 1 = true → sampleStore.ConfirmInventoryRequest 1 = false) ∧
    (sampleStore.inActiveStore 1 = true ↔ ∃ govobj : String, (1, govobj) ∈ sampleStore.mapObjects) ∧
    (sampleStore.inTombstones 1 = true ↔
      ∃ t : Int, (1, t) ∈ sampleStore.mapErasedGovernanceObjects) ∧
    (sampleStore.inFlight 1 = true ↔
      (1 ∈ sampleStore.setRequestedObjects ∨ 1 ∈ sampleStore.setRequestedVotes)) :=
  confirmInventoryRequest_iff sampleStore 1

theorem inTombstones_purge (s : GovernanceStore Obj) (nHash : uint256) (nNow : Int) :
    (s.purgeExpiredTombstones nNow).inTombstones nHash = true ↔
      ∃ t : Int, (nHash, t) ∈ s.mapErasedGovernanceObjects ∧ nNow < t := by
  simp only [inTombstones, purgeExpiredTombstones, List.any_eq_true, List.mem_filter,
    decide_eq_true_eq, beq_iff_eq]
  constructor
  · rintro ⟨⟨k, v⟩, ⟨hmem, hlt⟩, hk⟩
    simp only at hk hlt
    subst hk
    exact ⟨v, hmem, hlt⟩
  · rintro ⟨t, hmem, hlt⟩
    exact ⟨(nHash, t), ⟨hmem, hlt⟩, rfl⟩

/-- C17: while the tombstone of an identity is in `mapErasedGovernanceObjects`
(in particular with an expiry time not yet reached, where Maintenance keeps
it), adding an object of that identity is rejected as a duplicate, nothing is
relayed and the store is unchanged; once every tombstone of the identity has
expired and Maintenance has purged it, adding the object (not an orphan, not
in the active store or the holding area) is accepted as new: it is relayed and
it is in the active store. -/
theorem tombstone_suppresses_until_purged (s : GovernanceStore Obj) (nHash : uint256)
    (govobj : Obj) (outpoint : COutPoint) (fOrphan : Bool) (orphanCeiling : Nat) (nNow : Int) :
    (s.inTombstones nHash = true →
      s.AddGovernanceObject nHash govobj outpoint fOrphan orphanCeiling =
        (s, false, AddResult.duplicate)) ∧
    ((∃ t : Int, (nHash, t) ∈ s.mapErasedGovernanceObjects ∧ nNow < t) →
      (s.purgeExpiredTombstones nNow).AddGovernanceObject nHash govobj outpoint fOrphan
          orphanCeiling =
        (s.purgeExpiredTombstones nNow, false, AddResult.duplicate)) ∧
    ((∀ t : Int, (nHash, t) ∈ s.mapErasedGovernanceObjects → t ≤ nNow) →
      s.inActiveStore nHash = false → s.inPostponed nHash = false →
      (s.purgeExpiredTombstones nNow).inTombstones nHash = false ∧
      (s.purgeExpiredTombstones nNow).AddGovernanceObject nHash govobj outpoint false
          orphanCeiling =
        ({ s.purgeExpiredTombstones nNow with mapObjects := s.mapObjects ++ [(nHash, govobj)] },
          true, AddResult.accepted)) := by
  refine ⟨?_, ?_, ?_⟩
  · intro h
    simp [AddGovernanceObject, h]
  · intro h
    have h1 := (inTombstones_purge s nHash nNow).mpr h
    simp [AddGovernanceObject, h1]
  · intro hexp hact hpost
    have h1 : (s.purgeExpiredTombstones nNow).inTombstones nHash = false := by
      rw [Bool.eq_false_iff]
      intro hc
      obtain ⟨t, hmem, hlt⟩ := (inTombstones_purge s nHash nNow).mp hc
      have := hexp t hmem
      omega
    have h2 : (s.purgeExpiredTombstones nNow).inActiveStore nHash = false := hact
    have h3 : (s.purgeExpiredTombstones nNow).inPostponed nHash = false := hpost
    refine ⟨h1, ?_⟩
    simp only [AddGovernanceObject, h1, h2, h3, Bool.or_self, Bool.false_eq_true, if_false]
    rfl

theorem tombstone_suppresses_until_purged_witness :
    (sampleStore.inTombstones 2 = true →
      sampleStore.AddGovernanceObject 2 "again" (9, 0) false 10 =
        (sampleStore, false, AddResult.duplicate)) ∧
    ((∃ t : Int, (2, t) ∈ sampleStore.mapErasedGovernanceObjects ∧ 1700003601 < t) →
      (sampleStore.purgeExpiredTombstones 1700003601).AddGovernanceObject 2 "again" (9, 0) false
          10 =
        (sampleStore.purgeExpiredTombstones 1700003601, false, AddResult.duplicate)) ∧
    ((∀ t : Int, (2, t) ∈ sampleStore.mapErasedGovernanceObjects → t ≤ 1700003601) →
      sampleStore.inActiveStore 2 = false → sampleStore.inPostponed 2 = false →
      (sampleStore.purgeExpiredTombstones 1700003601).inTombstones 2 = false ∧
      (sampleStore.purgeExpiredTombstones 1700003601).AddGovernanceObject 2 "again" (9, 0) false
          10 =
        ({ sampleStore.purgeExpiredTombstones 1700003601 with
            mapObjects := sampleStore.mapObjects ++ [(2, "again")] },
          true, AddResult.accepted)) :=
  tombstone_suppresses_until_purged sampleStore 2 "again" (9, 0) false 10 1700003601

end GovernanceStore

namespace CGovernanceManager

/-- C21: `AddOrphanVote(vote)` inserts into `cmmapOrphanVotes`, under the key
`vote.GetHash()`, the pair of the vote and
`GetAdjustedTime() + GOVERNANCE_ORPHAN_EXPIRATION_TIME` (the exact sum as long
as it is an `int64_t`), and leaves every other member of the manager as it
was. -/
theorem addOrphanVote_spec {Obj Vote MN : Type} (ctx : OrphanContext Vote) (nAdjustedTime : Int)
    (m : CGovernanceManager Obj Vote MN) (vote : Vote)
    (hlow : -9223372036854775808 ≤ nAdjustedTime + ctx.GOVERNANCE_ORPHAN_EXPIRATION_TIME)
    (hhigh : nAdjustedTime + ctx.GOVERNANCE_ORPHAN_EXPIRATION_TIME ≤ INT64_MAX) :
    (AddOrphanVote ctx nAdjustedTime m vote).cmmapOrphanVotes =
      ctx.Insert m.cmmapOrphanVotes (ctx.GetHash vote)
        (vote, nAdjustedTime + ctx.GOVERNANCE_ORPHAN_EXPIRATION_TIME) ∧
    (AddOrphanVote ctx nAdjustedTime m vote).mapObjects = m.mapObjects ∧
    (AddOrphanVote ctx nAdjustedTime m vote).mapErasedGovernanceObjects =
      m.mapErasedGovernanceObjects ∧
    (AddOrphanVote ctx nAdjustedTime m vote).cmapVoteToObject = m.cmapVoteToObject ∧
    (AddOrphanVote ctx nAdjustedTime m vote).cmapInvalidVotes = m.cmapInvalidVotes ∧
    (AddOrphanVote ctx nAdjustedTime m vote).mapLastMasternodeObject =
      m.mapLastMasternodeObject ∧
    (AddOrphanVote ctx nAdjustedTime m vote).lastMNListForVotingKeys =
      m.lastMNListForVotingKeys := by
  have hw : wrapInt64 (nAdjustedTime + ctx.GOVERNANCE_ORPHAN_EXPIRATION_TIME) =
      nAdjustedTime + ctx.GOVERNANCE_ORPHAN_EXPIRATION_TIME := by
    simp only [INT64_MAX] at hhigh
    unfold wrapInt64
    omega
  refine ⟨?_, rfl, rfl, rfl, rfl, rfl, rfl⟩
  simp only [AddOrphanVote, hw]

theorem addOrphanVote_spec_witness :
    (AddOrphanVote sampleOrphanContext 1700000000 Wire.sampleManager 41).cmmapOrphanVotes =
      sampleOrphanContext.Insert Wire.sampleManager.cmmapOrphanVotes
        (sampleOrphanContext.GetHash 41)
        (41, 1700000000 + sampleOrphanContext.GOVERNANCE_ORPHAN_EXPIRATION_TIME) ∧
    (AddOrphanVote sampleOrphanContext 1700000000 Wire.sampleManager 41).mapObjects =
      Wire.sampleManager.mapObjects ∧
    (AddOrphanVote sampleOrphanContext 1700000000 Wire.sampleManager 41).mapErasedGovernanceObjects =
      Wire.sampleManager.mapErasedGovernanceObjects ∧
    (AddOrphanVote sampleOrphanContext 1700000000 Wire.sampleManager 41).cmapVoteToObject =
      Wire.sampleManager.cmapVoteToObject ∧
    (AddOrphanVote sampleOrphanContext 1700000000 Wire.sampleManager 41).cmapInvalidVotes =
      Wire.sampleManager.cmapInvalidVotes ∧
    (AddOrphanVote sampleOrphanContext 1700000000 Wire.sampleManager 41).mapLastMasternodeObject =
      Wire.sampleManager.mapLastMasternodeObject ∧
    (AddOrphanVote sampleOrphanContext 1700000000 Wire.sampleManager 41).lastMNListForVotingKeys =
      Wire.sampleManager.lastMNListForVotingKeys :=
  addOrphanVote_spec sampleOrphanContext 1700000000 Wire.sampleManager 41 (by decide) (by decide)

end CGovernanceManager

/-! ## Theorems: ScopedLockBool -/

namespace ScopedLockBool

/-- C9: constructing the guard sets the flag to the guard value and keeps the
previous value; when the scope ends the flag is what it was before, whatever
the body did with the flag and whether the body ended normally or by an
exception (the way the body ended is passed on unchanged); properly nested
guards leave the flag at the value it had before the outermost guard. -/
theorem scope_restores_flag {ε α : Type} (b v : Bool) (body : Block ε α) :
    (construct b v).2 = v ∧ (construct b v).1.fPrevValue = b ∧
    (scope v body b).1 = b ∧ (scope v body b).2 = (body v).2 ∧
    (∀ (x : Bool) (a : α), scope v (fun _ => (x, Exit.normal a)) b = (b, (Exit.normal a : Exit ε α))) ∧
    (∀ (x : Bool) (e : ε), scope v (fun _ => (x, Exit.thrown e)) b = (b, (Exit.thrown e : Exit ε α))) ∧
    ∀ values : List Bool, (nested (v :: values) body b).1 = b := by
  refine ⟨rfl, rfl, rfl, rfl, ?_, ?_, ?_⟩
  · intro x a
    rfl
  · intro x e
    rfl
  · intro values
    rfl

end ScopedLockBool

/-! ## Theorems: wallet dump lines -/

namespace Wallet

set_option maxRecDepth 100000 in
theorem decodeEscape_hexStr : ∀ c : Byte,
    decodeEscape (hexmap (c.val / 16)) (hexmap (c.val % 16)) = c := by
  decide

set_option maxRecDepth 100000 in
theorem hexStr_not_space : ∀ c : Byte,
    hexmap (c.val / 16) ≠ 32 ∧ hexmap (c.val % 16) ≠ 32 := by
  decide

theorem decode_cons_of_ne (c : Byte) (tail : List Byte) (hc : c.val ≠ 37) :
    DecodeDumpString (c :: tail) = c :: DecodeDumpString tail := by
  match tail with
  | [] => rfl
  | [h] => rfl
  | h :: l :: rest => simp [DecodeDumpString, hc]

theorem decode_encode (str : List Byte) : DecodeDumpString (EncodeDumpString str) = str := by
  induction str with
  | nil => rfl
  | cons c rest ih =>
    unfold EncodeDumpString
    split_ifs with hesc
    · have h37 : ((37 : Byte).val = 37) = True := eq_true (by decide)
      simp only [HexStr, List.cons_append, List.nil_append, DecodeDumpString, h37, if_true,
        decodeEscape_hexStr]
      show c :: DecodeDumpString (EncodeDumpString rest) = c :: rest
      rw [ih]
    · have hc : c.val ≠ 37 := fun h => hesc (Or.inr (Or.inr h))
      simp only [List.cons_append, List.nil_append]
      rw [decode_cons_of_ne c _ hc, ih]

theorem encode_no_space (str : List Byte) : ∀ c ∈ EncodeDumpString str, c ≠ 32 := by
  induction str with
  | nil => intro c hc; simp [EncodeDumpString] at hc
  | cons a rest ih =>
    intro c hc
    unfold EncodeDumpString at hc
    rw [List.mem_append] at hc
    rcases hc with hc | hc
    · split_ifs at hc with hesc
      · simp only [HexStr, List.mem_cons, List.mem_singleton, List.not_mem_nil, or_false] at hc
        rcases hc with hc | hc | hc
        · rw [hc]; decide
        · rw [hc]; exact (hexStr_not_space a).1
        · rw [hc]; exact (hexStr_not_space a).2
      · simp only [List.mem_singleton] at hc
        rw [hc]
        intro h32
        apply hesc
        left
        rw [h32]
        decide
    · exact ih c hc

theorem split_append_sep (sep : Byte) (token : List Byte) (hfree : ∀ c ∈ token, c ≠ sep)
    (rest : List Byte) : split sep (token ++ sep :: rest) = token :: split sep rest := by
  induction token with
  | nil => simp [split]
  | cons a token ih =>
    have ha : a ≠ sep := hfree a (List.mem_cons_self _ _)
    have ih1 := ih (fun c hc => hfree c (List.mem_cons_of_mem _ hc))
    simp [split, ha, ih1]

theorem ascii_literals :
    ascii " " = [32] ∧ ascii "#" = [35] ∧
    ascii " # addr=" = [32, 35, 32, 97, 100, 100, 114, 61] ∧
    ascii "label=" = [108, 97, 98, 101, 108, 61] ∧
    ascii "reserve=1" = [114, 101, 115, 101, 114, 118, 101, 61, 49] ∧
    ascii "change=1" = [99, 104, 97, 110, 103, 101, 61, 49] := by
  decide

set_option maxRecDepth 100000 in
theorem dumpTag_no_space (addressBookName : Option (List Byte)) (inKeyPool : Bool) :
    ∀ c ∈ dumpTag addressBookName inKeyPool, c ≠ 32 := by
  obtain ⟨_, _, _, hl, hr, hc⟩ := ascii_literals
  intro c hmem
  cases addressBookName with
  | some name =>
    simp only [dumpTag, hl, List.mem_append] at hmem
    rcases hmem with hmem | hmem
    · revert c; decide
    · exact encode_no_space name c hmem
  | none =>
    cases inKeyPool with
    | true => simp only [dumpTag, hr, if_true] at hmem; revert c; decide
    | false => simp only [dumpTag, hc, Bool.false_eq_true, if_false] at hmem; revert c; decide

set_option maxRecDepth 100000 in
theorem split_dumpKeyLine (secret strTime : List Byte) (addressBookName : Option (List Byte))
    (inKeyPool : Bool) (strAddr hdPart : List Byte)
    (hsecret : ∀ c ∈ secret, c ≠ 32) (htime : ∀ c ∈ strTime, c ≠ 32) :
    split 32 (dumpKeyLine secret strTime addressBookName inKeyPool strAddr hdPart) =
      secret :: strTime :: dumpTag addressBookName inKeyPool :: [35] ::
        split 32 (ascii "addr=" ++ strAddr ++ hdPart) := by
  obtain ⟨hsp, _, haddr, _, _, _⟩ := ascii_literals
  have haddr2 : ascii "addr=" = [97, 100, 100, 114, 61] := by decide
  have hline : dumpKeyLine secret strTime addressBookName inKeyPool strAddr hdPart =
      secret ++ 32 :: (strTime ++ 32 :: (dumpTag addressBookName inKeyPool ++ 32 ::
        ([35] ++ 32 :: (ascii "addr=" ++ strAddr ++ hdPart)))) := by
    simp [dumpKeyLine, hsp, haddr, haddr2]
  rw [hline, split_append_sep 32 secret hsecret, split_append_sep 32 strTime htime,
    split_append_sep 32 _ (dumpTag_no_space addressBookName inKeyPool),
    split_append_sep 32 [35] (by decide)]

theorem labelLoop_cons (token : List Byte) (rest : List (List Byte)) (strLabel : List Byte)
    (fLabel : Bool) :
    labelLoop (token :: rest) (strLabel, fLabel) =
      if starts_with token "#" then (strLabel, fLabel)
      else if starts_with token "label=" then
        labelLoop rest (DecodeDumpString (token.drop 6), true)
      else labelLoop rest (strLabel,
        if token = ascii "reserve=1" then false
        else if token = ascii "change=1" then false else fLabel) := by
  rfl

theorem labelLoop_comment (rest : List (List Byte)) (state : List Byte × Bool) :
    labelLoop ([35] :: rest) state = state := by
  obtain ⟨strLabel, fLabel⟩ := state
  rw [labelLoop_cons]
  rfl

theorem labelLoop_label (name : List Byte) (rest : List (List Byte)) (state : List Byte × Bool) :
    labelLoop ((ascii "label=" ++ EncodeDumpString name) :: [35] :: rest) state =
      (name, true) := by
  obtain ⟨strLabel, fLabel⟩ := state
  have h1 : starts_with (ascii "label=" ++ EncodeDumpString name) "#" = false := rfl
  have h2 : starts_with (ascii "label=" ++ EncodeDumpString name) "label=" = true := by
    simp [starts_with]
  have h3 : (ascii "label=" ++ EncodeDumpString name).drop 6 = EncodeDumpString name := rfl
  rw [labelLoop_cons, h1, h2, h3, decode_encode, labelLoop_comment]
  rfl

theorem labelLoop_reserve (rest : List (List Byte)) (strLabel : List Byte) (fLabel : Bool) :
    labelLoop (ascii "reserve=1" :: [35] :: rest) (strLabel, fLabel) = (strLabel, false) := by
  have h1 : starts_with (ascii "reserve=1") "#" = false := rfl
  have h2 : starts_with (ascii "reserve=1") "label=" = false := rfl
  rw [labelLoop_cons, h1, h2]
  simp [labelLoop_comment]

theorem labelLoop_change (rest : List (List Byte)) (strLabel : List Byte) (fLabel : Bool) :
    labelLoop (ascii "change=1" :: [35] :: rest) (strLabel, fLabel) = (strLabel, false) := by
  have h1 : starts_with (ascii "change=1") "#" = false := rfl
  have h2 : starts_with (ascii "change=1") "label=" = false := rfl
  rw [labelLoop_cons, h1, h2]
  simp [labelLoop_comment]

theorem importLineLabel_dumpKeyLine (importable : List Byte → Bool)
    (secret strTime : List Byte) (addressBookName : Option (List Byte))
    (inKeyPool : Bool) (strAddr hdPart : List Byte)
    (hsecret : ∀ c ∈ secret, c ≠ 32) (htime : ∀ c ∈ strTime, c ≠ 32)
    (hhead : secret ≠ [] ∧ secret.head? ≠ some 35) (himp : importable secret = true) :
    importLineLabel importable
        (dumpKeyLine secret strTime addressBookName inKeyPool strAddr hdPart) =
      some (labelLoop (dumpTag addressBookName inKeyPool :: [35] ::
        split 32 (ascii "addr=" ++ strAddr ++ hdPart)) ([], true)) := by
  have hsplit := split_dumpKeyLine secret strTime addressBookName inKeyPool strAddr hdPart
    hsecret htime
  obtain ⟨a, tail, rfl⟩ : ∃ a tail, secret = a :: tail := by
    cases secret with
    | nil => exact absurd rfl hhead.1
    | cons a tail => exact ⟨a, tail, rfl⟩
  have ha : a ≠ 35 := by
    intro h
    apply hhead.2
    simp [h]
  have hline : ∃ rest, dumpKeyLine (a :: tail) strTime addressBookName inKeyPool strAddr hdPart =
      a :: rest := ⟨_, by simp [dumpKeyLine]; rfl⟩
  obtain ⟨rest, hrest⟩ := hline
  unfold importLineLabel
  rw [hsplit]
  simp [hrest, ha, himp]

/-- C12: `importwallet` reads back the labelling that `dumpwallet` writes. For
a key line of `dumpwallet` whose secret and time are free of spaces (the
secret is not empty, does not start with `'#'` and passes the key checks):
a key with the address-book name `L`, written as `label=EncodeDumpString(L)`,
is parsed with `strLabel = L` and `fLabel = true`; a key written with
`reserve=1` or `change=1` is parsed with `fLabel = false`; whatever stands in
the comment after `#` (address, key path) plays no part. -/
theorem importwallet_recovers_labels (importable : List Byte → Bool)
    (secret strTime : List Byte)
    (hsecret : ∀ c ∈ secret, c ≠ 32) (htime : ∀ c ∈ strTime, c ≠ 32)
    (hhead : secret ≠ [] ∧ secret.head? ≠ some 35) (himp : importable secret = true) :
    (∀ (name : List Byte) (inKeyPool : Bool) (strAddr hdPart : List Byte),
      importLineLabel importable
          (dumpKeyLine secret strTime (some name) inKeyPool strAddr hdPart) =
        some (name, true)) ∧
    (∀ (inKeyPool : Bool) (strAddr hdPart : List Byte),
      importLineLabel importable (dumpKeyLine secret strTime none inKeyPool strAddr hdPart) =
        some ([], false)) ∧
    dumpTag none true = ascii "reserve=1" ∧ dumpTag none false = ascii "change=1" ∧
    ∀ name : List Byte, ∀ inKeyPool : Bool,
      dumpTag (some name) inKeyPool = ascii "label=" ++ EncodeDumpString name := by
  refine ⟨?_, ?_, rfl, rfl, fun _ _ => rfl⟩
  · intro name inKeyPool strAddr hdPart
    rw [importLineLabel_dumpKeyLine importable secret strTime (some name) inKeyPool strAddr hdPart
      hsecret htime hhead himp]
    simp only [dumpTag, labelLoop_label]
  · intro inKeyPool strAddr hdPart
    rw [importLineLabel_dumpKeyLine importable secret strTime none inKeyPool strAddr hdPart
      hsecret htime hhead himp]
    cases inKeyPool with
    | true => simp only [dumpTag, if_true, labelLoop_reserve]
    | false => simp only [dumpTag, Bool.false_eq_true, if_false, labelLoop_change]

set_option maxRecDepth 100000 in
theorem importwallet_recovers_labels_witness :
    (∀ (name : List Byte) (inKeyPool : Bool) (strAddr hdPart : List Byte),
      importLineLabel (fun _ => true)
          (dumpKeyLine (ascii "XK3secret") (ascii "2019-05-01T10:00:00Z") (some name) inKeyPool
            strAddr hdPart) =
        some (name, true)) ∧
    (∀ (inKeyPool : Bool) (strAddr hdPart : List Byte),
      importLineLabel (fun _ => true)
          (dumpKeyLine (ascii "XK3secret") (ascii "2019-05-01T10:00:00Z") none inKeyPool
            strAddr hdPart) =
        some ([], false)) ∧
    dumpTag none true = ascii "reserve=1" ∧ dumpTag none false = ascii "change=1" ∧
    ∀ name : List Byte, ∀ inKeyPool : Bool,
      dumpTag (some name) inKeyPool = ascii "label=" ++ EncodeDumpString name :=
  importwallet_recovers_labels (fun _ => true) (ascii "XK3secret") (ascii "2019-05-01T10:00:00Z")
    (by decide) (by decide) (by decide) rfl

set_option maxRecDepth 100000 in
theorem hexStr_lowerHex : ∀ c : Byte,
    isLowerHex (hexmap (c.val / 16)) = true ∧ isLowerHex (hexmap (c.val % 16)) = true := by
  decide

theorem encode_eq_join (str : List Byte) :
    EncodeDumpString str = (str.map encodePiece).flatten := by
  induction str with
  | nil => rfl
  | cons c rest ih =>
    simp only [EncodeDumpString, List.map_cons, List.flatten_cons, ih, encodePiece]

theorem encodePiece_shape (c : Byte) : IsEncodedPiece (encodePiece c) := by
  unfold encodePiece
  split_ifs with hesc
  · right
    exact ⟨_, _, rfl, (hexStr_lowerHex c).1, (hexStr_lowerHex c).2⟩
  · left
    refine ⟨c, rfl, ?_, ?_, ?_⟩ <;> omega

theorem encodedPiece_range (piece : List Byte) (h : IsEncodedPiece piece) :
    ∀ c ∈ piece, 33 ≤ c.val ∧ c.val ≤ 127 := by
  rcases h with ⟨c, rfl, h1, h2, _⟩ | ⟨hi, lo, rfl, hh, hl⟩
  · intro x hx
    simp only [List.mem_singleton] at hx
    subst hx
    exact ⟨h1, h2⟩
  · intro x hx
    simp only [isLowerHex, Bool.or_eq_true, Bool.and_eq_true, decide_eq_true_eq] at hh hl
    simp only [List.mem_cons, List.mem_singleton, List.not_mem_nil, or_false] at hx
    rcases hx with hx | hx | hx
    · subst hx; decide
    · subst hx; omega
    · subst hx; omega

theorem split_of_no_sep (sep : Byte) (token : List Byte) (hfree : ∀ c ∈ token, c ≠ sep) :
    split sep token = [token] := by
  induction token with
  | nil => rfl
  | cons a token ih =>
    have ha : a ≠ sep := hfree a (List.mem_cons_self _ _)
    have ih1 := ih (fun c hc => hfree c (List.mem_cons_of_mem _ hc))
    simp [split, ha, ih1]

/-- C23: dump-string round trip. For every byte string `s`,
`DecodeDumpString(EncodeDumpString(s)) = s`; among them a string with `'%'`, a
space, a control byte and a byte above 127, and strings with `'%'` in the last
and in the last but one position. -/
theorem decodeDumpString_encodeDumpString (str : List Byte) :
    DecodeDumpString (EncodeDumpString str) = str ∧
    DecodeDumpString (EncodeDumpString [37, 32, 7, 200, 65]) = [37, 32, 7, 200, 65] ∧
    EncodeDumpString [37, 32, 7, 200, 65] = ascii "%25%20%07%c8A" ∧
    DecodeDumpString (EncodeDumpString [65, 66, 37]) = [65, 66, 37] ∧
    DecodeDumpString (EncodeDumpString [65, 37, 66]) = [65, 37, 66] := by
  refine ⟨decode_encode str, decode_encode _, by decide, decode_encode _, decode_encode _⟩

/-- C24: every byte of `EncodeDumpString(s)` lies in the range 33..127; the
output is made of one piece per input byte, each piece a single byte other
than `'%'` or an escape of three bytes, `'%'` and two lowercase hexadecimal
digits, so `'%'` stands only at the head of such an escape; the output, and
with it the token `label=` followed by the output, is a single token when
split on spaces. -/
theorem encodeDumpString_shape (str : List Byte) :
    (∀ c ∈ EncodeDumpString str, 33 ≤ c.val ∧ c.val ≤ 127) ∧
    (∃ pieces : List (List Byte), EncodeDumpString str = pieces.flatten ∧
      pieces.length = str.length ∧ ∀ piece ∈ pieces, IsEncodedPiece piece) ∧
    split 32 (EncodeDumpString str) = [EncodeDumpString str] ∧
    split 32 (ascii "label=" ++ EncodeDumpString str) =
      [ascii "label=" ++ EncodeDumpString str] := by
  have hpieces : ∀ piece ∈ str.map encodePiece, IsEncodedPiece piece := by
    intro piece hp
    obtain ⟨c, _, rfl⟩ := List.mem_map.mp hp
    exact encodePiece_shape c
  refine ⟨?_, ⟨str.map encodePiece, encode_eq_join str, by simp, hpieces⟩, ?_, ?_⟩
  · intro c hc
    rw [encode_eq_join, List.mem_flatten] at hc
    obtain ⟨piece, hp, hcp⟩ := hc
    exact encodedPiece_range piece (hpieces piece hp) c hcp
  · exact split_of_no_sep 32 _ (encode_no_space str)
  · exact split_of_no_sep 32 _ (dumpTag_no_space (some str) false)

end Wallet

/-! ## Theorems: importmulti -/

namespace Wallet

open UniValue

theorem importLoop_shape {W : Type} (ctx : ImportContext W) (fRescan : Bool) :
    ∀ (requests : List UniValue) (st st1 : LoopState W),
      importLoop ctx (importNow ctx) fRescan requests st = Except.ok st1 →
      ∃ results : List UniValue, st1.response = st.response ++ results ∧
        List.Forall₂ (IsResultFor ctx) requests results := by
  intro requests
  induction requests with
  | nil =>
    intro st st1 h
    simp only [importLoop, Except.ok.injEq] at h
    exact ⟨[], by simp [h], List.Forall₂.nil⟩
  | cons data rest ih =>
    intro st st1 h
    unfold importLoop at h
    cases hts : GetImportTimestamp ctx.parseInt64 data (importNow ctx) with
    | error e => simp [hts] at h
    | ok ts =>
      simp only [hts] at h
      have hres : IsResultFor ctx data
          (ctx.processImport st.wallet data (max ts minimumTimestamp)).2 :=
        ⟨st.wallet, ts, hts, rfl⟩
      cases fRescan with
      | false =>
        simp only [Bool.not_false, if_true] at h
        obtain ⟨results, h1, h2⟩ := ih _ _ h
        refine ⟨_ :: results, ?_, List.Forall₂.cons hres h2⟩
        simpa using h1
      | true =>
        simp only [Bool.not_true, Bool.false_eq_true, if_false] at h
        cases hb : ((ctx.processImport st.wallet data (max ts minimumTimestamp)).2.atKey
            "success").get_bool with
        | error e => simp [hb] at h
        | ok success =>
          simp only [hb] at h
          obtain ⟨results, h1, h2⟩ := ih _ _ h
          refine ⟨_ :: results, ?_, List.Forall₂.cons hres h2⟩
          simpa using h1

theorem rewriteLoop_shape {W : Type} (ctx : ImportContext W) (scannedRange : Option CBlockIndex)
    (results : List UniValue) :
    ∀ (requests tail : List UniValue), List.Forall₂ (IsResultFor ctx) requests tail →
      ∀ (i : Nat) (acc out : List UniValue), results.drop i = tail →
        rewriteLoop ctx.parseInt64 ctx.TIMESTAMP_WINDOW (importNow ctx) scannedRange results
          requests i acc = RewriteOutcome.done out →
        ∃ entries : List UniValue, out = acc ++ entries ∧
          List.Forall₂ (IsResponseFor ctx) requests entries := by
  intro requests tail hall
  induction hall with
  | nil =>
    intro i acc out _ h
    simp only [rewriteLoop, RewriteOutcome.done.injEq] at h
    exact ⟨[], by simp [h], List.Forall₂.nil⟩
  | @cons request result requests tail hres _ ih =>
    intro i acc out hdrop h
    have hi : results[i]? = some result := by
      have := congrArg List.head? hdrop
      simpa [List.head?_drop] using this
    have hnext : results.drop (i + 1) = tail := by
      have := congrArg List.tail hdrop
      simpa [List.tail_drop] using this
    unfold rewriteLoop at h
    cases hts : GetImportTimestamp ctx.parseInt64 request (importNow ctx) with
    | error e => simp [hts] at h
    | ok ts =>
      cases scannedRange with
      | none => simp [hts] at h
      | some range =>
        simp only [hts, hi] at h
        split at h
        · obtain ⟨entries, h1, h2⟩ := ih (i + 1) _ out hnext h
          refine ⟨result :: entries, by simpa using h1, List.Forall₂.cons ?_ h2⟩
          exact ⟨result, hres, Or.inl rfl⟩
        · rename_i hcond
          obtain ⟨entries, h1, h2⟩ := ih (i + 1) _ out hnext h
          refine ⟨rescanFailure range.blockTimeMax :: entries, by simpa using h1,
            List.Forall₂.cons ?_ h2⟩
          refine ⟨result, hres, Or.inr ⟨?_, range.blockTimeMax, rfl⟩⟩
          simp only [Bool.or_eq_true, not_or, Bool.not_eq_true] at hcond
          exact hcond.2

theorem importmultiBody_shape {W : Type} (ctx : ImportContext W) (requests : List UniValue)
    (fRescanOption : Bool) (wallet wallet1 : W) (v : UniValue)
    (h : importmultiBody ctx requests fRescanOption wallet = RpcOutcome.returned v wallet1) :
    ∃ response : List UniValue, v = VARR response ∧
      List.Forall₂ (IsResponseFor ctx) requests response := by
  have hweak : ∀ (rs : List UniValue), List.Forall₂ (IsResultFor ctx) requests rs →
      List.Forall₂ (IsResponseFor ctx) requests rs := by
    intro rs hrs
    exact hrs.imp (fun {a b} hr => ⟨b, hr, Or.inl rfl⟩)
  unfold importmultiBody at h
  cases hu : ctx.ensureWalletIsUnlocked with
  | error e => simp [hu] at h
  | ok u =>
    simp only [hu] at h
    have hnow : (match ctx.tip with
        | some tip => tip.medianTimePast
        | none => (0 : Int)) = importNow ctx := rfl
    simp only [hnow] at h
    cases hv : verifyTimestamps ctx.parseInt64 (importNow ctx) requests with
    | error e => simp [hv] at h
    | ok u1 =>
      simp only [hv] at h
      split at h
      · simp at h
      · rename_i st hloop
        obtain ⟨results, hresp, hall⟩ := importLoop_shape ctx _ requests _ st hloop
        simp only [List.nil_append] at hresp
        have hstand : ∀ w : W, RpcOutcome.returned (VARR st.response) w =
            RpcOutcome.returned v wallet1 →
            ∃ response : List UniValue, v = VARR response ∧
              List.Forall₂ (IsResponseFor ctx) requests response := by
          intro w hw
          simp only [RpcOutcome.returned.injEq] at hw
          exact ⟨st.response, hw.1.symm, by rw [hresp]; exact hweak _ hall⟩
        split_ifs at h with hc hinc
        · cases hrw : rewriteLoop ctx.parseInt64 ctx.TIMESTAMP_WINDOW (importNow ctx)
              (runScan ctx st.wallet (rescanStart ctx st.nLowestTimestamp)).2 st.response
              requests 0 [] with
          | done response =>
            simp only [hrw, RpcOutcome.returned.injEq] at h
            obtain ⟨entries, h1, h2⟩ := rewriteLoop_shape ctx _ st.response requests results
              hall 0 [] response (by simpa using hresp) hrw
            exact ⟨response, h.1.symm, by simpa [h1] using h2⟩
          | thrown e => simp [hrw] at h
          | nullDereference => simp [hrw] at h
        · exact hstand _ h
        · exact hstand _ h

/-- C10: whenever `importmulti` returns normally past the wallet check, its
parameter 0 is an array of requests and the value returned is an array with
exactly one entry per request, in request order: entry `i` is what
`ProcessImport` returned for request `i`, or the rescan failure put in its
place after an incomplete rescan. -/
theorem importmulti_response_shape {W : Type} (ctx : ImportContext W)
    (mainRequest : JSONRPCRequest) (wallet wallet1 : W) (v : UniValue)
    (havail : ctx.ensureWalletIsAvailable = Except.ok true)
    (hret : importmulti ctx mainRequest wallet = RpcOutcome.returned v wallet1) :
    ∃ requests response : List UniValue,
      mainRequest.params.head? = some (VARR requests) ∧ v = VARR response ∧
      response.length = requests.length ∧
      List.Forall₂ (IsResponseFor ctx) requests response := by
  have hbody : ∀ (requests : List UniValue) (f : Bool),
      mainRequest.params.head? = some (VARR requests) →
      importmultiBody ctx requests f wallet = RpcOutcome.returned v wallet1 →
      ∃ requests response : List UniValue,
        mainRequest.params.head? = some (VARR requests) ∧ v = VARR response ∧
        response.length = requests.length ∧
        List.Forall₂ (IsResponseFor ctx) requests response := by
    intro requests f hhead hb
    obtain ⟨response, h1, h2⟩ := importmultiBody_shape ctx requests f wallet wallet1 v hb
    exact ⟨requests, response, hhead, h1, h2.length_eq.symm, h2⟩
  unfold importmulti at hret
  simp only [havail] at hret
  split_ifs at hret with hhelp
  split at hret
  · simp at hret
  · rename_i requests hp
    exact hbody requests true (by simp [hp]) hret
  · rename_i requests entries rest hp
    split_ifs at hret with hex
    · cases hg : ((VOBJ entries).atKey "rescan").get_bool with
      | error e => simp [hg] at hret
      | ok f =>
        simp only [hg] at hret
        exact hbody requests f (by simp [hp]) hret
    · exact hbody requests true (by simp [hp]) hret
  · simp at hret
  · simp at hret

theorem importmulti_response_shape_witness :
    ∃ requests response : List UniValue,
      (JSONRPCRequest.mk false [VARR sampleRequests]).params.head? = some (VARR requests) ∧
      VARR sampleResponse = VARR response ∧
      response.length = requests.length ∧
      List.Forall₂ (IsResponseFor sampleContext) requests response :=
  importmulti_response_shape sampleContext (JSONRPCRequest.mk false [VARR sampleRequests]) []
    ["76a914", "a914"] (VARR sampleResponse) rfl rfl

theorem exists_of_atKey (data : UniValue) (key : String) (h : data.atKey key ≠ VNULL) :
    data.exists_ key = true := by
  cases data with
  | VOBJ entries =>
    simp only [atKey, exists_] at h ⊢
    cases hf : findKey entries key with
    | none => simp [hf, NullUniValue] at h
    | some v => rfl
  | VNULL => simp [atKey, NullUniValue] at h
  | VBOOL b => simp [atKey, NullUniValue] at h
  | VNUM val => simp [atKey, NullUniValue] at h
  | VSTR val => simp [atKey, NullUniValue] at h
  | VARR values => simp [atKey, NullUniValue] at h

theorem readImportFields_fields (data : UniValue) (f : ImportFields)
    (h : readImportFields data = Except.ok f) :
    optionalBool data "watchonly" = Except.ok f.watchOnly ∧
    optionalArray data "keys" = Except.ok f.keys := by
  unfold readImportFields at h
  simp only at h
  split at h
  · simp at h
  · cases h1 : optionalString data "redeemscript" with
    | error e => simp [h1] at h
    | ok strRedeemScript =>
      cases h2 : optionalArray data "pubkeys" with
      | error e => simp [h1, h2] at h
      | ok pubKeys =>
        cases h3 : optionalArray data "keys" with
        | error e => simp [h1, h2, h3] at h
        | ok keys =>
          cases h4 : optionalBool data "internal" with
          | error e => simp [h1, h2, h3, h4] at h
          | ok internal =>
            cases h5 : optionalBool data "watchonly" with
            | error e => simp [h1, h2, h3, h4, h5] at h
            | ok watchOnly =>
              simp only [h1, h2, h3, h4, h5] at h
              split at h
              · simp at h
              · split at h
                · simp at h
                · simp only [Except.ok.injEq] at h
                  subst h
                  exact ⟨rfl, rfl⟩

theorem parseImportRequest_watchonly (kc : KeyContext) (data : UniValue) (keys : List UniValue)
    (hw : data.atKey "watchonly" = VBOOL true) (hk : data.atKey "keys" = VARR keys)
    (hne : keys ≠ []) :
    ∃ e : RpcException, parseImportRequest kc data = Except.error e := by
  have hew : data.exists_ "watchonly" = true := exists_of_atKey data _ (by rw [hw]; simp)
  have hek : data.exists_ "keys" = true := exists_of_atKey data _ (by rw [hk]; simp)
  cases hr : readImportFields data with
  | error e => exact ⟨e, by simp [parseImportRequest, hr]⟩
  | ok f =>
    obtain ⟨h1, h2⟩ := readImportFields_fields data f hr
    have hwatch : f.watchOnly = true := by
      simp only [optionalBool, hew, if_true, hw, get_bool, Except.ok.injEq] at h1
      exact h1.symm
    have hkeys : f.keys = VARR keys := by
      simp only [optionalArray, hek, if_true, hk, UniValue.get_array, Except.ok.injEq] at h2
      exact h2.symm
    have hsize : f.keys.size ≠ 0 := by
      rw [hkeys]
      simpa [UniValue.size] using hne
    cases hp : parseOutput kc f with
    | error e => exact ⟨e, by simp [parseImportRequest, hr, hp]⟩
    | ok r =>
      obtain ⟨script, address⟩ := r
      refine ⟨RpcException.object (JSONRPCError RPC_INVALID_PARAMETER
        "Incompatibility found between watchonly and keys"), ?_⟩
      simp [parseImportRequest, hr, hp, checkImportFields, hwatch, hsize]

theorem processImport_of_parse_error {W : Type} (kc : KeyContext) (ops : WalletOps W)
    (wallet : W) (data : UniValue) (timestamp : Int) (e : RpcException)
    (h : parseImportRequest kc data = Except.error e) :
    ∃ err : UniValue, ProcessImport kc ops wallet data timestamp =
      (wallet, VOBJ [("success", VBOOL false), ("error", err)]) := by
  have hrun : (processImportTry kc ops data timestamp).run.run wallet =
      (Except.error (Abrupt.threw e), wallet) := by
    simp only [processImportTry, h, liftJson]
    rfl
  unfold ProcessImport
  rw [hrun]
  cases e with
  | object err => exact ⟨err, rfl⟩
  | runtimeError what => exact ⟨_, rfl⟩
  | outOfRange => exact ⟨_, rfl⟩

/-- The value returned by `ProcessImport` is the object with `success`, the
object with `success: false` and an error, or the JSON value `false`. -/
theorem processImport_result_cases {W : Type} (kc : KeyContext) (ops : WalletOps W)
    (wallet : W) (data : UniValue) (timestamp : Int) :
    (∃ success : Bool, (ProcessImport kc ops wallet data timestamp).2 =
      VOBJ [("success", VBOOL success)]) ∨
    (∃ err : UniValue, (ProcessImport kc ops wallet data timestamp).2 =
      VOBJ [("success", VBOOL false), ("error", err)]) ∨
    (ProcessImport kc ops wallet data timestamp).2 = VBOOL false := by
  unfold ProcessImport
  split
  · exact Or.inl ⟨_, rfl⟩
  · exact Or.inr (Or.inr rfl)
  · exact Or.inr (Or.inl ⟨_, rfl⟩)
  · exact Or.inr (Or.inl ⟨_, rfl⟩)

/-- C11 (evaluation at the failing input): the wallet holds the key `"Xk1"`
and the request asks to import that private key for its address. The branch
for a private key is left by `return false;`, so `ProcessImport` returns the
JSON value `false`, which is not an object and has no field `success`;
`importmulti` then fails on `result["success"].get_bool()` with a runtime
error after the wallet was touched. -/
theorem processImport_returns_false :
    ProcessImport plainKeys keyStoreOps walletWithKey knownKeyRequest 1 =
      ({ walletWithKey with addressBook := [(textBytes "Xk1", "")] }, VBOOL false) ∧
    (VBOOL false).exists_ "success" = false ∧
    (VBOOL false).atKey "success" = VNULL ∧
    importmulti keyStoreContext (JSONRPCRequest.mk false [VARR [knownKeyRequest]])
        walletWithKey =
      RpcOutcome.thrown (RpcException.runtimeError "JSON value is not a boolean as expected")
        { walletWithKey with addressBook := [(textBytes "Xk1", "")] } := by
  refine ⟨by rfl, by rfl, by rfl, by rfl⟩

/-- C15: for a request with `watchonly` set to `true` and a non-empty array
`keys`, `ProcessImport` returns an object with `success: false` and an error,
and the wallet is the one it was given: nothing is imported. -/
theorem watchonly_with_keys_rejected {W : Type} (kc : KeyContext) (ops : WalletOps W)
    (wallet : W) (data : UniValue) (timestamp : Int) (keys : List UniValue)
    (hw : data.atKey "watchonly" = VBOOL true) (hk : data.atKey "keys" = VARR keys)
    (hne : keys ≠ []) :
    ∃ err : UniValue, ProcessImport kc ops wallet data timestamp =
      (wallet, VOBJ [("success", VBOOL false), ("error", err)]) := by
  obtain ⟨e, he⟩ := parseImportRequest_watchonly kc data keys hw hk hne
  exact processImport_of_parse_error kc ops wallet data timestamp e he

theorem watchonly_with_keys_rejected_witness :
    ∃ err : UniValue, ProcessImport plainKeys keyStoreOps walletWithKey
        (VOBJ [("scriptPubKey", VOBJ [("address", VSTR "Xk2")]), ("timestamp", VNUM "0"),
               ("keys", VARR [VSTR "Xk2"]), ("watchonly", VBOOL true)]) 1 =
      (walletWithKey, VOBJ [("success", VBOOL false), ("error", err)]) :=
  watchonly_with_keys_rejected plainKeys keyStoreOps walletWithKey
    (VOBJ [("scriptPubKey", VOBJ [("address", VSTR "Xk2")]), ("timestamp", VNUM "0"),
           ("keys", VARR [VSTR "Xk2"]), ("watchonly", VBOOL true)]) 1 [VSTR "Xk2"]
    rfl rfl (by simp)

/-- C13 (counterexample): the request `{"timestamp": 1.5}` has a numeric
`timestamp`, yet `GetImportTimestamp` neither returns a value nor raises the
type error: `get_int64()` throws the runtime error `JSON integer out of range`,
because the text of the number is not an `int64_t`. -/
theorem getImportTimestamp_fraction_throws :
    (VOBJ [("timestamp", VNUM "1.5")]).exists_ "timestamp" = true ∧
    ((VOBJ [("timestamp", VNUM "1.5")]).atKey "timestamp").isNum = true ∧
    decimalInt64 "1.5" = none ∧
    GetImportTimestamp decimalInt64 (VOBJ [("timestamp", VNUM "1.5")]) 7 =
      Except.error (RpcException.runtimeError "JSON integer out of range") ∧
    (∀ n : Int,
      GetImportTimestamp decimalInt64 (VOBJ [("timestamp", VNUM "1.5")]) 7 ≠ Except.ok n) ∧
    (∀ e : UniValue,
      GetImportTimestamp decimalInt64 (VOBJ [("timestamp", VNUM "1.5")]) 7 ≠
        Except.error (RpcException.object e)) := by
  have h : GetImportTimestamp decimalInt64 (VOBJ [("timestamp", VNUM "1.5")]) 7 =
      Except.error (RpcException.runtimeError "JSON integer out of range") := by rfl
  refine ⟨by rfl, by rfl, by decide, h, ?_, ?_⟩
  · intro n hn
    rw [h] at hn
    cases hn
  · intro e he
    rw [h] at he
    cases he

/-- C13 (amended): `GetImportTimestamp(data, now)` returns the value of a
numeric `timestamp` whose text `get_int64()` reads as an `int64_t`, throws the
runtime error `JSON integer out of range` for a numeric `timestamp` that is
not an `int64_t`, returns `now` for the string `"now"`, and throws the error
object with the code `RPC_TYPE_ERROR` when the field is absent, is any other
string, or is of any other JSON type. -/
theorem getImportTimestamp_cases (parseInt64 : String → Option Int) (data : UniValue)
    (now : Int) :
    (∀ (val : String) (n : Int), data.atKey "timestamp" = VNUM val → parseInt64 val = some n →
      GetImportTimestamp parseInt64 data now = Except.ok n) ∧
    (∀ val : String, data.atKey "timestamp" = VNUM val → parseInt64 val = none →
      GetImportTimestamp parseInt64 data now =
        Except.error (RpcException.runtimeError "JSON integer out of range")) ∧
    (data.atKey "timestamp" = VSTR "now" →
      GetImportTimestamp parseInt64 data now = Except.ok now) ∧
    (data.exists_ "timestamp" = false →
      GetImportTimestamp parseInt64 data now = Except.error (RpcException.object
        (JSONRPCError RPC_TYPE_ERROR "Missing required timestamp field for key"))) ∧
    (∀ text : String, data.atKey "timestamp" = VSTR text → text ≠ "now" →
      GetImportTimestamp parseInt64 data now = Except.error (RpcException.object
        (JSONRPCError RPC_TYPE_ERROR
          "Expected number or \"now\" timestamp value for key. got type string"))) ∧
    (data.exists_ "timestamp" = true → (data.atKey "timestamp").isNum = false →
      (data.atKey "timestamp").isStr = false →
      GetImportTimestamp parseInt64 data now = Except.error (RpcException.object
        (JSONRPCError RPC_TYPE_ERROR
          ("Expected number or \"now\" timestamp value for key. got type " ++
            typeName (data.atKey "timestamp"))))) := by
  refine ⟨?_, ?_, ?_, ?_, ?_, ?_⟩
  · intro val n hv hp
    have he : data.exists_ "timestamp" = true := exists_of_atKey data _ (by rw [hv]; simp)
    simp [GetImportTimestamp, he, hv, isNum, get_int64, hp]
  · intro val hv hp
    have he : data.exists_ "timestamp" = true := exists_of_atKey data _ (by rw [hv]; simp)
    simp [GetImportTimestamp, he, hv, isNum, get_int64, hp]
  · intro hv
    have he : data.exists_ "timestamp" = true := exists_of_atKey data _ (by rw [hv]; simp)
    simp [GetImportTimestamp, he, hv, isNum, isStr]
  · intro he
    simp [GetImportTimestamp, he]
  · intro text hv hne
    have he : data.exists_ "timestamp" = true := exists_of_atKey data _ (by rw [hv]; simp)
    simp [GetImportTimestamp, he, hv, isNum, isStr, hne, typeName]
  · intro he hnum hstr
    simp [GetImportTimestamp, he, hnum, hstr]

theorem getImportTimestamp_cases_witness :
    GetImportTimestamp decimalInt64 (VOBJ [("timestamp", VNUM "1455191478")]) 7 =
      Except.ok 1455191478 ∧
    GetImportTimestamp decimalInt64 (VOBJ [("timestamp", VNUM "9223372036854775808")]) 7 =
      Except.error (RpcException.runtimeError "JSON integer out of range") ∧
    GetImportTimestamp decimalInt64 (VOBJ [("timestamp", VSTR "now")]) 7 = Except.ok 7 ∧
    GetImportTimestamp decimalInt64 (VOBJ [("label", VSTR "savings")]) 7 =
      Except.error (RpcException.object
        (JSONRPCError RPC_TYPE_ERROR "Missing required timestamp field for key")) ∧
    GetImportTimestamp decimalInt64 (VOBJ [("timestamp", VSTR "yesterday")]) 7 =
      Except.error (RpcException.object
        (JSONRPCError RPC_TYPE_ERROR
          "Expected number or \"now\" timestamp value for key. got type string")) ∧
    GetImportTimestamp decimalInt64 (VOBJ [("timestamp", VBOOL true)]) 7 =
      Except.error (RpcException.object
        (JSONRPCError RPC_TYPE_ERROR
          ("Expected number or \"now\" timestamp value for key. got type " ++
            typeName ((VOBJ [("timestamp", VBOOL true)]).atKey "timestamp")))) :=
  ⟨(getImportTimestamp_cases decimalInt64 (VOBJ [("timestamp", VNUM "1455191478")]) 7).1
      "1455191478" 1455191478 rfl (by decide),
   (getImportTimestamp_cases decimalInt64
      (VOBJ [("timestamp", VNUM "9223372036854775808")]) 7).2.1
      "9223372036854775808" rfl (by decide),
   (getImportTimestamp_cases decimalInt64 (VOBJ [("timestamp", VSTR "now")]) 7).2.2.1 rfl,
   (getImportTimestamp_cases decimalInt64 (VOBJ [("label", VSTR "savings")]) 7).2.2.2.1 rfl,
   (getImportTimestamp_cases decimalInt64 (VOBJ [("timestamp", VSTR "yesterday")]) 7).2.2.2.2.1
      "yesterday" rfl (by decide),
   (getImportTimestamp_cases decimalInt64 (VOBJ [("timestamp", VBOOL true)]) 7).2.2.2.2.2
      rfl rfl rfl⟩

theorem verifyTimestamps_error (parseInt64 : String → Option Int) (now : Int) :
    ∀ requests : List UniValue,
      (∃ data ∈ requests, ∃ e, GetImportTimestamp parseInt64 data now = Except.error e) →
      ∃ e, verifyTimestamps parseInt64 now requests = Except.error e := by
  intro requests
  induction requests with
  | nil => rintro ⟨data, hmem, _⟩; simp at hmem
  | cons first rest ih =>
    rintro ⟨data, hmem, e, he⟩
    unfold verifyTimestamps
    cases hf : GetImportTimestamp parseInt64 first now with
    | error e1 => exact ⟨e1, rfl⟩
    | ok ts =>
      simp only
      apply ih
      rcases List.mem_cons.mp hmem with h | h
      · subst h
        rw [hf] at he
        cases he
      · exact ⟨data, h, e, he⟩

theorem importmultiBody_bad_timestamp {W : Type} (ctx : ImportContext W)
    (requests : List UniValue) (fRescanOption : Bool) (wallet : W)
    (hbad : ∃ data ∈ requests, ∃ e,
      GetImportTimestamp ctx.parseInt64 data (importNow ctx) = Except.error e) :
    ∃ e, ∀ processImport : W → UniValue → Int → W × UniValue,
      importmultiBody { ctx with processImport := processImport } requests fRescanOption wallet =
        RpcOutcome.thrown e wallet := by
  obtain ⟨e, he⟩ := verifyTimestamps_error ctx.parseInt64 (importNow ctx) requests hbad
  cases hu : ctx.ensureWalletIsUnlocked with
  | error e1 =>
    refine ⟨e1, fun processImport => ?_⟩
    simp only [importmultiBody, hu]
  | ok u =>
    refine ⟨e, fun processImport => ?_⟩
    have hnow : (match ctx.tip with
        | some tip => tip.medianTimePast
        | none => (0 : Int)) = importNow ctx := rfl
    simp only [importmultiBody, hu, hnow, he]

/-- C14: when a request of the array has a missing or ill-typed timestamp,
`importmulti` (called with a wallet, a request array and at most an options
object) throws, and it does so before `ProcessImport` is called for any
request: the wallet is the one it was given and the outcome is the same
whatever `ProcessImport` would do, also when earlier requests of the array
are valid. -/
theorem importmulti_checks_timestamps_first {W : Type} (ctx : ImportContext W)
    (mainRequest : JSONRPCRequest) (wallet : W) (requests : List UniValue)
    (havail : ctx.ensureWalletIsAvailable = Except.ok true)
    (hparams : mainRequest.params = [VARR requests] ∨
      ∃ entries, mainRequest.params = [VARR requests, VOBJ entries])
    (hbad : ∃ data ∈ requests, ∃ e,
      GetImportTimestamp ctx.parseInt64 data (importNow ctx) = Except.error e) :
    ∃ e, importmulti ctx mainRequest wallet = RpcOutcome.thrown e wallet ∧
      ∀ processImport : W → UniValue → Int → W × UniValue,
        importmulti { ctx with processImport := processImport } mainRequest wallet =
          RpcOutcome.thrown e wallet := by
  have hself : ({ ctx with processImport := ctx.processImport } : ImportContext W) = ctx := rfl
  have key : ∃ e, ∀ processImport : W → UniValue → Int → W × UniValue,
      importmulti { ctx with processImport := processImport } mainRequest wallet =
        RpcOutcome.thrown e wallet := by
    by_cases hhelp : mainRequest.fHelp = true
    · refine ⟨RpcException.runtimeError "importmulti \"requests\" \"options\"", fun p => ?_⟩
      simp [importmulti, havail, hhelp]
    · rcases hparams with hp | ⟨entries, hp⟩
      · obtain ⟨e, he⟩ := importmultiBody_bad_timestamp ctx requests true wallet hbad
        refine ⟨e, fun p => ?_⟩
        simp only [importmulti, havail, hp, hhelp]
        simpa [havail] using he p
      · by_cases hex : (VOBJ entries).exists_ "rescan" = true
        · cases hg : ((VOBJ entries).atKey "rescan").get_bool with
          | error e1 =>
            refine ⟨e1, fun p => ?_⟩
            simp [importmulti, havail, hp, hhelp, hex, hg]
          | ok fRescan =>
            obtain ⟨e, he⟩ := importmultiBody_bad_timestamp ctx requests fRescan wallet hbad
            refine ⟨e, fun p => ?_⟩
            simp only [importmulti, havail, hp, hhelp]
            simpa [hex, hg, havail] using he p
        · obtain ⟨e, he⟩ := importmultiBody_bad_timestamp ctx requests true wallet hbad
          refine ⟨e, fun p => ?_⟩
          simp only [importmulti, havail, hp, hhelp]
          simpa [hex, havail] using he p
  obtain ⟨e, he⟩ := key
  refine ⟨e, ?_, he⟩
  have := he ctx.processImport
  rwa [hself] at this

theorem importmulti_checks_timestamps_first_witness :
    ∃ e, importmulti sampleContext
        (JSONRPCRequest.mk false
          [VARR [VOBJ [("scriptPubKey", VSTR "76a914"), ("timestamp", VNUM "0")],
                 VOBJ [("scriptPubKey", VSTR "a914")]]]) [] =
        RpcOutcome.thrown e [] ∧
      ∀ processImport : SampleWallet → UniValue → Int → SampleWallet × UniValue,
        importmulti { sampleContext with processImport := processImport }
          (JSONRPCRequest.mk false
            [VARR [VOBJ [("scriptPubKey", VSTR "76a914"), ("timestamp", VNUM "0")],
                   VOBJ [("scriptPubKey", VSTR "a914")]]]) [] =
          RpcOutcome.thrown e [] :=
  importmulti_checks_timestamps_first sampleContext
    (JSONRPCRequest.mk false
      [VARR [VOBJ [("scriptPubKey", VSTR "76a914"), ("timestamp", VNUM "0")],
             VOBJ [("scriptPubKey", VSTR "a914")]]]) []
    [VOBJ [("scriptPubKey", VSTR "76a914"), ("timestamp", VNUM "0")],
     VOBJ [("scriptPubKey", VSTR "a914")]]
    rfl (Or.inl rfl)
    ⟨VOBJ [("scriptPubKey", VSTR "a914")], by simp, _, rfl⟩

theorem lowestTimestamp_le (timestamps : List Int) : ∀ tipBlockTime : Int,
    lowestTimestamp tipBlockTime timestamps ≤ tipBlockTime ∧
    ∀ ts ∈ timestamps, lowestTimestamp tipBlockTime timestamps ≤ max ts 1 := by
  induction timestamps with
  | nil => intro t; simp [lowestTimestamp]
  | cons a rest ih =>
    intro t
    obtain ⟨h1, h2⟩ := ih (min t (max a 1))
    have hstep : lowestTimestamp t (a :: rest) = lowestTimestamp (min t (max a 1)) rest := rfl
    rw [hstep]
    refine ⟨le_trans h1 (min_le_left _ _), ?_⟩
    intro ts hts
    rcases List.mem_cons.mp hts with h | h
    · subst h
      exact le_trans h1 (min_le_right _ _)
    · exact h2 ts h

theorem lowestTimestamp_snoc_step (lowest timestamp : Int) :
    (if max timestamp minimumTimestamp < lowest then max timestamp minimumTimestamp
      else lowest) = min lowest (max timestamp 1) := by
  simp only [minimumTimestamp]
  rcases le_total lowest (max timestamp 1) with h | h
  · rw [min_eq_left h, if_neg (not_lt.mpr h)]
  · rw [min_eq_right h]
    split_ifs with hlt
    · rfl
    · exact le_antisymm (not_lt.mp hlt) h

theorem importLoop_lowest {W : Type} (ctx : ImportContext W) :
    ∀ (requests : List UniValue) (st st1 : LoopState W),
      importLoop ctx (importNow ctx) true requests st = Except.ok st1 →
      ∃ timestamps : List Int,
        List.Forall₂ (fun request ts =>
          GetImportTimestamp ctx.parseInt64 request (importNow ctx) = Except.ok ts)
          requests timestamps ∧
        st1.nLowestTimestamp = lowestTimestamp st.nLowestTimestamp timestamps := by
  intro requests
  induction requests with
  | nil =>
    intro st st1 h
    simp only [importLoop, Except.ok.injEq] at h
    exact ⟨[], List.Forall₂.nil, by rw [← h]; rfl⟩
  | cons data rest ih =>
    intro st st1 h
    unfold importLoop at h
    cases hts : GetImportTimestamp ctx.parseInt64 data (importNow ctx) with
    | error e => simp [hts] at h
    | ok ts =>
      simp only [hts, Bool.not_true, Bool.false_eq_true, if_false] at h
      cases hb : ((ctx.processImport st.wallet data (max ts minimumTimestamp)).2.atKey
          "success").get_bool with
      | error e => simp [hb] at h
      | ok success =>
        simp only [hb] at h
        obtain ⟨timestamps, h1, h2⟩ := ih _ _ h
        refine ⟨ts :: timestamps, List.Forall₂.cons hts h1, ?_⟩
        rw [h2]
        simp only [lowestTimestamp_snoc_step]
        rfl

theorem verifyTimestamps_ok (parseInt64 : String → Option Int) (now : Int) :
    ∀ (requests : List UniValue) (timestamps : List Int),
      List.Forall₂ (fun request ts => GetImportTimestamp parseInt64 request now = Except.ok ts)
        requests timestamps →
      verifyTimestamps parseInt64 now requests = Except.ok () := by
  intro requests timestamps h
  induction h with
  | nil => rfl
  | cons hts _ ih => simp only [verifyTimestamps, hts, ih]

theorem rescanStart_eq {W : Type} (ctx : ImportContext W) (lowest : Int)
    (hlowest : lowest ≤ INT64_MAX)
    (hwindow : 0 ≤ ctx.TIMESTAMP_WINDOW ∧ ctx.TIMESTAMP_WINDOW ≤ INT64_MAX) :
    rescanStart ctx lowest =
      if lowest ≤ 1 then ctx.genesis
      else ctx.findEarliestAtLeast (max (lowest - ctx.TIMESTAMP_WINDOW) 0) := by
  unfold rescanStart
  simp only [minimumTimestamp]
  by_cases h : lowest ≤ 1
  · rw [if_neg (by omega), if_pos h]
  · rw [if_pos (by omega), if_neg h]
    have hw : wrapInt64 (lowest - ctx.TIMESTAMP_WINDOW) = lowest - ctx.TIMESTAMP_WINDOW := by
      obtain ⟨h0, h1⟩ := hwindow
      simp only [INT64_MAX] at hlowest h1
      unfold wrapInt64
      omega
    rw [hw]

theorem rescanStart_skips {W : Type} (ctx : ImportContext W) (lowest : Int)
    (chain : List CBlockIndex) (hlowest : lowest ≤ INT64_MAX)
    (hwindow : 0 ≤ ctx.TIMESTAMP_WINDOW ∧ ctx.TIMESTAMP_WINDOW ≤ INT64_MAX)
    (hchain : FollowsChain ctx chain) (hnonneg : ∀ block ∈ chain, 0 ≤ block.blockTimeMax) :
    ∃ skipped : List CBlockIndex, ScanSkips chain (rescanStart ctx lowest) skipped ∧
      ∀ block ∈ skipped, block.blockTimeMax < lowest - ctx.TIMESTAMP_WINDOW := by
  rw [rescanStart_eq ctx lowest hlowest hwindow]
  obtain ⟨hfind, hgen⟩ := hchain
  by_cases h : lowest ≤ 1
  · rw [if_pos h, hgen]
    cases chain with
    | nil => exact ⟨[], rfl, by simp⟩
    | cons first rest => exact ⟨[], ⟨rest, rfl⟩, by simp⟩
  · rw [if_neg h, hfind]
    have hold : ∀ block ∈ chain,
        ¬ (max (lowest - ctx.TIMESTAMP_WINDOW) 0 ≤ block.blockTimeMax) →
        block.blockTimeMax < lowest - ctx.TIMESTAMP_WINDOW := by
      intro block hmem hnot
      have h0 := hnonneg block hmem
      have hlt := not_le.mp hnot
      rcases le_total (lowest - ctx.TIMESTAMP_WINDOW) 0 with hle | hle
      · rw [max_eq_right hle] at hlt
        omega
      · rw [max_eq_left hle] at hlt
        exact hlt
    cases hf : chain.find?
        (fun block => decide (max (lowest - ctx.TIMESTAMP_WINDOW) 0 ≤ block.blockTimeMax)) with
    | none =>
      rw [List.find?_eq_none] at hf
      refine ⟨chain, rfl, ?_⟩
      intro block hmem
      exact hold block hmem (fun hc => hf block hmem (decide_eq_true hc))
    | some pindex =>
      rw [List.find?_eq_some] at hf
      obtain ⟨_, before, after, hsplit, hbefore⟩ := hf
      refine ⟨before, ⟨after, hsplit⟩, ?_⟩
      intro block hmem
      have hin : block ∈ chain := by
        rw [hsplit]
        exact List.mem_append_left _ hmem
      refine hold block hin (fun hc => ?_)
      have hb := hbefore block hmem
      rw [decide_eq_true hc] at hb
      cases hb

theorem importmultiBody_scan_wallet {W : Type} (ctx : ImportContext W)
    (requests : List UniValue) (wallet : W) (tip : CBlockIndex) (st : LoopState W)
    (timestamps : List Int)
    (htip : ctx.tip = some tip) (hunlocked : ctx.ensureWalletIsUnlocked = Except.ok ())
    (hts : List.Forall₂ (fun request ts =>
      GetImportTimestamp ctx.parseInt64 request (importNow ctx) = Except.ok ts)
      requests timestamps)
    (hloop : importLoop ctx (importNow ctx) true requests
      { wallet := wallet, response := [], fRunScan := false,
        nLowestTimestamp := tip.blockTime } = Except.ok st)
    (hrun : st.fRunScan = true) (hne : requests ≠ []) :
    (importmultiBody ctx requests true wallet).wallet =
      (runScan ctx st.wallet (rescanStart ctx st.nLowestTimestamp)).1 := by
  have hv := verifyTimestamps_ok ctx.parseInt64 (importNow ctx) requests timestamps hts
  have hlen : requests.length ≠ 0 := by
    intro hc
    exact hne (List.length_eq_zero.mp hc)
  have hnow1 : importNow ctx = tip.medianTimePast := by
    simp [importNow, htip]
  rw [hnow1] at hv hloop
  unfold importmultiBody
  simp only [hunlocked, hv, htip, Option.isSome_some, Bool.and_self, if_true, hloop, hrun,
    hlen, ne_eq, not_false_eq_true, decide_True]
  split_ifs
  · cases rewriteLoop ctx.parseInt64 ctx.TIMESTAMP_WINDOW tip.medianTimePast
        (runScan ctx st.wallet (rescanStart ctx st.nLowestTimestamp)).2 st.response requests 0 []
      <;> rfl
  · rfl

theorem runScan_wallet {W : Type} (ctx : ImportContext W) (wallet : W)
    (pindex : Option CBlockIndex) :
    (runScan ctx wallet pindex).1 =
      (match pindex with
       | some p => ctx.reacceptWalletTransactions (ctx.scanForWalletTransactions wallet p).1
       | none => wallet) := by
  cases pindex <;> rfl

/-- C22: when `importmulti` performs a rescan (a tip exists, the option
`rescan` is on, the import loop ran through with at least one success, the
array is not empty), the wallet it leaves behind is the wallet after the loop
of imports, passed to `ScanForWalletTransactions` with the start block
`pindex` and then to `ReacceptWalletTransactions`. Here `pindex` is the
genesis block if `L ≤ 1` and `FindEarliestAtLeast(max(L - TIMESTAMP_WINDOW, 0))`
otherwise, and `L` is the minimum of the block time of the tip and of
`max(timestamp_i, 1)` over all requests; without such a block nothing is
scanned. A request with a timestamp of at most 1, such as 0, makes the scan
start at the genesis block; and on a chain that `FindEarliestAtLeast` and
`Genesis` follow, every block left out before the start has a time more than
`TIMESTAMP_WINDOW` before each key creation time. -/
theorem rescan_starts_at_lowest {W : Type} (ctx : ImportContext W)
    (requests : List UniValue) (wallet : W) (tip : CBlockIndex) (st : LoopState W)
    (htip : ctx.tip = some tip) (hunlocked : ctx.ensureWalletIsUnlocked = Except.ok ())
    (hloop : importLoop ctx (importNow ctx) true requests
      { wallet := wallet, response := [], fRunScan := false,
        nLowestTimestamp := tip.blockTime } = Except.ok st)
    (hrun : st.fRunScan = true) (hne : requests ≠ [])
    (hwindow : 0 ≤ ctx.TIMESTAMP_WINDOW ∧ ctx.TIMESTAMP_WINDOW ≤ INT64_MAX)
    (htime : tip.blockTime ≤ INT64_MAX) :
    ∃ (timestamps : List Int) (L : Int) (pindex : Option CBlockIndex),
      List.Forall₂ (fun request ts =>
        GetImportTimestamp ctx.parseInt64 request (importNow ctx) = Except.ok ts)
        requests timestamps ∧
      L = lowestTimestamp tip.blockTime timestamps ∧
      pindex = (if L ≤ 1 then ctx.genesis
        else ctx.findEarliestAtLeast (max (L - ctx.TIMESTAMP_WINDOW) 0)) ∧
      st.nLowestTimestamp = L ∧
      rescanStart ctx st.nLowestTimestamp = pindex ∧
      (importmultiBody ctx requests true wallet).wallet =
        (match pindex with
         | some p => ctx.reacceptWalletTransactions (ctx.scanForWalletTransactions st.wallet p).1
         | none => st.wallet) ∧
      ((∃ ts ∈ timestamps, ts ≤ 1) → pindex = ctx.genesis) ∧
      ∀ chain : List CBlockIndex, FollowsChain ctx chain →
        (∀ block ∈ chain, 0 ≤ block.blockTimeMax) →
        ∃ skipped : List CBlockIndex,
          ScanSkips chain pindex skipped ∧
          ∀ block ∈ skipped, ∀ ts ∈ timestamps,
            block.blockTimeMax < max ts 1 - ctx.TIMESTAMP_WINDOW := by
  obtain ⟨timestamps, hts, hlow⟩ := importLoop_lowest ctx requests _ st hloop
  simp only at hlow
  obtain ⟨hle, hall⟩ := lowestTimestamp_le timestamps tip.blockTime
  have hmax : lowestTimestamp tip.blockTime timestamps ≤ INT64_MAX := le_trans hle htime
  have hstart := rescanStart_eq ctx (lowestTimestamp tip.blockTime timestamps) hmax hwindow
  refine ⟨timestamps, lowestTimestamp tip.blockTime timestamps, _, hts, rfl, rfl, hlow, ?_,
    ?_, ?_, ?_⟩
  · rw [hlow]
    exact hstart
  · rw [← hstart, ← hlow, ← runScan_wallet]
    exact importmultiBody_scan_wallet ctx requests wallet tip st timestamps htip hunlocked hts
      hloop hrun hne
  · rintro ⟨ts, hmem, hts1⟩
    have h1 := hall ts hmem
    have h2 : max ts 1 = 1 := max_eq_right hts1
    rw [if_pos (by omega)]
  · intro chain hchain hnonneg
    obtain ⟨skipped, hskip, hbefore⟩ := rescanStart_skips ctx
      (lowestTimestamp tip.blockTime timestamps) chain hmax hwindow hchain hnonneg
    rw [hstart] at hskip
    refine ⟨skipped, hskip, ?_⟩
    intro block hmem ts htsmem
    have h1 := hbefore block hmem
    have h2 := hall ts htsmem
    omega

theorem rescan_starts_at_lowest_witness :
    ∃ (timestamps : List Int) (L : Int) (pindex : Option CBlockIndex),
      List.Forall₂ (fun request ts =>
        GetImportTimestamp chainContext.parseInt64 request (importNow chainContext) =
          Except.ok ts)
        chainRequests timestamps ∧
      L = lowestTimestamp sampleTip.blockTime timestamps ∧
      pindex = (if L ≤ 1 then chainContext.genesis
        else chainContext.findEarliestAtLeast (max (L - chainContext.TIMESTAMP_WINDOW) 0)) ∧
      chainLoopState.nLowestTimestamp = L ∧
      rescanStart chainContext chainLoopState.nLowestTimestamp = pindex ∧
      (importmultiBody chainContext chainRequests true []).wallet =
        (match pindex with
         | some p => chainContext.reacceptWalletTransactions
            (chainContext.scanForWalletTransactions chainLoopState.wallet p).1
         | none => chainLoopState.wallet) ∧
      ((∃ ts ∈ timestamps, ts ≤ 1) → pindex = chainContext.genesis) ∧
      ∀ chain : List CBlockIndex, FollowsChain chainContext chain →
        (∀ block ∈ chain, 0 ≤ block.blockTimeMax) →
        ∃ skipped : List CBlockIndex,
          ScanSkips chain pindex skipped ∧
          ∀ block ∈ skipped, ∀ ts ∈ timestamps,
            block.blockTimeMax < max ts 1 - chainContext.TIMESTAMP_WINDOW :=
  rescan_starts_at_lowest chainContext chainRequests [] sampleTip chainLoopState rfl rfl rfl rfl
    (List.cons_ne_nil _ _) ⟨by decide, by decide⟩ (by decide)

/-- The example chain follows its own queries, and the scan of the example
starts at the middle block: only the genesis block is left out, and the wallet
that `importmulti` leaves behind holds the two imports, the rescan from
height 1 and the reacceptance. A request with the timestamp 0 moves the start
to the genesis block. -/
theorem chainContext_followsChain :
    FollowsChain chainContext sampleChain ∧
    rescanStart chainContext chainLoopState.nLowestTimestamp = some sampleMiddle ∧
    ScanSkips sampleChain (some sampleMiddle) [sampleGenesis] ∧
    (importmultiBody chainContext chainRequests true []).wallet =
      ["76a914", "a914", "rescan from height 1", "reaccept"] ∧
    (importmultiBody chainContext
      (chainRequests ++ [VOBJ [("scriptPubKey", VSTR "51"), ("timestamp", VNUM "0")]])
      true []).wallet =
      ["76a914", "a914", "51", "rescan from height 0", "reaccept"] :=
  ⟨⟨fun _ => rfl, rfl⟩, by decide, ⟨[sampleTip], rfl⟩, by rfl, by rfl⟩

end Wallet

end Governance
